import Mathlib

/-! # uftrace, `utils/dwarf.c`: argument and return-value specs from DWARF

A shallow embedding of `utils/dwarf.c`.  The libdw session is a value of type
`Dwarf`: compile units with their function records, and a table resolving a
type reference to the record it names.  C strings are `String`s whose
characters stand for bytes.  The two `char buf[256]` buffers are modelled with
their capacity: `snprintf` cuts the text to `size - 1` bytes and `strcat`
past the end of the buffer is a fault.  The `int` counters `idx`, `fpidx` and
`pointer` are mathematical integers (a parameter list or a type chain of
`2 ^ 31` records is out of reach of the model).  The `while (!done)` loop of
`arg_type_cb` takes a fuel argument; running out of fuel is the outcome
`timeout`, which stands for no behaviour of the C code.
-/

namespace Uftrace

/-! ## Constants of `<dwarf.h>` and `<elfutils/libdw.h>` -/

def DW_AT_const_value : Nat := 0x1c
def DW_AT_type : Nat := 0x49

def DW_TAG_array_type : Nat := 0x01
def DW_TAG_enumeration_type : Nat := 0x04
def DW_TAG_formal_parameter : Nat := 0x05
def DW_TAG_pointer_type : Nat := 0x0f
def DW_TAG_reference_type : Nat := 0x10
def DW_TAG_ptr_to_member_type : Nat := 0x1f
def DW_TAG_base_type : Nat := 0x24
def DW_TAG_enumerator : Nat := 0x28
def DW_TAG_rvalue_reference_type : Nat := 0x42

def DW_FORM_ref_addr : Nat := 0x10
def DW_FORM_ref1 : Nat := 0x11
def DW_FORM_ref2 : Nat := 0x12
def DW_FORM_ref4 : Nat := 0x13
def DW_FORM_ref8 : Nat := 0x14
def DW_FORM_ref_udata : Nat := 0x15
def DW_FORM_ref_sig8 : Nat := 0x20
def DW_FORM_GNU_ref_alt : Nat := 0x1f20

def DWARF_CB_OK : Int := 0
def DWARF_CB_ABORT : Int := 1

/-! ## Outcomes -/

/-- Undefined behaviour the C code can run into. -/
inductive Fault where
  /-- `strcmp` on the null pointer `dwarf_diename` returned. -/
  | strcmp_null
  /-- A null pointer handed to `%s` or to `strcat`. -/
  | null_string
  /-- The uninitialised record read after an unchecked `dwarf_formref_die`
  that failed in the first iteration. -/
  | bad_die
  /-- The value read after an unchecked `dwarf_attr`/`dwarf_formsdata` that failed. -/
  | no_value
  /-- The write of `strcat` past the end of the buffer. -/
  | overflow
  deriving DecidableEq, Repr

/-- Result of running a piece of the C code with a loop budget. -/
inductive Outcome (α : Type) where
  /-- The code returned. -/
  | ret (a : α)
  /-- The code ran into undefined behaviour. -/
  | fault (f : Fault)
  /-- The loop budget was used up before the code returned. -/
  | timeout
  deriving DecidableEq, Repr

/-- Sequencing of outcomes. -/
def Outcome.bind {α β : Type} (x : Outcome α) (f : α → Outcome β) : Outcome β :=
  match x with
  | .ret a => f a
  | .fault e => .fault e
  | .timeout => .timeout

/-- The code returned (no fault, budget not used up). -/
def Outcome.returns {α : Type} (x : Outcome α) : Prop :=
  ∃ a, x = .ret a

/-! ## The libdw data model -/

/-- A `Dwarf_Attribute`: its name, its form, the record offset
`dwarf_formref_die` resolves it to and the value `dwarf_formsdata` reads. -/
structure Dwarf_Attribute where
  name : Nat
  form : Nat
  ref : Nat := 0
  sdata : Int := 0

/-- A `Dwarf_Die`: tag, `dwarf_diename`, attributes in file order, children in
sibling order, `dwarf_cuoffset`, and what `dwarf_diecu` followed by
`dwarf_diename` gives (`none`: no compile unit found; `some none`: the
compile unit has no name). -/
structure Dwarf_Die where
  tag : Nat
  name : Option String := none
  attrs : List Dwarf_Attribute := []
  children : List Dwarf_Die
  cuoffset : Nat := 0
  diecu : Option (Option String) := none

/-- A compile unit as `dwarf_addrdie` and `dwarf_getfuncs` see it: the address
ranges it covers and its function records in scan order. -/
structure CompileUnit where
  ranges : List (Nat × Nat)
  funcs : List Dwarf_Die

/-- The contents of an open `Dwarf` session. -/
structure Dwarf where
  cus : List CompileUnit
  offdie : Nat → Option Dwarf_Die

/-- The handle `struct debug_info` (fields `dw` and `offset`). -/
structure debug_info where
  dw : Option Dwarf
  offset : Nat

/-- Model of `dwarf_attr`: the first attribute of that name. -/
def dwarf_attr (die : Dwarf_Die) (aname : Nat) : Option Dwarf_Attribute :=
  die.attrs.find? (fun a => a.name == aname)

/-- Model of `dwarf_hasattr`. -/
def dwarf_hasattr (die : Dwarf_Die) (aname : Nat) : Bool :=
  die.attrs.any (fun a => a.name == aname)

/-- Model of `dwarf_formref_die`. -/
def dwarf_formref_die (dw : Dwarf) (attr : Dwarf_Attribute) : Option Dwarf_Die :=
  dw.offdie attr.ref

/-- Model of `dwarf_addrdie`: the first compile unit covering the address. -/
def dwarf_addrdie (dw : Dwarf) (addr : Nat) : Option CompileUnit :=
  dw.cus.find? (fun cu => cu.ranges.any (fun r => decide (r.1 ≤ addr) && decide (addr < r.2)))

/-- Model of `dwarf_getattrs(die, cb, arg, 0)` on a list of attributes: the
callback runs on each attribute in turn until it returns something other than
`DWARF_CB_OK`. -/
def getattrs_from {σ : Type} (cb : Dwarf_Attribute → σ → Outcome (Int × σ)) :
    List Dwarf_Attribute → σ → Outcome σ
  | [], s => .ret s
  | a :: rest, s =>
    match cb a s with
    | .ret (rc, s1) => if rc = DWARF_CB_OK then getattrs_from cb rest s1 else .ret s1
    | .fault e => .fault e
    | .timeout => .timeout

/-- Model of `dwarf_getattrs(die, cb, arg, 0)`. -/
def dwarf_getattrs {σ : Type} (die : Dwarf_Die)
    (cb : Dwarf_Attribute → σ → Outcome (Int × σ)) (s : σ) : Outcome σ :=
  getattrs_from cb die.attrs s

/-- Model of `dwarf_getfuncs(cudie, cb, arg, 0)`: the callback runs on each
function record in turn until it returns something other than `DWARF_CB_OK`. -/
def dwarf_getfuncs {σ : Type} (cb : Dwarf_Die → σ → Outcome (Int × σ)) :
    List Dwarf_Die → σ → Outcome σ
  | [], s => .ret s
  | f :: rest, s =>
    match cb f s with
    | .ret (rc, s1) => if rc = DWARF_CB_OK then dwarf_getfuncs cb rest s1 else .ret s1
    | .fault e => .fault e
    | .timeout => .timeout

/-! ## C library and uftrace helpers -/

/-- Text of `%d` and `%ld`. -/
def fmt_d (v : Int) : String := toString v

/-- Text of `%lx`. -/
def fmt_lx (v : Nat) : String := ⟨Nat.toDigits 16 v⟩

/-- Result of `snprintf(buf, size, ...)` producing `text`: at most `size - 1` bytes. -/
def snprintf (size : Nat) (text : String) : String := ⟨text.data.take (size - 1)⟩

/-- Result of `strcat(dst, src)` where `dst` is a buffer of `cap` bytes. -/
def strcat (cap : Nat) (dst src : String) : Outcome String :=
  if dst.length + src.length < cap then .ret (dst ++ src) else .fault .overflow

/-- Modelled from the spec: `strjoin` of `utils/utils.c` (not among the
sources), the string-join utility for building comma-separated lists; a null
left operand gives the right operand alone. -/
def strjoin (left : Option String) (right delim : String) : String :=
  match left with
  | none => right
  | some l => l ++ delim ++ right

/-- Modelled from the spec: `enum uftrace_arg_format` of `utils/filter.h` (not
among the sources), restricted to the format tags the spec lists. -/
inductive uftrace_arg_format where
  | ARG_FMT_AUTO
  | ARG_FMT_STR
  | ARG_FMT_CHAR
  | ARG_FMT_FLOAT
  | ARG_FMT_ENUM
  deriving DecidableEq, Repr

open uftrace_arg_format

/-- The process-wide enum dictionary `dwarf_enum`, as the sequence of
declaration strings handed to `parse_enum_string`. -/
abbrev Registry := List String

/-- Modelled from the spec: `parse_enum_string` of `utils/filter.c` (not among
the sources), the enum-declaration parser that updates the shared dictionary. -/
def parse_enum_string (enum_def : String) (reg : Registry) : Registry :=
  reg ++ [enum_def]

/-! ## `utils/dwarf.c` -/

/-- The working record `struct type_data`. -/
structure type_data where
  fmt : uftrace_arg_format
  size : Int
  pointer : Int
  enum_name : Option String
  enum_str : Option String
  deriving DecidableEq, Repr

/-- The initialiser `{ .fmt = ARG_FMT_AUTO }` of `add_type_info`. -/
def type_data.init : type_data :=
  { fmt := ARG_FMT_AUTO, size := 0, pointer := 0, enum_name := none, enum_str := none }

/-- The `while` loop of `fill_enum_str` over the current child and its
siblings, `str` being the text joined so far. -/
def fill_enum_loop : List Dwarf_Die → Option String → Outcome (Option String)
  | [], str => .ret str
  | e_val :: sibs, str =>
    if e_val.tag = DW_TAG_enumerator then
      match dwarf_attr e_val DW_AT_const_value with
      | none => .fault .no_value
      | some attr_val =>
        match e_val.name with
        | none => .fault .null_string
        | some ename =>
          fill_enum_loop sibs
            (some (strjoin str (snprintf 256 (ename ++ "=" ++ fmt_d attr_val.sdata)) ","))
    else .ret str

/-- Embedding of `fill_enum_str`. -/
def fill_enum_str (die : Dwarf_Die) : Outcome (Option String) :=
  match die.children with
  | [] => .ret none
  | e_val :: sibs => fill_enum_loop (e_val :: sibs) none

/-- The character set of `strpbrk(tmp, "+-.() ")`. -/
def forbidden : List Char := ['+', '-', '.', '(', ')', ' ']

/-- The replacement loop of `make_enum_name` over the rest of the string. -/
def replace_forbidden : List Char → List Char
  | [] => []
  | c :: cs => if c ∈ forbidden then '_' :: replace_forbidden cs else c :: replace_forbidden cs

/-- The compile-unit name `make_enum_name` prints. -/
def cu_name_of (die : Dwarf_Die) : String :=
  match die.diecu with
  | some (some n) => n
  | _ => "unnamed"

/-- The text of `xasprintf(&enum_name, "%s_%lx", cu_name, off)`. -/
def enum_name_raw (die : Dwarf_Die) : String :=
  cu_name_of die ++ "_" ++ fmt_lx die.cuoffset

/-- Embedding of `make_enum_name`. -/
def make_enum_name (die : Dwarf_Die) : String :=
  ⟨replace_forbidden (enum_name_raw die).data⟩

/-- The `switch (aform)` of `arg_type_cb`: the reference forms. -/
def is_ref_form (aform : Nat) : Bool :=
  aform == DW_FORM_ref1 || aform == DW_FORM_ref2 || aform == DW_FORM_ref4 ||
  aform == DW_FORM_ref8 || aform == DW_FORM_ref_udata || aform == DW_FORM_ref_addr ||
  aform == DW_FORM_ref_sig8 || aform == DW_FORM_GNU_ref_alt

/-- The `case DW_TAG_base_type` of `arg_type_cb`. -/
def base_type_case (tname : String) (td : type_data) : type_data :=
  if tname = "char" ∨ tname = "signed char" then
    if td.pointer = 0 then { td with fmt := ARG_FMT_CHAR }
    else if td.pointer = 1 then { td with fmt := ARG_FMT_STR }
    else td
  else if tname = "float" then { td with fmt := ARG_FMT_FLOAT, size := 32 }
  else if tname = "double" then { td with fmt := ARG_FMT_FLOAT, size := 64 }
  else td

/-- The name `arg_type_cb` stores in `td->enum_name`: the record's own name,
or the one `make_enum_name` builds when it has none. -/
def enum_name_of (die : Dwarf_Die) : String :=
  match die.name with
  | some tname => tname
  | none => make_enum_name die

/-- The `case DW_TAG_enumeration_type` of `arg_type_cb`. -/
def enum_type_case (die : Dwarf_Die) (td : type_data) (reg : Registry) :
    Outcome (type_data × Registry) :=
  (fill_enum_str die).bind fun enum_str =>
    match enum_str with
    | none => .ret ({ td with enum_str := none }, reg)
    | some str =>
      let enum_name := enum_name_of die
      let enum_def := "enum " ++ enum_name ++ " \x7b " ++ str ++ " \x7d"
      .ret ({ td with fmt := ARG_FMT_ENUM, enum_name := some enum_name, enum_str := some str },
            parse_enum_string enum_def reg)

/-- Model of the call `dwarf_formref_die(attr, &die)` whose return value
`arg_type_cb` ignores: on success `die` holds the record found, on failure it
keeps what it held, `none` standing for the uninitialised variable. -/
def formref_into (dw : Dwarf) (attr : Dwarf_Attribute) (die : Option Dwarf_Die) :
    Option Dwarf_Die :=
  match dwarf_formref_die dw attr with
  | some d => some d
  | none => die

/-- The `while (!done)` loop of `arg_type_cb`, one iteration per unit of fuel,
entered with the function-scope variable `die` holding `cur`.
`dwarf_hasattr` followed by `dwarf_attr` is the single lookup `dwarf_attr`.
After a failed `dwarf_formref_die` the loop goes on with the record `die`
still holds; reading the uninitialised `die` is the fault `bad_die`. -/
def arg_type_loop_from (dw : Dwarf) :
    Nat → Option Dwarf_Die → Dwarf_Attribute → type_data → Registry →
      Outcome (type_data × Registry)
  | 0, _, _, _, _ => .timeout
  | fuel + 1, cur, attr, td, reg =>
    if is_ref_form attr.form then
      match formref_into dw attr cur with
      | none => .fault .bad_die
      | some die =>
        if die.tag = DW_TAG_base_type then
          match die.name with
          | none => .fault .strcmp_null
          | some tname => .ret (base_type_case tname td, reg)
        else if die.tag = DW_TAG_enumeration_type then
          enum_type_case die td reg
        else
          let td1 : type_data :=
            if die.tag = DW_TAG_pointer_type ∨ die.tag = DW_TAG_ptr_to_member_type then
              { td with pointer := td.pointer + 1 }
            else td
          match dwarf_attr die DW_AT_type with
          | none => .ret (td1, reg)
          | some type => arg_type_loop_from dw fuel (some die) type td1 reg
    else .ret (td, reg)

/-- The `while (!done)` loop of `arg_type_cb` as the function enters it, with
`die` uninitialised. -/
def arg_type_loop (dw : Dwarf) (fuel : Nat) (attr : Dwarf_Attribute) (td : type_data)
    (reg : Registry) : Outcome (type_data × Registry) :=
  arg_type_loop_from dw fuel none attr td reg

/-- Embedding of `arg_type_cb`. -/
def arg_type_cb (dw : Dwarf) (fuel : Nat) (attr : Dwarf_Attribute)
    (s : type_data × Registry) : Outcome (Int × type_data × Registry) :=
  if attr.name ≠ DW_AT_type then .ret (DWARF_CB_OK, s)
  else (arg_type_loop dw fuel attr s.1 s.2).bind fun r => .ret (DWARF_CB_ABORT, r)

/-- The state `struct arg_data`. -/
structure arg_data where
  name : String
  argspec : Option String
  idx : Int
  fpidx : Int
  deriving DecidableEq, Repr

/-- The `switch (data.fmt)` of `add_type_info`: the new contents of the buffer
`spec` of `len` bytes and the counters. -/
def type_info_switch (spec : String) (len : Nat) (ad : arg_data) (data : type_data) :
    Outcome (String × arg_data) :=
  match data.fmt with
  | ARG_FMT_CHAR => (strcat len spec "/c").bind fun s => .ret (s, ad)
  | ARG_FMT_STR => (strcat len spec "/s").bind fun s => .ret (s, ad)
  | ARG_FMT_FLOAT =>
    .ret (snprintf len ("fparg" ++ fmt_d (ad.fpidx + 1) ++ "/" ++ fmt_d data.size),
          { ad with fpidx := ad.fpidx + 1, idx := ad.idx - 1 })
  | ARG_FMT_ENUM =>
    (strcat len spec "/e:").bind fun s =>
      match data.enum_name with
      | none => .fault .null_string
      | some ename => (strcat len s ename).bind fun s1 => .ret (s1, ad)
  | ARG_FMT_AUTO => .ret (spec, ad)

/-- Embedding of `add_type_info`: the new contents of the buffer `spec` of
`len` bytes, the counters, and the registry. -/
def add_type_info (dw : Dwarf) (fuel : Nat) (spec : String) (len : Nat) (die : Dwarf_Die)
    (ad : arg_data) (reg : Registry) : Outcome (String × arg_data × Registry) :=
  (dwarf_getattrs die (arg_type_cb dw fuel) (type_data.init, reg)).bind fun r =>
    (type_info_switch spec len ad r.1).bind fun t => .ret (t.1, t.2, r.2)

/-- The `while` loop of `get_argspec_cb` over the current child and its siblings. -/
def argspec_loop (dw : Dwarf) (fuel : Nat) :
    List Dwarf_Die → arg_data → Registry → Outcome (arg_data × Registry)
  | [], ad, reg => .ret (ad, reg)
  | arg :: sibs, ad, reg =>
    if arg.tag = DW_TAG_formal_parameter then
      let ad1 : arg_data := { ad with idx := ad.idx + 1 }
      (add_type_info dw fuel (snprintf 256 ("arg" ++ fmt_d ad1.idx)) 256 arg ad1 reg).bind fun r =>
        let buf := r.1
        let ad2 := r.2.1
        let ad3 : arg_data :=
          match ad2.argspec with
          | none => { ad2 with argspec := some ("@" ++ buf) }
          | some s => { ad2 with argspec := some (strjoin (some s) buf ",") }
        argspec_loop dw fuel sibs ad3 r.2.2
    else .ret (ad, reg)

/-- Embedding of `get_argspec_cb`. -/
def get_argspec_cb (dw : Dwarf) (fuel : Nat) (die : Dwarf_Die)
    (s : arg_data × Registry) : Outcome (Int × arg_data × Registry) :=
  match die.name with
  | none => .fault .strcmp_null
  | some n =>
    if n ≠ s.1.name then .ret (DWARF_CB_OK, s)
    else
      match die.children with
      | [] => .ret (DWARF_CB_ABORT, s)
      | arg :: sibs =>
        (argspec_loop dw fuel (arg :: sibs) s.1 s.2).bind fun r => .ret (DWARF_CB_ABORT, r)

/-- Embedding of `get_retspec_cb`. -/
def get_retspec_cb (dw : Dwarf) (fuel : Nat) (die : Dwarf_Die)
    (s : arg_data × Registry) : Outcome (Int × arg_data × Registry) :=
  match die.name with
  | none => .fault .strcmp_null
  | some n =>
    if n ≠ s.1.name then .ret (DWARF_CB_OK, s)
    else if dwarf_hasattr die DW_AT_type then
      (add_type_info dw fuel (snprintf 256 "@retval") 256 die s.1 s.2).bind fun r =>
        .ret (DWARF_CB_ABORT, { r.2.1 with argspec := some r.1 }, r.2.2)
    else .ret (DWARF_CB_ABORT, s)

/-- The initialiser `{ .name = name }` of `struct arg_data`. -/
def arg_data.init (name : String) : arg_data :=
  { name := name, argspec := none, idx := 0, fpidx := 0 }

/-- The `unsigned long` difference `addr - dinfo->offset`. -/
def file_addr (dinfo : debug_info) (addr : Nat) : Nat :=
  (addr % 2 ^ 64 + 2 ^ 64 - dinfo.offset % 2 ^ 64) % 2 ^ 64

/-- Embedding of `get_dwarf_argspec`: the returned string (`none` for `NULL`)
and the registry afterwards. -/
def get_dwarf_argspec (fuel : Nat) (dinfo : debug_info) (name : String) (addr : Nat)
    (reg : Registry) : Outcome (Option String × Registry) :=
  match dinfo.dw with
  | none => .ret (none, reg)
  | some dw =>
    match dwarf_addrdie dw (file_addr dinfo addr) with
    | none => .ret (none, reg)
    | some cudie =>
      (dwarf_getfuncs (get_argspec_cb dw fuel) cudie.funcs (arg_data.init name, reg)).bind
        fun r => .ret (r.1.argspec, r.2)

/-- Embedding of `get_dwarf_retspec`: the returned string (`none` for `NULL`)
and the registry afterwards. -/
def get_dwarf_retspec (fuel : Nat) (dinfo : debug_info) (name : String) (addr : Nat)
    (reg : Registry) : Outcome (Option String × Registry) :=
  match dinfo.dw with
  | none => .ret (none, reg)
  | some dw =>
    match dwarf_addrdie dw (file_addr dinfo addr) with
    | none => .ret (none, reg)
    | some cudie =>
      (dwarf_getfuncs (get_retspec_cb dw fuel) cudie.funcs (arg_data.init name, reg)).bind
        fun r => .ret (r.1.argspec, r.2)

/-- Embedding of `release_debug_info`: the handle afterwards, and the sessions
handed to `dwarf_end` so far, oldest first. -/
def release_debug_info (dinfo : debug_info) (ended : List Dwarf) : debug_info × List Dwarf :=
  match dinfo.dw with
  | none => (dinfo, ended)
  | some dw => ({ dinfo with dw := none }, ended ++ [dw])

/-! ## Vocabulary of the statements -/

/-- Image of an outcome under a function. -/
def Outcome.map {α β : Type} (f : α → β) (x : Outcome α) : Outcome β :=
  x.bind fun a => .ret (f a)

/-- A type chain: `attr` has a reference form and resolves to the first of the
wrapper records `ws`; each wrapper is neither a base type nor an enumeration
and its `DW_AT_type` attribute has a reference form and resolves to the next
record; the last reference resolves to `last`. -/
def TypeChain (dw : Dwarf) : Dwarf_Attribute → List Dwarf_Die → Dwarf_Die → Prop
  | attr, [], last => is_ref_form attr.form = true ∧ dwarf_formref_die dw attr = some last
  | attr, w :: ws, last =>
    is_ref_form attr.form = true ∧ dwarf_formref_die dw attr = some w ∧
    w.tag ≠ DW_TAG_base_type ∧ w.tag ≠ DW_TAG_enumeration_type ∧
    ∃ type, dwarf_attr w DW_AT_type = some type ∧ TypeChain dw type ws last

/-- The working record after `n` more pointer links. -/
def add_pointer (td : type_data) (n : Nat) : type_data :=
  { td with pointer := td.pointer + n }

/-- Whether a record is a pointer or pointer-to-member type. -/
def is_pointer_link (die : Dwarf_Die) : Bool :=
  die.tag == DW_TAG_pointer_type || die.tag == DW_TAG_ptr_to_member_type

/-- Number of pointer and pointer-to-member records among the wrappers. -/
def pointer_links (ws : List Dwarf_Die) : Nat :=
  (ws.filter is_pointer_link).length

/-- The record `e` is an enumerator named `nm` whose constant value is `v`. -/
def EnumeratorOf (e : Dwarf_Die) (nm : String) (v : Int) : Prop :=
  e.tag = DW_TAG_enumerator ∧ e.name = some nm ∧
    ∃ a, dwarf_attr e DW_AT_const_value = some a ∧ a.sdata = v

/-- The leading children of a record are exactly the enumerators `es`, in
order: they are followed by a child that is not an enumerator, or by nothing. -/
def LeadingEnumerators (children : List Dwarf_Die) (es : List (String × Int)) : Prop :=
  ∃ ens tail, children = ens ++ tail ∧
    List.Forall₂ (fun e p => EnumeratorOf e p.1 p.2) ens es ∧
    ∀ q ∈ tail.head?, q.tag ≠ DW_TAG_enumerator

/-- The member list of the spec: `NAME=VALUE` entries, values in signed decimal,
joined by commas in declaration order. -/
def enum_members (es : List (String × Int)) : String :=
  ",".intercalate (es.map fun e => e.1 ++ "=" ++ fmt_d e.2)

/-- The declaration string of the spec: `enum NAME { NAME1=V1,NAME2=V2,... }`. -/
def enum_declaration (name : String) (es : List (String × Int)) : String :=
  "enum " ++ name ++ " \x7b " ++ enum_members es ++ " \x7d"

/-- The type graph is acyclic: `rank` strictly decreases from every wrapper
record (neither base type nor enumeration) to the record its reference-form
`DW_AT_type` attribute names. -/
def Acyclic (dw : Dwarf) (rank : Nat → Nat) : Prop :=
  ∀ (o : Nat) (die : Dwarf_Die) (type : Dwarf_Attribute),
    dw.offdie o = some die → die.tag ≠ DW_TAG_base_type →
    die.tag ≠ DW_TAG_enumeration_type → dwarf_attr die DW_AT_type = some type →
    is_ref_form type.form = true → rank type.ref < rank o

/-- What the variable `die` of `arg_type_cb` can hold when the loop is at
`attr`: nothing yet, or the wrapper record whose type attribute `attr` is. -/
def HeldBy (cur : Option Dwarf_Die) (attr : Dwarf_Attribute) : Prop :=
  ∀ w, cur = some w →
    w.tag ≠ DW_TAG_base_type ∧ w.tag ≠ DW_TAG_enumeration_type ∧
    dwarf_attr w DW_AT_type = some attr

/-- The `DW_AT_type` attribute of the record, when it has a reference form,
names a record of the session. -/
def TypeResolves (dw : Dwarf) (die : Dwarf_Die) : Prop :=
  ∀ type : Dwarf_Attribute, dwarf_attr die DW_AT_type = some type →
    is_ref_form type.form = true → ∃ d, dwarf_formref_die dw type = some d

/-- The type references of the wrapper records of the session (neither base
type nor enumeration) name records of the session. -/
def GraphResolves (dw : Dwarf) : Prop :=
  ∀ (o : Nat) (die : Dwarf_Die), dw.offdie o = some die → die.tag ≠ DW_TAG_base_type →
    die.tag ≠ DW_TAG_enumeration_type → TypeResolves dw die

/-- The type references of the function records of the session and of their
formal parameters name records of the session. -/
def EntriesResolve (dw : Dwarf) : Prop :=
  ∀ cu ∈ dw.cus, ∀ f ∈ cu.funcs,
    TypeResolves dw f ∧
    ∀ p ∈ f.children, p.tag = DW_TAG_formal_parameter → TypeResolves dw p

/-- A result computed from the empty registry, replayed on the registry `reg`. -/
def with_registry {α : Type} (reg : Registry) (p : α × Registry) : α × Registry :=
  (p.1, reg ++ p.2)

/-- A callback result computed from the empty registry, replayed on `reg`. -/
def cb_with_registry {α : Type} (reg : Registry) (p : Int × α × Registry) :
    Int × α × Registry :=
  (p.1, p.2.1, reg ++ p.2.2)

/-- The classification of the type of a parameter or function record: the
working record `add_type_info` gets from `dwarf_getattrs`. -/
def classify (dw : Dwarf) (fuel : Nat) (die : Dwarf_Die) : Outcome type_data :=
  (dwarf_getattrs die (arg_type_cb dw fuel) (type_data.init, [])).map Prod.fst

/-- The suffix of the spec grammar for a classification that is not Float. -/
def token_suffix (td : type_data) : String :=
  match td.fmt with
  | ARG_FMT_CHAR => "/c"
  | ARG_FMT_STR => "/s"
  | ARG_FMT_ENUM => "/e:" ++ td.enum_name.getD ""
  | _ => ""

/-- Whether a classification is Float. -/
def is_float (td : type_data) : Bool := decide (td.fmt = ARG_FMT_FLOAT)

/-- The token of the parameter at position `i` (from 0) as the spec words it:
`fpargK/SIZE` with `K` the number of Float classifications among the first
`i + 1` parameters when its own is Float, otherwise `argN` and the suffix with
`N` the number of other classifications among the first `i + 1` parameters. -/
def claimed_token (tds : List type_data) (i : Nat) (td : type_data) : String :=
  if is_float td then
    "fparg" ++ toString ((tds.take (i + 1)).filter is_float).length ++ "/" ++ fmt_d td.size
  else
    "arg" ++ toString ((tds.take (i + 1)).filter fun t => !is_float t).length ++
      token_suffix td

/-- The tokens of the parameters from position `i` on, in declaration order. -/
def claimed_tokens_from (tds : List type_data) : Nat → List type_data → List String
  | _, [] => []
  | i, td :: rest => claimed_token tds i td :: claimed_tokens_from tds (i + 1) rest

/-- The argument spec as the spec words it: `@` and the comma-joined tokens. -/
def claimed_argspec (tds : List type_data) : String :=
  "@" ++ ",".intercalate (claimed_tokens_from tds 0 tds)

/-- The `argspec` field after the loop of `get_argspec_cb` has appended the
tokens `toks` to `acc`. -/
def join_tokens (acc : Option String) : List String → Option String
  | [] => acc
  | t :: ts =>
    join_tokens
      (some (match acc with
        | none => "@" ++ t
        | some s => s ++ "," ++ t)) ts

/-- A working record classified Enum carries a name. -/
def enum_named (td : type_data) : Prop :=
  td.fmt = ARG_FMT_ENUM → ∃ n, td.enum_name = some n

/-- A working record classified Float carries the size 32 or 64. -/
def float_size_ok (td : type_data) : Prop :=
  td.fmt = ARG_FMT_FLOAT → td.size = 32 ∨ td.size = 64

/-- The handle is live and `cu` is the compile unit `dwarf_addrdie` finds for
the address minus the stored offset. -/
def Resolves (dinfo : debug_info) (addr : Nat) (dw : Dwarf) (cu : CompileUnit) : Prop :=
  dinfo.dw = some dw ∧ dwarf_addrdie dw (file_addr dinfo addr) = some cu

/-- The record `f` is the first of `funcs` named `name`, every record before it
having another name. -/
def FirstMatch (funcs : List Dwarf_Die) (name : String) (f : Dwarf_Die) : Prop :=
  f.name = some name ∧
  ∃ before after, funcs = before ++ f :: after ∧
    ∀ g ∈ before, ∃ n, g.name = some n ∧ n ≠ name

/-- The traversal stops at the record: it is a base type, an enumeration, or a
record without a `DW_AT_type` attribute. -/
def StopsAt (last : Dwarf_Die) : Prop :=
  last.tag = DW_TAG_base_type ∨ last.tag = DW_TAG_enumeration_type ∨
    dwarf_attr last DW_AT_type = none

/-- The record is a wrapper whose `DW_AT_type` attribute is not of a reference
form: the traversal stops one iteration after it. -/
def NonRefEnd (last : Dwarf_Die) : Prop :=
  last.tag ≠ DW_TAG_base_type ∧ last.tag ≠ DW_TAG_enumeration_type ∧
    ∃ a, dwarf_attr last DW_AT_type = some a ∧ is_ref_form a.form = false

/-- The record ends a chain that is left unclassified: a named base type whose
name is none of `char`, `signed char`, `float`, `double`, a record that is
neither base type nor enumeration and has no `DW_AT_type` attribute, or a
wrapper whose `DW_AT_type` attribute is not of a reference form. -/
def AutoEnd (last : Dwarf_Die) : Prop :=
  (last.tag = DW_TAG_base_type ∧
      ∃ tname, last.name = some tname ∧ tname ≠ "char" ∧ tname ≠ "signed char" ∧
        tname ≠ "float" ∧ tname ≠ "double") ∨
    (last.tag ≠ DW_TAG_base_type ∧ last.tag ≠ DW_TAG_enumeration_type ∧
      dwarf_attr last DW_AT_type = none) ∨
    NonRefEnd last

/-- Every function record the scan for `name` looks at has a name: the scan
goes on to the next record only past a record whose name differs from `name`. -/
def ScannedNamed (name : String) : List Dwarf_Die → Prop
  | [] => True
  | g :: rest => ∃ n, g.name = some n ∧ (n ≠ name → ScannedNamed name rest)

/-- Every base-type record of the session has a name. -/
def BaseTypesNamed (dw : Dwarf) : Prop :=
  ∀ (o : Nat) (die : Dwarf_Die), dw.offdie o = some die → die.tag = DW_TAG_base_type →
    die.name ≠ none

/-- The lowercase hexadecimal digit of a value below 16, as the spec words the
offset text. -/
def claimed_hex_digit (d : Nat) : Char := "0123456789abcdef".data.getD d '0'

/-- The lowercase hexadecimal numeral of `v`, as the spec words the offset
text: a single digit below 16, otherwise the numeral of `v / 16` followed by
the digit of `v % 16`. -/
def claimed_hex (v : Nat) : List Char :=
  if _h : v < 16 then [claimed_hex_digit v]
  else claimed_hex (v / 16) ++ [claimed_hex_digit (v % 16)]
termination_by v
decreasing_by omega

/-- The value of a numeral in the digits `0-9a-f`, most significant digit
first. -/
def hex_value (cs : List Char) : Nat :=
  cs.foldl (fun acc c => 16 * acc + "0123456789abcdef".data.indexOf c) 0

/-! ## Sample debug data -/

/-- A reference-form `DW_AT_type` attribute naming the record at offset `o`. -/
def type_ref (o : Nat) : Dwarf_Attribute :=
  { name := DW_AT_type, form := DW_FORM_ref4, ref := o }

/-- A formal parameter whose type is the record at offset `o`. -/
def param_of (o : Nat) : Dwarf_Die :=
  { tag := DW_TAG_formal_parameter, attrs := [type_ref o], children := [] }

/-- An enumerator `nm = v`. -/
def enumerator_of (nm : String) (v : Int) : Dwarf_Die :=
  { tag := DW_TAG_enumerator, name := some nm,
    attrs := [{ name := DW_AT_const_value, form := 0x0d, sdata := v }], children := [] }

/-- Type records of a small program: `int`, `float`, `double`, `char`,
`char *`, `char **`, `const char`, `const char *`, `enum color`. -/
def sample_types : Nat → Option Dwarf_Die
  | 0 => some { tag := DW_TAG_base_type, name := some "int", children := [] }
  | 1 => some { tag := DW_TAG_base_type, name := some "float", children := [] }
  | 2 => some { tag := DW_TAG_base_type, name := some "double", children := [] }
  | 3 => some { tag := DW_TAG_base_type, name := some "char", children := [] }
  | 4 => some { tag := DW_TAG_pointer_type, attrs := [type_ref 3], children := [] }
  | 5 => some { tag := DW_TAG_pointer_type, attrs := [type_ref 4], children := [] }
  | 6 => some { tag := 0x26, attrs := [type_ref 3], children := [] }
  | 7 => some { tag := DW_TAG_pointer_type, attrs := [type_ref 6], children := [] }
  | 8 => some { tag := DW_TAG_enumeration_type, name := some "color",
                children := [enumerator_of "A" 0, enumerator_of "B" 1, enumerator_of "C" 5] }
  | _ => none

/-- An enumerator name of 300 bytes. -/
def long_name : String := ⟨List.replicate 300 'a'⟩

/-- A session whose only type record is `enum E` with the single enumerator
`long_name = 0`. -/
def long_enumerator_dw : Dwarf :=
  { cus := []
    offdie := fun o =>
      match o with
      | 0 => some { tag := DW_TAG_enumeration_type, name := some "E",
                    children := [enumerator_of long_name 0] }
      | _ => none }

/-- A session with one compile unit covering `[0x1000, 0x2000)` whose only
function record has no name. -/
def nameless_dinfo : debug_info :=
  { dw := some
      { cus := [{ ranges := [(0x1000, 0x2000)],
                  funcs := [{ tag := 0x2e, name := none, children := [] }] }]
        offdie := fun _ => none }
    offset := 0 }

/-- A function `f` that takes and returns the type at offset 0. -/
def cyclic_func : Dwarf_Die :=
  { tag := 0x2e, name := some "f", attrs := [type_ref 0], children := [param_of 0] }

/-- A session whose only type record, at offset 0, is a pointer type whose
wrapped type is itself, and whose only function is `cyclic_func`. -/
def cyclic_dw : Dwarf :=
  { cus := [{ ranges := [(0x1000, 0x2000)], funcs := [cyclic_func] }]
    offdie := fun o =>
      match o with
      | 0 => some { tag := DW_TAG_pointer_type, attrs := [type_ref 0], children := [] }
      | _ => none }

/-- A live handle on `cyclic_dw` with offset 0. -/
def cyclic_dinfo : debug_info :=
  { dw := some cyclic_dw, offset := 0 }

/-- A rank for the type records of the sample program: the offset. -/
def sample_rank (o : Nat) : Nat := if o ≤ 8 then o else 0

/-- An enumeration name of 249 bytes. -/
def long_enum_name : String := ⟨List.replicate 249 'n'⟩

/-- A live handle on a session whose function `f` has one parameter of the type
`enum long_enum_name { A=0 }`. -/
def long_enum_dinfo : debug_info :=
  { dw := some
      { cus := [{ ranges := [(0x1000, 0x2000)],
                  funcs := [{ tag := 0x2e, name := some "f", children := [param_of 0] }] }]
        offdie := fun o =>
          match o with
          | 0 => some { tag := DW_TAG_enumeration_type, name := some long_enum_name,
                        children := [enumerator_of "A" 0] }
          | _ => none }
    offset := 0 }

/-- Type records of a second small program: `double`, `double *`, an
enumeration without children, a typedef of it, `struct s`, `struct s *`,
`void *`, `unsigned char`, a const wrapper whose type attribute is an inline
constant, a reference to `double *`, `float`, and an enumeration whose first
child is not an enumerator. -/
def more_types : Nat → Option Dwarf_Die
  | 0 => some { tag := DW_TAG_base_type, name := some "double", children := [] }
  | 1 => some { tag := DW_TAG_pointer_type, attrs := [type_ref 0], children := [] }
  | 2 => some { tag := DW_TAG_enumeration_type, name := some "empty", children := [] }
  | 3 => some { tag := 0x16, name := some "empty_t", attrs := [type_ref 2], children := [] }
  | 4 => some { tag := 0x13, name := some "s", children := [] }
  | 5 => some { tag := DW_TAG_pointer_type, attrs := [type_ref 4], children := [] }
  | 6 => some { tag := DW_TAG_pointer_type, children := [] }
  | 7 => some { tag := DW_TAG_base_type, name := some "unsigned char", children := [] }
  | 8 => some { tag := 0x26, attrs := [{ name := DW_AT_type, form := 0x0b }], children := [] }
  | 9 => some { tag := DW_TAG_reference_type, attrs := [type_ref 1], children := [] }
  | 10 => some { tag := DW_TAG_base_type, name := some "float", children := [] }
  | 11 => some { tag := DW_TAG_enumeration_type, name := some "odd",
                 children := [{ tag := 0x2e, name := some "member", children := [] },
                              enumerator_of "A" 0] }
  | _ => none

/-- A session over `more_types` with one compile unit covering `[0x1000, 0x2000)`. -/
def more_dw (funcs : List Dwarf_Die) : Dwarf :=
  { cus := [{ ranges := [(0x1000, 0x2000)], funcs := funcs }], offdie := more_types }

/-- A live handle on `more_dw` with offset 0. -/
def more_dinfo (funcs : List Dwarf_Die) : debug_info :=
  { dw := some (more_dw funcs), offset := 0 }

/-- A live handle on the sample session whose compile unit has a function
record without a name before the function `f(int)` returning `int`. -/
def nameless_first_dinfo : debug_info :=
  { dw := some
      { cus := [{ ranges := [(0x1000, 0x2000)],
                  funcs := [{ tag := 0x2e, name := none, children := [] },
                            { tag := 0x2e, name := some "f", attrs := [type_ref 0],
                              children := [param_of 0] }] }]
        offdie := sample_types }
    offset := 0 }

/-- A session whose type records are a pointer type whose wrapped type is
itself, at offset 0, and `int`, at offset 1, and whose only function `g` has
the two formal parameters of these types. -/
def cyclic_param_dw : Dwarf :=
  { cus := [{ ranges := [(0x1000, 0x2000)],
              funcs := [{ tag := 0x2e, name := some "g",
                          children := [param_of 0, param_of 1] }] }]
    offdie := fun o =>
      match o with
      | 0 => some { tag := DW_TAG_pointer_type, attrs := [type_ref 0], children := [] }
      | 1 => some { tag := DW_TAG_base_type, name := some "int", children := [] }
      | _ => none }

/-- A live handle on `cyclic_param_dw` with offset 0. -/
def cyclic_param_dinfo : debug_info :=
  { dw := some cyclic_param_dw, offset := 0 }

/-- A session whose type records are `int` and an enumeration with a name of
249 bytes and the enumerator `A=0`, and whose only function `h` takes an `int`
and the enumeration and returns the enumeration. -/
def long_enum_both_dw : Dwarf :=
  { cus := [{ ranges := [(0x1000, 0x2000)],
              funcs := [{ tag := 0x2e, name := some "h", attrs := [type_ref 1],
                          children := [param_of 0, param_of 1] }] }]
    offdie := fun o =>
      match o with
      | 0 => some { tag := DW_TAG_base_type, name := some "int", children := [] }
      | 1 => some { tag := DW_TAG_enumeration_type, name := some long_enum_name,
                    children := [enumerator_of "A" 0] }
      | _ => none }

/-- A live handle on `long_enum_both_dw` with offset 0. -/
def long_enum_both_dinfo : debug_info :=
  { dw := some long_enum_both_dw, offset := 0 }

/-- A session whose only type record, at offset 0, is a pointer type whose
type attribute names the offset 1, where there is no record, and whose only
function `f` takes and returns the type at offset 0. -/
def dangling_dw : Dwarf :=
  { cus := [{ ranges := [(0x1000, 0x2000)],
              funcs := [{ tag := 0x2e, name := some "f", attrs := [type_ref 0],
                          children := [param_of 0] }] }]
    offdie := fun o =>
      match o with
      | 0 => some { tag := DW_TAG_pointer_type, attrs := [type_ref 1], children := [] }
      | _ => none }

/-- A live handle on `dangling_dw` with offset 0. -/
def dangling_dinfo : debug_info :=
  { dw := some dangling_dw, offset := 0 }

/-- An enumeration name of 245 bytes. -/
def wide_enum_name : String := ⟨List.replicate 245 'w'⟩

/-- A session whose type records are `int`, an enumeration with a name of 245
bytes and the enumerator `A=0`, and `char`, and whose only function `f` has the
children: an `int` parameter, a parameter of the enumeration, a variable and a
`char` parameter. -/
def wide_enum_dw : Dwarf :=
  { cus := [{ ranges := [(0x1000, 0x2000)],
              funcs := [{ tag := 0x2e, name := some "f",
                          children := [param_of 0, param_of 1,
                            { tag := 0x34, children := [] }, param_of 2] }] }]
    offdie := fun o =>
      match o with
      | 0 => some { tag := DW_TAG_base_type, name := some "int", children := [] }
      | 1 => some { tag := DW_TAG_enumeration_type, name := some wide_enum_name,
                    children := [enumerator_of "A" 0] }
      | 2 => some { tag := DW_TAG_base_type, name := some "char", children := [] }
      | _ => none }

/-- A live handle on `wide_enum_dw` with offset 0. -/
def wide_enum_dinfo : debug_info :=
  { dw := some wide_enum_dw, offset := 0 }

/-- A function record named `nm` with the given children and attributes. -/
def func_of (nm : String) (children : List Dwarf_Die) (attrs : List Dwarf_Attribute) :
    Dwarf_Die :=
  { tag := 0x2e, name := some nm, attrs := attrs, children := children }

/-- A session with one compile unit covering `[0x1000, 0x2000)`. -/
def sample_dw (funcs : List Dwarf_Die) : Dwarf :=
  { cus := [{ ranges := [(0x1000, 0x2000)], funcs := funcs }], offdie := sample_types }

/-- A live handle on `sample_dw` with offset 0. -/
def sample_dinfo (funcs : List Dwarf_Die) : debug_info :=
  { dw := some (sample_dw funcs), offset := 0 }

/-! ## Outcomes, strings and the libdw iterators -/

@[simp] theorem bind_ret {α β : Type} (a : α) (f : α → Outcome β) :
    (Outcome.ret a).bind f = f a := rfl

@[simp] theorem bind_fault {α β : Type} (e : Fault) (f : α → Outcome β) :
    (Outcome.fault e : Outcome α).bind f = .fault e := rfl

@[simp] theorem bind_timeout {α β : Type} (f : α → Outcome β) :
    (Outcome.timeout : Outcome α).bind f = .timeout := rfl

theorem snprintf_fits (size : Nat) (text : String) (h : text.length ≤ size - 1) :
    snprintf size text = text := by
  cases text with
  | mk cs =>
    have h1 : cs.length ≤ size - 1 := h
    simp [snprintf, List.take_of_length_le h1]

theorem strcat_fits (cap : Nat) (dst src : String) (h : dst.length + src.length < cap) :
    strcat cap dst src = .ret (dst ++ src) := by
  simp [strcat, h]

/-- A C `int` that is not negative prints in at most ten digits. -/
theorem fmt_d_length (v : Int) (h0 : 0 ≤ v) (h1 : v < 2 ^ 31) : (fmt_d v).length ≤ 10 := by
  obtain ⟨n, rfl⟩ := Int.eq_ofNat_of_zero_le h0
  have hn : n < 10 ^ 10 := by
    have : (n : Int) < 2 ^ 31 := h1
    omega
  exact Nat.repr_length n 10 (by decide) hn

/-- The attribute walk of `add_type_info`: the loop of `arg_type_cb` runs on
the first `DW_AT_type` attribute and the walk stops there. -/
theorem getattrs_arg_type_cb (dw : Dwarf) (fuel : Nat) (attrs : List Dwarf_Attribute)
    (td : type_data) (reg : Registry) :
    getattrs_from (arg_type_cb dw fuel) attrs (td, reg) =
      match attrs.find? (fun a => a.name == DW_AT_type) with
      | none => .ret (td, reg)
      | some a => arg_type_loop dw fuel a td reg := by
  induction attrs with
  | nil => rfl
  | cons a rest ih =>
    by_cases h : a.name = DW_AT_type
    · simp only [getattrs_from, arg_type_cb, h, List.find?, beq_self_eq_true, ne_eq,
        not_true_eq_false, if_false]
      cases arg_type_loop dw fuel a td reg <;> simp [Outcome.bind, DWARF_CB_ABORT, DWARF_CB_OK]
    · have hb : (a.name == DW_AT_type) = false := by simpa using h
      simp only [getattrs_from, arg_type_cb, List.find?, hb, ne_eq, h, not_false_eq_true,
        if_true]
      simpa using ih

theorem dwarf_getattrs_arg_type_cb (dw : Dwarf) (fuel : Nat) (die : Dwarf_Die)
    (td : type_data) (reg : Registry) :
    dwarf_getattrs die (arg_type_cb dw fuel) (td, reg) =
      match dwarf_attr die DW_AT_type with
      | none => .ret (td, reg)
      | some a => arg_type_loop dw fuel a td reg :=
  getattrs_arg_type_cb dw fuel die.attrs td reg

/-- A scan by `dwarf_getfuncs` whose callback passes over the records of
`before` and stops at `f` gives what the callback gives at `f`. -/
theorem getfuncs_stop_at {σ : Type} (cb : Dwarf_Die → σ → Outcome (Int × σ)) (s : σ)
    (f : Dwarf_Die) (after : List Dwarf_Die) :
    ∀ before : List Dwarf_Die,
      (∀ g ∈ before, cb g s = .ret (DWARF_CB_OK, s)) →
      (∀ rc s1, cb f s = .ret (rc, s1) → rc ≠ DWARF_CB_OK) →
      dwarf_getfuncs cb (before ++ f :: after) s = (cb f s).map Prod.snd := by
  intro before
  induction before with
  | nil =>
    intro _ hf
    simp only [List.nil_append, dwarf_getfuncs]
    cases hc : cb f s with
    | ret r =>
      obtain ⟨rc, s1⟩ := r
      simp [Outcome.map, hf rc s1 hc]
    | fault e => rfl
    | timeout => rfl
  | cons g rest ih =>
    intro hb hf
    have hg := hb g (List.mem_cons_self g rest)
    simp only [List.cons_append, dwarf_getfuncs, hg, if_true]
    exact ih (fun g1 hg1 => hb g1 (List.mem_cons_of_mem g hg1)) hf

theorem get_argspec_cb_skip (dw : Dwarf) (fuel : Nat) (g : Dwarf_Die) (n : String)
    (s : arg_data × Registry) (hn : g.name = some n) (hne : n ≠ s.1.name) :
    get_argspec_cb dw fuel g s = .ret (DWARF_CB_OK, s) := by
  simp [get_argspec_cb, hn, hne]

theorem get_retspec_cb_skip (dw : Dwarf) (fuel : Nat) (g : Dwarf_Die) (n : String)
    (s : arg_data × Registry) (hn : g.name = some n) (hne : n ≠ s.1.name) :
    get_retspec_cb dw fuel g s = .ret (DWARF_CB_OK, s) := by
  simp [get_retspec_cb, hn, hne]

/-- At a record of the requested name `get_argspec_cb` stops the scan. -/
theorem get_argspec_cb_match (dw : Dwarf) (fuel : Nat) (f : Dwarf_Die)
    (s : arg_data × Registry) (hn : f.name = some s.1.name) :
    get_argspec_cb dw fuel f s =
      match f.children with
      | [] => .ret (DWARF_CB_ABORT, s)
      | arg :: sibs =>
        (argspec_loop dw fuel (arg :: sibs) s.1 s.2).bind fun r => .ret (DWARF_CB_ABORT, r) := by
  simp [get_argspec_cb, hn]

/-- At a record of the requested name `get_retspec_cb` stops the scan. -/
theorem get_retspec_cb_match (dw : Dwarf) (fuel : Nat) (f : Dwarf_Die)
    (s : arg_data × Registry) (hn : f.name = some s.1.name) :
    get_retspec_cb dw fuel f s =
      if dwarf_hasattr f DW_AT_type then
        (add_type_info dw fuel (snprintf 256 "@retval") 256 f s.1 s.2).bind fun r =>
          .ret (DWARF_CB_ABORT, { r.2.1 with argspec := some r.1 }, r.2.2)
      else .ret (DWARF_CB_ABORT, s) := by
  simp [get_retspec_cb, hn]

theorem get_argspec_cb_match_rc (dw : Dwarf) (fuel : Nat) (f : Dwarf_Die)
    (s : arg_data × Registry) (hn : f.name = some s.1.name) (rc : Int)
    (s1 : arg_data × Registry) (h : get_argspec_cb dw fuel f s = .ret (rc, s1)) :
    rc ≠ DWARF_CB_OK := by
  rw [get_argspec_cb_match dw fuel f s hn] at h
  cases hc : f.children with
  | nil =>
    rw [hc] at h
    simp only [Outcome.ret.injEq, Prod.mk.injEq] at h
    rw [← h.1]; decide
  | cons a rest =>
    rw [hc] at h
    simp only at h
    cases hl : argspec_loop dw fuel (a :: rest) s.1 s.2 with
    | ret r =>
      rw [hl] at h
      simp only [bind_ret, Outcome.ret.injEq, Prod.mk.injEq] at h
      rw [← h.1]; decide
    | fault e => rw [hl] at h; simp at h
    | timeout => rw [hl] at h; simp at h

theorem get_retspec_cb_match_rc (dw : Dwarf) (fuel : Nat) (f : Dwarf_Die)
    (s : arg_data × Registry) (hn : f.name = some s.1.name) (rc : Int)
    (s1 : arg_data × Registry) (h : get_retspec_cb dw fuel f s = .ret (rc, s1)) :
    rc ≠ DWARF_CB_OK := by
  rw [get_retspec_cb_match dw fuel f s hn] at h
  by_cases ht : dwarf_hasattr f DW_AT_type = true
  · rw [if_pos ht] at h
    cases hl : add_type_info dw fuel (snprintf 256 "@retval") 256 f s.1 s.2 with
    | ret r =>
      rw [hl] at h
      simp only [bind_ret, Outcome.ret.injEq, Prod.mk.injEq] at h
      rw [← h.1]; decide
    | fault e => rw [hl] at h; simp at h
    | timeout => rw [hl] at h; simp at h
  · rw [if_neg ht] at h
    simp only [Outcome.ret.injEq, Prod.mk.injEq] at h
    rw [← h.1]; decide

/-- On a live handle whose compile unit has `f` as first record of the
requested name, `get_dwarf_argspec` returns what `get_argspec_cb` leaves in
`argspec` at `f`. -/
theorem get_dwarf_argspec_first_match (fuel : Nat) (dinfo : debug_info) (name : String)
    (addr : Nat) (reg : Registry) (dw : Dwarf) (cu : CompileUnit) (f : Dwarf_Die)
    (hres : Resolves dinfo addr dw cu) (hfirst : FirstMatch cu.funcs name f) :
    get_dwarf_argspec fuel dinfo name addr reg =
      (get_argspec_cb dw fuel f (arg_data.init name, reg)).bind
        fun r => .ret (r.2.1.argspec, r.2.2) := by
  obtain ⟨hdw, hcu⟩ := hres
  obtain ⟨hname, before, after, hfuncs, hbefore⟩ := hfirst
  have hscan := getfuncs_stop_at (get_argspec_cb dw fuel) (arg_data.init name, reg) f after
    before
    (fun g hg => by
      obtain ⟨n, hn, hne⟩ := hbefore g hg
      exact get_argspec_cb_skip dw fuel g n _ hn hne)
    (fun rc s1 h => get_argspec_cb_match_rc dw fuel f _ hname rc s1 h)
  simp only [get_dwarf_argspec, hdw, hcu, hfuncs, hscan, Outcome.map]
  cases get_argspec_cb dw fuel f (arg_data.init name, reg) <;> rfl

/-- On a live handle whose compile unit has `f` as first record of the
requested name, `get_dwarf_retspec` returns what `get_retspec_cb` leaves in
`argspec` at `f`. -/
theorem get_dwarf_retspec_first_match (fuel : Nat) (dinfo : debug_info) (name : String)
    (addr : Nat) (reg : Registry) (dw : Dwarf) (cu : CompileUnit) (f : Dwarf_Die)
    (hres : Resolves dinfo addr dw cu) (hfirst : FirstMatch cu.funcs name f) :
    get_dwarf_retspec fuel dinfo name addr reg =
      (get_retspec_cb dw fuel f (arg_data.init name, reg)).bind
        fun r => .ret (r.2.1.argspec, r.2.2) := by
  obtain ⟨hdw, hcu⟩ := hres
  obtain ⟨hname, before, after, hfuncs, hbefore⟩ := hfirst
  have hscan := getfuncs_stop_at (get_retspec_cb dw fuel) (arg_data.init name, reg) f after
    before
    (fun g hg => by
      obtain ⟨n, hn, hne⟩ := hbefore g hg
      exact get_retspec_cb_skip dw fuel g n _ hn hne)
    (fun rc s1 h => get_retspec_cb_match_rc dw fuel f _ hname rc s1 h)
  simp only [get_dwarf_retspec, hdw, hcu, hfuncs, hscan, Outcome.map]
  cases get_retspec_cb dw fuel f (arg_data.init name, reg) <;> rfl

/-! ## Walking a type chain -/

theorem add_pointer_zero (td : type_data) : add_pointer td 0 = td := by
  simp [add_pointer]

theorem add_pointer_add (td : type_data) (m n : Nat) :
    add_pointer (add_pointer td m) n = add_pointer td (m + n) := by
  simp [add_pointer, add_assoc]

theorem pointer_links_cons (w : Dwarf_Die) (ws : List Dwarf_Die) :
    pointer_links (w :: ws) = (if is_pointer_link w then 1 else 0) + pointer_links ws := by
  unfold pointer_links
  by_cases h : is_pointer_link w = true
  · simp [List.filter, h, Nat.add_comm]
  · simp [List.filter, h]

theorem formref_into_some (dw : Dwarf) (attr : Dwarf_Attribute) (cur : Option Dwarf_Die)
    (d : Dwarf_Die) (h : dwarf_formref_die dw attr = some d) :
    formref_into dw attr cur = some d := by
  simp [formref_into, h]

theorem formref_into_none (dw : Dwarf) (attr : Dwarf_Attribute) (cur : Option Dwarf_Die)
    (h : dwarf_formref_die dw attr = none) : formref_into dw attr cur = cur := by
  simp [formref_into, h]

/-- What `die` held before does not matter at an attribute that is not of a
reference form or whose lookup succeeds. -/
theorem arg_type_loop_from_resolved (dw : Dwarf) (fuel : Nat) (cur : Option Dwarf_Die)
    (attr : Dwarf_Attribute) (td : type_data) (reg : Registry)
    (h : is_ref_form attr.form = true → ∃ d, dwarf_formref_die dw attr = some d) :
    arg_type_loop_from dw fuel cur attr td reg = arg_type_loop dw fuel attr td reg := by
  cases fuel with
  | zero => rfl
  | succ fuel =>
    unfold arg_type_loop
    unfold arg_type_loop_from
    by_cases hf : is_ref_form attr.form = true
    · obtain ⟨d, hd⟩ := h hf
      simp only [if_pos hf, formref_into_some dw attr _ d hd]
    · simp only [if_neg hf]

/-- One iteration of the loop at a wrapper record, whatever `die` held: the
pointer depth grows by one at a pointer or pointer-to-member record and the
loop goes on with the record's own type attribute, `die` holding the wrapper. -/
theorem arg_type_loop_from_wrapper (dw : Dwarf) (fuel : Nat) (cur : Option Dwarf_Die)
    (attr type : Dwarf_Attribute) (td : type_data) (reg : Registry) (w : Dwarf_Die)
    (hf : is_ref_form attr.form = true) (hr : formref_into dw attr cur = some w)
    (hb : w.tag ≠ DW_TAG_base_type) (he : w.tag ≠ DW_TAG_enumeration_type)
    (ht : dwarf_attr w DW_AT_type = some type) :
    arg_type_loop_from dw (fuel + 1) cur attr td reg =
      arg_type_loop_from dw fuel (some w) type
        (add_pointer td (if is_pointer_link w then 1 else 0)) reg := by
  by_cases hp : w.tag = DW_TAG_pointer_type ∨ w.tag = DW_TAG_ptr_to_member_type
  · have hl : is_pointer_link w = true := by
      simpa [is_pointer_link] using hp
    simp [arg_type_loop_from, hf, hr, hb, he, ht, hp, hl, add_pointer]
  · have hl : is_pointer_link w = false := by
      simpa [is_pointer_link] using hp
    simp [arg_type_loop_from, hf, hr, hb, he, ht, hp, hl, add_pointer]

/-- One iteration of the loop at a wrapper record whose own type attribute is
not of a reference form or names a record: the pointer depth grows by one at a
pointer or pointer-to-member record and the loop goes on with the record's own
type attribute. -/
theorem arg_type_loop_wrapper (dw : Dwarf) (fuel : Nat) (attr type : Dwarf_Attribute)
    (td : type_data) (reg : Registry) (w : Dwarf_Die)
    (hf : is_ref_form attr.form = true) (hr : dwarf_formref_die dw attr = some w)
    (hb : w.tag ≠ DW_TAG_base_type) (he : w.tag ≠ DW_TAG_enumeration_type)
    (ht : dwarf_attr w DW_AT_type = some type)
    (hnext : is_ref_form type.form = true → ∃ d, dwarf_formref_die dw type = some d) :
    arg_type_loop dw (fuel + 1) attr td reg =
      arg_type_loop dw fuel type (add_pointer td (if is_pointer_link w then 1 else 0)) reg := by
  unfold arg_type_loop
  rw [arg_type_loop_from_wrapper dw fuel none attr type td reg w hf
    (formref_into_some dw attr none w hr) hb he ht]
  exact arg_type_loop_from_resolved dw fuel (some w) type _ reg hnext

/-- One iteration of the loop at a named base type record. -/
theorem arg_type_loop_base (dw : Dwarf) (fuel : Nat) (attr : Dwarf_Attribute)
    (td : type_data) (reg : Registry) (die : Dwarf_Die) (tname : String)
    (hf : is_ref_form attr.form = true) (hr : dwarf_formref_die dw attr = some die)
    (hb : die.tag = DW_TAG_base_type) (hn : die.name = some tname) :
    arg_type_loop dw (fuel + 1) attr td reg = .ret (base_type_case tname td, reg) := by
  simp [arg_type_loop, arg_type_loop_from, formref_into, hf, hr, hb, hn]

/-- One iteration of the loop at an enumeration record. -/
theorem arg_type_loop_enum (dw : Dwarf) (fuel : Nat) (attr : Dwarf_Attribute)
    (td : type_data) (reg : Registry) (die : Dwarf_Die)
    (hf : is_ref_form attr.form = true) (hr : dwarf_formref_die dw attr = some die)
    (he : die.tag = DW_TAG_enumeration_type) :
    arg_type_loop dw (fuel + 1) attr td reg = enum_type_case die td reg := by
  have hb : die.tag ≠ DW_TAG_base_type := by rw [he]; decide
  simp only [arg_type_loop, arg_type_loop_from, formref_into, hf, hr, if_true, if_neg hb,
    if_pos he]

/-- The attribute a type chain starts from names a record. -/
theorem typechain_resolves (dw : Dwarf) (attr : Dwarf_Attribute) (ws : List Dwarf_Die)
    (last : Dwarf_Die) (h : TypeChain dw attr ws last) :
    ∃ d, dwarf_formref_die dw attr = some d := by
  cases ws with
  | nil => exact ⟨last, h.2⟩
  | cons w ws => exact ⟨w, h.2.1⟩

/-- The loop walks a chain of wrappers in as many iterations as there are
wrappers, adding one to the pointer depth per pointer link, and arrives at an
attribute that resolves to the last record. -/
theorem arg_type_loop_chain (dw : Dwarf) (last : Dwarf_Die) :
    ∀ (ws : List Dwarf_Die) (attr : Dwarf_Attribute), TypeChain dw attr ws last →
      ∃ a : Dwarf_Attribute, is_ref_form a.form = true ∧ dwarf_formref_die dw a = some last ∧
        ∀ (td : type_data) (reg : Registry) (fuel : Nat),
          arg_type_loop dw (ws.length + fuel) attr td reg =
            arg_type_loop dw fuel a (add_pointer td (pointer_links ws)) reg := by
  intro ws
  induction ws with
  | nil =>
    intro attr h
    refine ⟨attr, h.1, h.2, ?_⟩
    intro td reg fuel
    simp [pointer_links, add_pointer_zero]
  | cons w ws ih =>
    intro attr h
    obtain ⟨hf, hr, hb, he, type, ht, hrest⟩ := h
    obtain ⟨a, haf, har, hwalk⟩ := ih type hrest
    refine ⟨a, haf, har, ?_⟩
    intro td reg fuel
    have hlen : (w :: ws).length + fuel = (ws.length + fuel) + 1 := by
      simp only [List.length_cons]; omega
    rw [hlen, arg_type_loop_wrapper dw _ attr type td reg w hf hr hb he ht
      (fun _ => typechain_resolves dw type ws last hrest), hwalk,
      add_pointer_add, pointer_links_cons]

/-- A chain that ends at a named base type: the loop returns the base-type
case at the accumulated pointer depth. -/
theorem arg_type_loop_chain_base (dw : Dwarf) (attr : Dwarf_Attribute) (ws : List Dwarf_Die)
    (last : Dwarf_Die) (tname : String) (td : type_data) (reg : Registry) (fuel : Nat)
    (hchain : TypeChain dw attr ws last) (hb : last.tag = DW_TAG_base_type)
    (hn : last.name = some tname) (hfuel : ws.length < fuel) :
    arg_type_loop dw fuel attr td reg =
      .ret (base_type_case tname (add_pointer td (pointer_links ws)), reg) := by
  obtain ⟨a, haf, har, hwalk⟩ := arg_type_loop_chain dw last ws attr hchain
  obtain ⟨k, rfl⟩ : ∃ k, fuel = ws.length + (k + 1) := ⟨fuel - ws.length - 1, by omega⟩
  rw [hwalk, arg_type_loop_base dw k a _ reg last tname haf har hb hn]

/-- A chain that ends at an enumeration: the loop returns the enumeration case
at the accumulated pointer depth. -/
theorem arg_type_loop_chain_enum (dw : Dwarf) (attr : Dwarf_Attribute) (ws : List Dwarf_Die)
    (last : Dwarf_Die) (td : type_data) (reg : Registry) (fuel : Nat)
    (hchain : TypeChain dw attr ws last) (he : last.tag = DW_TAG_enumeration_type)
    (hfuel : ws.length < fuel) :
    arg_type_loop dw fuel attr td reg =
      enum_type_case last (add_pointer td (pointer_links ws)) reg := by
  obtain ⟨a, haf, har, hwalk⟩ := arg_type_loop_chain dw last ws attr hchain
  obtain ⟨k, rfl⟩ : ∃ k, fuel = ws.length + (k + 1) := ⟨fuel - ws.length - 1, by omega⟩
  rw [hwalk, arg_type_loop_enum dw k a _ reg last haf har he]

/-- The token buffer after `snprintf(buf, sizeof(buf), "arg%d", idx)`. -/
theorem arg_token_fits (N : Int) (h0 : 0 ≤ N) (h1 : N < 2 ^ 31) :
    snprintf 256 ("arg" ++ fmt_d N) = "arg" ++ fmt_d N ∧ ("arg" ++ fmt_d N).length ≤ 13 := by
  have hlen := fmt_d_length N h0 h1
  have h3 : ("arg" ++ fmt_d N).length ≤ 13 := by
    rw [String.length_append]
    have : "arg".length = 3 := by decide
    omega
  exact ⟨snprintf_fits 256 _ (by omega), h3⟩

/-- What `add_type_info` does on a record with a `DW_AT_type` attribute. -/
theorem add_type_info_of_attr (dw : Dwarf) (fuel : Nat) (spec : String) (len : Nat)
    (die : Dwarf_Die) (ad : arg_data) (reg : Registry) (a : Dwarf_Attribute)
    (ha : dwarf_attr die DW_AT_type = some a) :
    add_type_info dw fuel spec len die ad reg =
      (arg_type_loop dw fuel a type_data.init reg).bind fun r =>
        (type_info_switch spec len ad r.1).bind fun t => .ret (t.1, t.2, r.2) := by
  simp only [add_type_info, dwarf_getattrs_arg_type_cb, ha]

/-- What `arg_type_cb` does on a `DW_AT_type` attribute. -/
theorem arg_type_cb_of_type (dw : Dwarf) (fuel : Nat) (attr : Dwarf_Attribute)
    (td : type_data) (reg : Registry) (hattr : attr.name = DW_AT_type) :
    arg_type_cb dw fuel attr (td, reg) =
      (arg_type_loop dw fuel attr td reg).bind fun r => .ret (DWARF_CB_ABORT, r) := by
  simp [arg_type_cb, hattr]

/-- The loop of `get_argspec_cb` emits nothing when the current child is not a
formal parameter or there is no child left. -/
theorem argspec_loop_stop (dw : Dwarf) (fuel : Nat) (rest : List Dwarf_Die) (ad : arg_data)
    (reg : Registry) (h : ∀ q ∈ rest.head?, q.tag ≠ DW_TAG_formal_parameter) :
    argspec_loop dw fuel rest ad reg = .ret (ad, reg) := by
  cases rest with
  | nil => rfl
  | cons q qs =>
    have hq : q.tag ≠ DW_TAG_formal_parameter := h q (by simp)
    simp [argspec_loop, hq]

theorem base_type_case_float_size (tname : String) (td : type_data) (h : float_size_ok td) :
    float_size_ok (base_type_case tname td) := by
  unfold base_type_case
  split
  · split
    · intro hf; simp at hf
    · split
      · intro hf; simp at hf
      · exact h
  · split
    · intro _; exact Or.inl rfl
    · split
      · intro _; exact Or.inr rfl
      · exact h

theorem enum_type_case_float_size (die : Dwarf_Die) (td : type_data) (reg : Registry)
    (r : type_data × Registry) (h : float_size_ok td)
    (hr : enum_type_case die td reg = .ret r) : float_size_ok r.1 := by
  unfold enum_type_case at hr
  cases hs : fill_enum_str die with
  | ret o =>
    rw [hs] at hr
    cases o with
    | none =>
      simp only [bind_ret, Outcome.ret.injEq] at hr
      rw [← hr]; exact h
    | some str =>
      simp only [bind_ret, Outcome.ret.injEq] at hr
      rw [← hr]; intro hf; simp at hf
  | fault e => rw [hs] at hr; simp at hr
  | timeout => rw [hs] at hr; simp at hr

/-- Whatever the type graph and whatever `die` held, a Float classification
carries the size 32 or 64. -/
theorem arg_type_loop_from_float_size (dw : Dwarf) :
    ∀ (fuel : Nat) (cur : Option Dwarf_Die) (attr : Dwarf_Attribute) (td : type_data)
      (reg : Registry) (r : type_data × Registry), float_size_ok td →
      arg_type_loop_from dw fuel cur attr td reg = .ret r → float_size_ok r.1 := by
  intro fuel
  induction fuel with
  | zero => intro cur attr td reg r _ hr; simp [arg_type_loop_from] at hr
  | succ fuel ih =>
    intro cur attr td reg r h hr
    unfold arg_type_loop_from at hr
    split at hr
    · split at hr
      · simp at hr
      · rename_i die _
        split at hr
        · split at hr
          · simp at hr
          · rename_i tname _
            simp only [Outcome.ret.injEq] at hr
            rw [← hr]; exact base_type_case_float_size tname td h
        · split at hr
          · exact enum_type_case_float_size die td reg r h hr
          · have key : ∀ td1 : type_data, float_size_ok td1 →
                (match dwarf_attr die DW_AT_type with
                  | none => Outcome.ret (td1, reg)
                  | some type => arg_type_loop_from dw fuel (some die) type td1 reg) =
                  Outcome.ret r →
                float_size_ok r.1 := by
              intro td1 h1 hm
              split at hm
              · simp only [Outcome.ret.injEq] at hm
                rw [← hm]; exact h1
              · exact ih _ _ _ reg r h1 hm
            split at hr
            · exact key { td with pointer := td.pointer + 1 } (fun hf => h hf) hr
            · exact key td h hr
    · simp only [Outcome.ret.injEq] at hr
      rw [← hr]; exact h

/-- Whatever the type graph, a Float classification carries the size 32 or 64. -/
theorem arg_type_loop_float_size (dw : Dwarf) :
    ∀ (fuel : Nat) (attr : Dwarf_Attribute) (td : type_data) (reg : Registry)
      (r : type_data × Registry), float_size_ok td →
      arg_type_loop dw fuel attr td reg = .ret r → float_size_ok r.1 :=
  fun fuel attr td reg r h hr => arg_type_loop_from_float_size dw fuel none attr td reg r h hr

/-- The record `dwarf_getattrs` leaves in `add_type_info`, when it returns,
carries the size 32 or 64 if it is classified Float. -/
theorem getattrs_float_size (dw : Dwarf) (fuel : Nat) (die : Dwarf_Die) (reg : Registry)
    (r : type_data × Registry)
    (hr : dwarf_getattrs die (arg_type_cb dw fuel) (type_data.init, reg) = .ret r) :
    float_size_ok r.1 := by
  have hinit : float_size_ok type_data.init := by
    intro hf; simp [type_data.init] at hf
  rw [dwarf_getattrs_arg_type_cb] at hr
  split at hr
  · simp only [Outcome.ret.injEq] at hr
    rw [← hr]; exact hinit
  · exact arg_type_loop_float_size dw fuel _ _ reg r hinit hr

theorem bind_congr_ret {α β : Type} (x : Outcome α) (f g : α → Outcome β)
    (h : ∀ a, x = .ret a → f a = g a) : x.bind f = x.bind g := by
  cases x with
  | ret a => exact h a rfl
  | fault e => rfl
  | timeout => rfl

theorem bind_assoc {α β γ : Type} (x : Outcome α) (f : α → Outcome β) (g : β → Outcome γ) :
    (x.bind f).bind g = x.bind fun a => (f a).bind g := by
  cases x <;> rfl

/-- Every token `add_type_info` emits is either the given token with a suffix,
the counters unchanged, or an `fparg` token of size 32 or 64 that replaces the
given token, the float counter incremented and the general counter decremented. -/
theorem add_type_info_shape (dw1 : Dwarf) (fuel1 : Nat) (spec : String) (len : Nat)
    (die : Dwarf_Die) (ad ad1 : arg_data) (reg0 reg1 : Registry) (s : String)
    (h : add_type_info dw1 fuel1 spec len die ad reg0 = .ret (s, ad1, reg1)) :
    (ad1 = ad ∧ ∃ suffix, s = spec ++ suffix) ∨
    (ad1 = { ad with fpidx := ad.fpidx + 1, idx := ad.idx - 1 } ∧
      (s = snprintf len ("fparg" ++ fmt_d (ad.fpidx + 1) ++ "/32") ∨
       s = snprintf len ("fparg" ++ fmt_d (ad.fpidx + 1) ++ "/64"))) := by
  unfold add_type_info at h
  cases hg : dwarf_getattrs die (arg_type_cb dw1 fuel1) (type_data.init, reg0) with
  | ret g =>
    have hsize := getattrs_float_size dw1 fuel1 die reg0 g hg
    rw [hg] at h
    simp only [bind_ret] at h
    unfold type_info_switch at h
    split at h
    · cases hc : strcat len spec "/c" with
      | ret c =>
        rw [hc] at h
        simp only [bind_ret, Outcome.ret.injEq, Prod.mk.injEq] at h
        unfold strcat at hc
        split at hc
        · simp only [Outcome.ret.injEq] at hc
          exact Or.inl ⟨h.2.1.symm, "/c", by rw [← h.1, ← hc]⟩
        · simp at hc
      | fault e => rw [hc] at h; simp at h
      | timeout => rw [hc] at h; simp at h
    · cases hc : strcat len spec "/s" with
      | ret c =>
        rw [hc] at h
        simp only [bind_ret, Outcome.ret.injEq, Prod.mk.injEq] at h
        unfold strcat at hc
        split at hc
        · simp only [Outcome.ret.injEq] at hc
          exact Or.inl ⟨h.2.1.symm, "/s", by rw [← h.1, ← hc]⟩
        · simp at hc
      | fault e => rw [hc] at h; simp at h
      | timeout => rw [hc] at h; simp at h
    · rename_i hfmt
      simp only [bind_ret, Outcome.ret.injEq, Prod.mk.injEq] at h
      refine Or.inr ⟨h.2.1.symm, ?_⟩
      rcases hsize hfmt with h32 | h64
      · left
        have e : fmt_d 32 = "32" := by decide
        have e1 : "/" ++ "32" = "/32" := by decide
        rw [← h.1, h32, e, String.append_assoc _ "/" "32", e1]
      · right
        have e : fmt_d 64 = "64" := by decide
        have e1 : "/" ++ "64" = "/64" := by decide
        rw [← h.1, h64, e, String.append_assoc _ "/" "64", e1]
    · cases hc : strcat len spec "/e:" with
      | ret c =>
        rw [hc] at h
        simp only [bind_ret] at h
        unfold strcat at hc
        split at hc
        · simp only [Outcome.ret.injEq] at hc
          split at h
          · simp at h
          · rename_i ename _
            cases hc2 : strcat len c ename with
            | ret c2 =>
              rw [hc2] at h
              simp only [bind_ret, Outcome.ret.injEq, Prod.mk.injEq] at h
              unfold strcat at hc2
              split at hc2
              · simp only [Outcome.ret.injEq] at hc2
                exact Or.inl ⟨h.2.1.symm, "/e:" ++ ename, by
                  rw [← h.1, ← hc2, ← hc, String.append_assoc]⟩
              · simp at hc2
            | fault e => rw [hc2] at h; simp at h
            | timeout => rw [hc2] at h; simp at h
        · simp at hc
      | fault e => rw [hc] at h; simp at h
      | timeout => rw [hc] at h; simp at h
    · simp only [bind_ret, Outcome.ret.injEq, Prod.mk.injEq] at h
      exact Or.inl ⟨h.2.1.symm, "", by rw [← h.1]; simp⟩
  | fault e => rw [hg] at h; simp at h
  | timeout => rw [hg] at h; simp at h

theorem add_type_info_argspec (dw : Dwarf) (fuel : Nat) (spec : String) (len : Nat)
    (die : Dwarf_Die) (ad : arg_data) (reg : Registry) (r : String × arg_data × Registry)
    (h : add_type_info dw fuel spec len die ad reg = .ret r) :
    r.2.1.argspec = ad.argspec ∧ r.2.1.name = ad.name := by
  obtain ⟨s, ad1, reg1⟩ := r
  rcases add_type_info_shape dw fuel spec len die ad ad1 reg reg1 s h with h1 | h1
  · rw [h1.1]; exact ⟨rfl, rfl⟩
  · rw [h1.1]; exact ⟨rfl, rfl⟩

/-- One iteration of the loop of `get_argspec_cb` at a formal parameter. -/
theorem argspec_loop_param (dw : Dwarf) (fuel : Nat) (p : Dwarf_Die) (sibs : List Dwarf_Die)
    (ad : arg_data) (reg : Registry) (hp : p.tag = DW_TAG_formal_parameter) :
    argspec_loop dw fuel (p :: sibs) ad reg =
      (add_type_info dw fuel (snprintf 256 ("arg" ++ fmt_d (ad.idx + 1))) 256 p
          { ad with idx := ad.idx + 1 } reg).bind fun r =>
        argspec_loop dw fuel sibs
          { r.2.1 with
            argspec := some (match ad.argspec with
              | none => "@" ++ r.1
              | some s => s ++ "," ++ r.1) }
          r.2.2 := by
  simp only [argspec_loop, hp, if_true]
  apply bind_congr_ret
  intro r hr
  have hkeep := (add_type_info_argspec dw fuel _ 256 p _ reg r hr).1
  rw [hkeep]
  cases ad.argspec <;> rfl

/-- On a live handle whose compile unit has `f` as first record of the
requested name, `get_dwarf_argspec` returns what the loop over the children
of `f` leaves in `argspec`. -/
theorem get_dwarf_argspec_eq_loop (fuel : Nat) (dinfo : debug_info) (name : String)
    (addr : Nat) (reg : Registry) (dw : Dwarf) (cu : CompileUnit) (f : Dwarf_Die)
    (hres : Resolves dinfo addr dw cu) (hfirst : FirstMatch cu.funcs name f) :
    get_dwarf_argspec fuel dinfo name addr reg =
      (argspec_loop dw fuel f.children (arg_data.init name) reg).bind
        fun r => .ret (r.1.argspec, r.2) := by
  rw [get_dwarf_argspec_first_match fuel dinfo name addr reg dw cu f hres hfirst,
    get_argspec_cb_match dw fuel f (arg_data.init name, reg) hfirst.1]
  cases f.children with
  | nil => rfl
  | cons a rest =>
    simp only [bind_assoc, bind_ret]

/-- The argument spec of a function whose only leading parameter has a named
base type. -/
theorem get_dwarf_argspec_base_param (fuel : Nat) (dinfo : debug_info) (name : String)
    (addr : Nat) (reg : Registry) (dw : Dwarf) (cu : CompileUnit) (f p last : Dwarf_Die)
    (rest : List Dwarf_Die) (attr : Dwarf_Attribute) (tname : String)
    (hres : Resolves dinfo addr dw cu) (hfirst : FirstMatch cu.funcs name f)
    (hchildren : f.children = p :: rest)
    (hp : p.tag = DW_TAG_formal_parameter)
    (hrest : ∀ q ∈ rest.head?, q.tag ≠ DW_TAG_formal_parameter)
    (hparam : dwarf_attr p DW_AT_type = some attr)
    (hchain : TypeChain dw attr [] last)
    (hbase : last.tag = DW_TAG_base_type)
    (hname : last.name = some tname)
    (hfuel : 0 < fuel) :
    get_dwarf_argspec fuel dinfo name addr reg =
      (type_info_switch (snprintf 256 ("arg" ++ fmt_d 1)) 256
          { arg_data.init name with idx := 1 } (base_type_case tname type_data.init)).bind
        fun t => .ret (some ("@" ++ t.1), reg) := by
  rw [get_dwarf_argspec_eq_loop fuel dinfo name addr reg dw cu f hres hfirst, hchildren,
    argspec_loop_param dw fuel p rest _ reg hp,
    add_type_info_of_attr dw fuel _ 256 p _ reg attr hparam,
    arg_type_loop_chain_base dw attr [] last tname _ reg fuel hchain hbase hname hfuel]
  have h0 : add_pointer type_data.init (pointer_links []) = type_data.init :=
    add_pointer_zero _
  have h1 : (arg_data.init name).idx + 1 = 1 := rfl
  rw [h0, h1]
  simp only [bind_ret, bind_assoc]
  apply bind_congr_ret
  intro t _
  rw [argspec_loop_stop dw fuel rest _ reg hrest]
  rfl

/-- The replacement loop of `make_enum_name` changes each forbidden character
to an underscore and no other character. -/
theorem replace_forbidden_eq_map (cs : List Char) :
    replace_forbidden cs = cs.map fun c => if c ∈ forbidden then '_' else c := by
  induction cs with
  | nil => rfl
  | cons c cs ih =>
    by_cases h : c ∈ forbidden
    · simp only [replace_forbidden, h, if_true, List.map_cons, ih]
    · simp only [replace_forbidden, h, if_false, List.map_cons, ih]

theorem digitChar_claimed (d : Nat) (h : d < 16) : Nat.digitChar d = claimed_hex_digit d := by
  interval_cases d <;> rfl

theorem toDigitsCore_claimed :
    ∀ (fuel n : Nat) (acc : List Char), n < fuel →
      Nat.toDigitsCore 16 fuel n acc = claimed_hex n ++ acc := by
  intro fuel
  induction fuel with
  | zero => intro n acc h; exact absurd h (Nat.not_lt_zero n)
  | succ fuel ih =>
    intro n acc h
    unfold Nat.toDigitsCore
    simp only
    have hd : Nat.digitChar (n % 16) = claimed_hex_digit (n % 16) :=
      digitChar_claimed _ (Nat.mod_lt n (by decide))
    by_cases h0 : n / 16 = 0
    · have hlt : n < 16 := by omega
      rw [if_pos h0, hd, claimed_hex, dif_pos hlt, Nat.mod_eq_of_lt hlt]
      rfl
    · have hge : ¬ n < 16 := by omega
      rw [if_neg h0, ih (n / 16) _ (by omega), hd]
      conv_rhs => rw [claimed_hex, dif_neg hge]
      simp

/-- The text of `%lx` is the lowercase hexadecimal numeral of the value. -/
theorem fmt_lx_claimed (v : Nat) : fmt_lx v = ⟨claimed_hex v⟩ := by
  unfold fmt_lx Nat.toDigits
  rw [toDigitsCore_claimed (v + 1) v [] (by omega), List.append_nil]

theorem hex_value_snoc (cs : List Char) (c : Char) :
    hex_value (cs ++ [c]) = 16 * hex_value cs + "0123456789abcdef".data.indexOf c := by
  simp [hex_value, List.foldl_append]

theorem hex_value_digit (d : Nat) (h : d < 16) :
    "0123456789abcdef".data.indexOf (claimed_hex_digit d) = d := by
  interval_cases d <;> decide

/-- The lowercase hexadecimal numeral of `v` has the value `v`. -/
theorem hex_value_claimed (v : Nat) : hex_value (claimed_hex v) = v := by
  induction v using Nat.strong_induction_on with
  | _ v ih =>
    by_cases h : v < 16
    · rw [claimed_hex, dif_pos h]
      have := hex_value_snoc [] (claimed_hex_digit v)
      simp only [List.nil_append] at this
      rw [this, hex_value_digit v h]
      show 16 * 0 + v = v
      omega
    · rw [claimed_hex, dif_neg h, hex_value_snoc, ih (v / 16) (by omega),
        hex_value_digit _ (Nat.mod_lt v (by decide))]
      omega

theorem claimed_hex_digits (v : Nat) : ∀ c ∈ claimed_hex v, c ∈ "0123456789abcdef".data := by
  induction v using Nat.strong_induction_on with
  | _ v ih =>
    have hd : ∀ d, d < 16 → claimed_hex_digit d ∈ "0123456789abcdef".data := by
      intro d hd
      interval_cases d <;> decide
    intro c hc
    by_cases h : v < 16
    · rw [claimed_hex, dif_pos h, List.mem_singleton] at hc
      rw [hc]; exact hd v h
    · rw [claimed_hex, dif_neg h, List.mem_append, List.mem_singleton] at hc
      rcases hc with hc | hc
      · exact ih (v / 16) (by omega) c hc
      · rw [hc]; exact hd _ (Nat.mod_lt v (by decide))

theorem claimed_hex_ne_nil (v : Nat) : claimed_hex v ≠ [] := by
  by_cases h : v < 16
  · rw [claimed_hex, dif_pos h]; simp
  · rw [claimed_hex, dif_neg h]; simp

/-- The lowercase hexadecimal numeral of a positive value has no leading zero. -/
theorem claimed_hex_head (v : Nat) (hv : 0 < v) : (claimed_hex v).head? ≠ some '0' := by
  induction v using Nat.strong_induction_on with
  | _ v ih =>
    by_cases h : v < 16
    · rw [claimed_hex, dif_pos h]
      interval_cases v <;> decide
    · rw [claimed_hex, dif_neg h]
      have hne := claimed_hex_ne_nil (v / 16)
      cases hx : claimed_hex (v / 16) with
      | nil => exact absurd hx hne
      | cons a l =>
        have := ih (v / 16) (by omega) (by omega)
        rw [hx] at this
        simpa using this

/-- The loop of `fill_enum_str` over a run of enumerators whose entries fit the
256-byte buffer joins the entries with commas. -/
theorem fill_enum_loop_run (tail : List Dwarf_Die)
    (htail : ∀ q ∈ tail.head?, q.tag ≠ DW_TAG_enumerator) :
    ∀ (ens : List Dwarf_Die) (es : List (String × Int)) (acc : String),
      List.Forall₂ (fun e p => EnumeratorOf e p.1 p.2) ens es →
      (∀ e ∈ es, (e.1 ++ "=" ++ fmt_d e.2).length ≤ 255) →
      fill_enum_loop (ens ++ tail) (some acc) =
        .ret (some (String.intercalate.go acc ","
          (es.map fun e => e.1 ++ "=" ++ fmt_d e.2))) := by
  intro ens es acc h
  induction h generalizing acc with
  | nil =>
    intro _
    cases tail with
    | nil => rfl
    | cons q qs =>
      have hq : q.tag ≠ DW_TAG_enumerator := htail q (by simp)
      simp [fill_enum_loop, hq, String.intercalate.go]
  | @cons e p ens es hhead _ ih =>
    intro hfit
    obtain ⟨htag, hname, a, ha, hv⟩ := hhead
    have hfit1 : (p.1 ++ "=" ++ fmt_d p.2).length ≤ 255 := hfit p (List.mem_cons_self p es)
    have hbuf : snprintf 256 (p.1 ++ "=" ++ fmt_d a.sdata) = p.1 ++ "=" ++ fmt_d p.2 := by
      rw [hv]; exact snprintf_fits 256 _ hfit1
    simp only [List.cons_append, fill_enum_loop, htag, if_true, ha, hname, hbuf, strjoin,
      List.append_eq]
    rw [ih (acc ++ "," ++ (p.1 ++ "=" ++ fmt_d p.2))
      (fun e he => hfit e (List.mem_cons_of_mem p he))]
    rfl

/-- Text `fill_enum_str` returns for a record whose leading children are the
enumerators `es`, at least one, each entry fitting the 256-byte buffer. -/
theorem fill_enum_str_members (die : Dwarf_Die) (es : List (String × Int)) (hes : es ≠ [])
    (hlead : LeadingEnumerators die.children es)
    (hfit : ∀ e ∈ es, (e.1 ++ "=" ++ fmt_d e.2).length ≤ 255) :
    fill_enum_str die = .ret (some (enum_members es)) := by
  obtain ⟨ens, tail, hchildren, hall, htail⟩ := hlead
  cases hall with
  | nil => exact absurd rfl hes
  | @cons e p ens es hhead hrest =>
    obtain ⟨htag, hname, a, ha, hv⟩ := hhead
    have hfit1 : (p.1 ++ "=" ++ fmt_d p.2).length ≤ 255 := hfit p (List.mem_cons_self p es)
    have hbuf : snprintf 256 (p.1 ++ "=" ++ fmt_d a.sdata) = p.1 ++ "=" ++ fmt_d p.2 := by
      rw [hv]; exact snprintf_fits 256 _ hfit1
    unfold fill_enum_str
    rw [hchildren]
    simp only [List.cons_append, fill_enum_loop, htag, if_true, ha, hname, hbuf, strjoin,
      List.append_eq]
    rw [fill_enum_loop_run tail htail ens es _ hrest
      (fun e he => hfit e (List.mem_cons_of_mem p he))]
    rfl

/-! ## Termination -/

theorem bind_ne_timeout {α β : Type} (x : Outcome α) (f : α → Outcome β)
    (hx : x ≠ .timeout) (hf : ∀ a, f a ≠ .timeout) : x.bind f ≠ .timeout := by
  cases x with
  | ret a => exact hf a
  | fault e => intro h; cases h
  | timeout => exact absurd rfl hx

theorem fill_enum_loop_ne_timeout :
    ∀ (l : List Dwarf_Die) (str : Option String), fill_enum_loop l str ≠ .timeout := by
  intro l
  induction l with
  | nil => intro str h; cases h
  | cons e sibs ih =>
    intro str
    unfold fill_enum_loop
    split
    · split
      · intro h; cases h
      · split
        · intro h; cases h
        · exact ih _
    · intro h; cases h

theorem fill_enum_str_ne_timeout (die : Dwarf_Die) : fill_enum_str die ≠ .timeout := by
  unfold fill_enum_str
  split
  · intro h; cases h
  · exact fill_enum_loop_ne_timeout _ _

theorem enum_type_case_ne_timeout (die : Dwarf_Die) (td : type_data) (reg : Registry) :
    enum_type_case die td reg ≠ .timeout := by
  unfold enum_type_case
  apply bind_ne_timeout _ _ (fill_enum_str_ne_timeout die)
  intro o
  cases o with
  | none => intro h; cases h
  | some str => intro h; cases h

theorem strcat_ne_timeout (cap : Nat) (dst src : String) : strcat cap dst src ≠ .timeout := by
  unfold strcat
  split
  · intro h; cases h
  · intro h; cases h

theorem type_info_switch_ne_timeout (spec : String) (len : Nat) (ad : arg_data)
    (data : type_data) : type_info_switch spec len ad data ≠ .timeout := by
  unfold type_info_switch
  split
  · exact bind_ne_timeout _ _ (strcat_ne_timeout _ _ _) (fun s h => by cases h)
  · exact bind_ne_timeout _ _ (strcat_ne_timeout _ _ _) (fun s h => by cases h)
  · intro h; cases h
  · apply bind_ne_timeout _ _ (strcat_ne_timeout _ _ _)
    intro s
    split
    · intro h; cases h
    · exact bind_ne_timeout _ _ (strcat_ne_timeout _ _ _) (fun s h => by cases h)
  · intro h; cases h

/-- On an acyclic type graph whose type references name records, the loop of
`arg_type_cb` ends within the rank of the record its attribute names, plus two
iterations, whatever `die` held. -/
theorem arg_type_loop_from_terminates (dw : Dwarf) (rank : Nat → Nat)
    (hacyclic : Acyclic dw rank) (hgraph : GraphResolves dw) :
    ∀ (fuel : Nat) (cur : Option Dwarf_Die) (attr : Dwarf_Attribute) (td : type_data)
      (reg : Registry),
      (is_ref_form attr.form = true → ∃ d, dwarf_formref_die dw attr = some d) →
      (is_ref_form attr.form = true → rank attr.ref + 2 ≤ fuel) → 0 < fuel →
      arg_type_loop_from dw fuel cur attr td reg ≠ .timeout := by
  intro fuel
  induction fuel with
  | zero => intro cur attr td reg _ _ h0; exact absurd h0 (by decide)
  | succ fuel ih =>
    intro cur attr td reg hstart hfuel _
    unfold arg_type_loop_from
    by_cases hform : is_ref_form attr.form = true
    · have hrank := hfuel hform
      obtain ⟨die, hres⟩ := hstart hform
      simp only [if_pos hform, formref_into_some dw attr cur die hres]
      by_cases hbase : die.tag = DW_TAG_base_type
      · simp only [if_pos hbase]
        split
        · intro h; cases h
        · intro h; cases h
      · simp only [if_neg hbase]
        by_cases henum : die.tag = DW_TAG_enumeration_type
        · simp only [if_pos henum]
          exact enum_type_case_ne_timeout die td reg
        · simp only [if_neg henum]
          cases htype : dwarf_attr die DW_AT_type with
          | none => intro h; cases h
          | some type =>
            simp only
            apply ih (some die) type _ reg
            · exact hgraph attr.ref die hres hbase henum type htype
            · intro hf
              have := hacyclic attr.ref die type hres hbase henum htype hf
              omega
            · omega
    · simp only [if_neg hform]
      intro h; cases h

/-- On an acyclic type graph whose type references name records, the loop of
`arg_type_cb` ends within the rank of the record its attribute names, plus two
iterations. -/
theorem arg_type_loop_terminates (dw : Dwarf) (rank : Nat → Nat) (hacyclic : Acyclic dw rank)
    (hgraph : GraphResolves dw) :
    ∀ (fuel : Nat) (attr : Dwarf_Attribute) (td : type_data) (reg : Registry),
      (is_ref_form attr.form = true → ∃ d, dwarf_formref_die dw attr = some d) →
      (is_ref_form attr.form = true → rank attr.ref + 2 ≤ fuel) → 0 < fuel →
      arg_type_loop dw fuel attr td reg ≠ .timeout :=
  fun fuel attr td reg hstart hfuel h0 =>
    arg_type_loop_from_terminates dw rank hacyclic hgraph fuel none attr td reg hstart hfuel h0

/-- The loop entered at an attribute of a reference form that names no record,
with `die` uninitialised, reads the uninitialised record. -/
theorem arg_type_loop_unresolved_start (dw : Dwarf) (fuel : Nat) (attr : Dwarf_Attribute)
    (td : type_data) (reg : Registry) (hf : is_ref_form attr.form = true)
    (hr : dwarf_formref_die dw attr = none) :
    arg_type_loop dw (fuel + 1) attr td reg = .fault .bad_die := by
  simp [arg_type_loop, arg_type_loop_from, formref_into, hf, hr]

/-- The loop at a reference that names no record, `die` still holding the
wrapper the reference was taken from: the wrapper is processed again in every
iteration and no budget suffices. -/
theorem arg_type_loop_from_stale (dw : Dwarf) (w : Dwarf_Die) (type : Dwarf_Attribute)
    (hb : w.tag ≠ DW_TAG_base_type) (he : w.tag ≠ DW_TAG_enumeration_type)
    (ht : dwarf_attr w DW_AT_type = some type) (hf : is_ref_form type.form = true)
    (hr : dwarf_formref_die dw type = none) :
    ∀ (fuel : Nat) (td : type_data) (reg : Registry),
      arg_type_loop_from dw fuel (some w) type td reg = .timeout := by
  intro fuel
  induction fuel with
  | zero => intro td reg; rfl
  | succ fuel ih =>
    intro td reg
    rw [arg_type_loop_from_wrapper dw fuel (some w) type type td reg w hf
      (formref_into_none dw type (some w) hr) hb he ht]
    exact ih _ reg

/-- When the loop returns, the attribute it was at is not of a reference form
or names a record: at a reference that names no record the loop reads the
uninitialised `die` or processes the wrapper again for ever. -/
theorem arg_type_loop_from_ret_resolved (dw : Dwarf) (fuel : Nat) (cur : Option Dwarf_Die)
    (attr : Dwarf_Attribute) (td : type_data) (reg : Registry) (r : type_data × Registry)
    (hheld : HeldBy cur attr) (h : arg_type_loop_from dw fuel cur attr td reg = .ret r)
    (hf : is_ref_form attr.form = true) : ∃ d, dwarf_formref_die dw attr = some d := by
  cases hlook : dwarf_formref_die dw attr with
  | some d => exact ⟨d, rfl⟩
  | none =>
    exfalso
    cases cur with
    | none =>
      cases fuel with
      | zero => cases h
      | succ fuel =>
        have := arg_type_loop_unresolved_start dw fuel attr td reg hf hlook
        unfold arg_type_loop at this
        rw [this] at h
        cases h
    | some w =>
      obtain ⟨hb, he, ht⟩ := hheld w rfl
      rw [arg_type_loop_from_stale dw w attr hb he ht hf hlook fuel td reg] at h
      cases h

/-- When the loop returns after a wrapper record, it returns what the loop
entered at the wrapper's type attribute returns. -/
theorem arg_type_loop_from_ret (dw : Dwarf) (fuel : Nat) (w : Dwarf_Die)
    (type : Dwarf_Attribute) (td : type_data) (reg : Registry) (r : type_data × Registry)
    (hb : w.tag ≠ DW_TAG_base_type) (he : w.tag ≠ DW_TAG_enumeration_type)
    (ht : dwarf_attr w DW_AT_type = some type)
    (h : arg_type_loop_from dw fuel (some w) type td reg = .ret r) :
    arg_type_loop dw fuel type td reg = .ret r := by
  rw [← arg_type_loop_from_resolved dw fuel (some w) type td reg
    (arg_type_loop_from_ret_resolved dw fuel (some w) type td reg r
      (fun v hv => by cases hv; exact ⟨hb, he, ht⟩) h)]
  exact h

/-- With a loop that ends at the type attribute of `die`, `add_type_info` on
`die` ends. -/
theorem add_type_info_ends (dw : Dwarf) (fuel : Nat) (die : Dwarf_Die)
    (hloop : ∀ a, dwarf_attr die DW_AT_type = some a →
      ∀ td reg, arg_type_loop dw fuel a td reg ≠ .timeout)
    (spec : String) (len : Nat) (ad : arg_data) (reg : Registry) :
    add_type_info dw fuel spec len die ad reg ≠ .timeout := by
  unfold add_type_info
  apply bind_ne_timeout
  · rw [dwarf_getattrs_arg_type_cb]
    cases ha : dwarf_attr die DW_AT_type with
    | none => intro h; cases h
    | some a => exact hloop a ha _ _
  · intro r
    exact bind_ne_timeout _ _ (type_info_switch_ne_timeout _ _ _ _) (fun t h => by cases h)

theorem argspec_loop_ends (dw : Dwarf) (fuel : Nat) :
    ∀ (l : List Dwarf_Die),
      (∀ p ∈ l, p.tag = DW_TAG_formal_parameter → ∀ a, dwarf_attr p DW_AT_type = some a →
        ∀ td reg, arg_type_loop dw fuel a td reg ≠ .timeout) →
      ∀ (ad : arg_data) (reg : Registry), argspec_loop dw fuel l ad reg ≠ .timeout := by
  intro l
  induction l with
  | nil => intro _ ad reg h; cases h
  | cons p sibs ih =>
    intro hl ad reg
    unfold argspec_loop
    by_cases hp : p.tag = DW_TAG_formal_parameter
    · simp only [if_pos hp]
      exact bind_ne_timeout _ _
        (add_type_info_ends dw fuel p (hl p (List.mem_cons_self _ _) hp) _ _ _ _)
        (fun r => ih (fun q hq => hl q (List.mem_cons_of_mem _ hq)) _ _)
    · simp only [if_neg hp]
      intro h; cases h

theorem get_argspec_cb_ends (dw : Dwarf) (fuel : Nat) (die : Dwarf_Die)
    (hl : ∀ p ∈ die.children, p.tag = DW_TAG_formal_parameter →
      ∀ a, dwarf_attr p DW_AT_type = some a →
        ∀ td reg, arg_type_loop dw fuel a td reg ≠ .timeout)
    (s : arg_data × Registry) : get_argspec_cb dw fuel die s ≠ .timeout := by
  unfold get_argspec_cb
  split
  · intro h; cases h
  · split
    · intro h; cases h
    · cases hc : die.children with
      | nil => intro h; cases h
      | cons a rest =>
        simp only
        exact bind_ne_timeout _ _
          (argspec_loop_ends dw fuel (a :: rest) (by rw [← hc]; exact hl) _ _)
          (fun r h => by cases h)

theorem get_retspec_cb_ends (dw : Dwarf) (fuel : Nat) (die : Dwarf_Die)
    (hloop : ∀ a, dwarf_attr die DW_AT_type = some a →
      ∀ td reg, arg_type_loop dw fuel a td reg ≠ .timeout)
    (s : arg_data × Registry) : get_retspec_cb dw fuel die s ≠ .timeout := by
  unfold get_retspec_cb
  split
  · intro h; cases h
  · split
    · intro h; cases h
    · split
      · exact bind_ne_timeout _ _ (add_type_info_ends dw fuel die hloop _ _ _ _)
          (fun r h => by cases h)
      · intro h; cases h

theorem getfuncs_ends {σ : Type} (cb : Dwarf_Die → σ → Outcome (Int × σ)) :
    ∀ (l : List Dwarf_Die), (∀ g ∈ l, ∀ s, cb g s ≠ .timeout) →
      ∀ s : σ, dwarf_getfuncs cb l s ≠ .timeout := by
  intro l
  induction l with
  | nil => intro _ s h; cases h
  | cons f rest ih =>
    intro hcb s
    unfold dwarf_getfuncs
    have hf := hcb f (List.mem_cons_self _ _) s
    cases hc : cb f s with
    | ret r =>
      obtain ⟨rc, s1⟩ := r
      simp only
      split
      · exact ih (fun g hg => hcb g (List.mem_cons_of_mem _ hg)) s1
      · intro h; cases h
    | fault e => intro h; cases h
    | timeout => exact absurd hc hf

/-- On the self-referential pointer type the loop of `arg_type_cb` uses up
every budget. -/
theorem cyclic_loop_timeout :
    ∀ (fuel : Nat) (td : type_data) (reg : Registry),
      arg_type_loop cyclic_dw fuel (type_ref 0) td reg = .timeout := by
  intro fuel
  induction fuel with
  | zero => intro td reg; rfl
  | succ fuel ih =>
    intro td reg
    rw [arg_type_loop_wrapper cyclic_dw fuel (type_ref 0) (type_ref 0) td reg
      { tag := DW_TAG_pointer_type, attrs := [type_ref 0], children := [] }
      rfl rfl (by decide) (by decide) rfl (fun _ => ⟨_, rfl⟩)]
    exact ih _ reg

/-- Once the loop ends within a budget, a larger budget changes nothing,
whatever `die` held. -/
theorem arg_type_loop_from_mono (dw : Dwarf) :
    ∀ (fuel : Nat) (cur : Option Dwarf_Die) (attr : Dwarf_Attribute) (td : type_data)
      (reg : Registry),
      arg_type_loop_from dw fuel cur attr td reg ≠ .timeout →
      arg_type_loop_from dw (fuel + 1) cur attr td reg =
        arg_type_loop_from dw fuel cur attr td reg := by
  intro fuel
  induction fuel with
  | zero => intro cur attr td reg h; exact absurd rfl h
  | succ fuel ih =>
    intro cur attr td reg h
    unfold arg_type_loop_from at h ⊢
    by_cases hform : is_ref_form attr.form = true
    · simp only [if_pos hform] at h ⊢
      cases hres : formref_into dw attr cur with
      | none => rfl
      | some die =>
        simp only [hres] at h ⊢
        by_cases hbase : die.tag = DW_TAG_base_type
        · simp only [if_pos hbase]
        · simp only [if_neg hbase] at h ⊢
          by_cases henum : die.tag = DW_TAG_enumeration_type
          · simp only [if_pos henum]
          · simp only [if_neg henum] at h ⊢
            cases hd : dwarf_attr die DW_AT_type with
            | none => rfl
            | some type =>
              simp only [hd] at h ⊢
              exact ih _ _ _ reg h
    · simp only [if_neg hform]

/-- Once the loop ends within a budget, a larger budget changes nothing. -/
theorem arg_type_loop_mono (dw : Dwarf) :
    ∀ (fuel : Nat) (attr : Dwarf_Attribute) (td : type_data) (reg : Registry),
      arg_type_loop dw fuel attr td reg ≠ .timeout →
      arg_type_loop dw (fuel + 1) attr td reg = arg_type_loop dw fuel attr td reg :=
  fun fuel attr td reg h => arg_type_loop_from_mono dw fuel none attr td reg h

theorem arg_type_loop_mono_le (dw : Dwarf) (fuel : Nat) (attr : Dwarf_Attribute)
    (td : type_data) (reg : Registry) (h : arg_type_loop dw fuel attr td reg ≠ .timeout) :
    ∀ k, arg_type_loop dw (fuel + k) attr td reg = arg_type_loop dw fuel attr td reg := by
  intro k
  induction k with
  | zero => rfl
  | succ k ih =>
    rw [← Nat.add_assoc, arg_type_loop_mono dw (fuel + k) attr td reg (by rw [ih]; exact h), ih]

/-- The type graph of the sample program is acyclic. -/
theorem sample_acyclic (funcs : List Dwarf_Die) : Acyclic (sample_dw funcs) sample_rank := by
  intro o die type h1 hb he h2 hf
  have hcases : o ≤ 8 ∨ 9 ≤ o := by omega
  rcases hcases with h | h
  · interval_cases o <;>
      simp only [sample_dw, sample_types, Option.some.injEq] at h1 <;>
      subst h1 <;>
      first
        | exact absurd rfl hb
        | exact absurd rfl he
        | (simp only [dwarf_attr, List.find?, type_ref, DW_AT_type, beq_self_eq_true,
            Option.some.injEq] at h2
           subst h2
           decide)
  · obtain ⟨k, rfl⟩ : ∃ k, o = k + 9 := ⟨o - 9, by omega⟩
    simp [sample_dw, sample_types] at h1

/-- The type references of the type records of the sample program name
records. -/
theorem sample_graph_resolves (funcs : List Dwarf_Die) : GraphResolves (sample_dw funcs) := by
  intro o die h1 hb he type h2 hf
  have hcases : o ≤ 8 ∨ 9 ≤ o := by omega
  rcases hcases with h | h
  · interval_cases o <;>
      simp only [sample_dw, sample_types, Option.some.injEq] at h1 <;>
      subst h1 <;>
      first
        | exact absurd rfl hb
        | exact absurd rfl he
        | (simp only [dwarf_attr, List.find?, type_ref, DW_AT_type, beq_self_eq_true,
            Option.some.injEq] at h2
           subst h2
           exact ⟨_, rfl⟩)
  · obtain ⟨k, rfl⟩ : ∃ k, o = k + 9 := ⟨o - 9, by omega⟩
    simp [sample_dw, sample_types] at h1

/-- On the pointer type whose type attribute names no record the loop of
`arg_type_cb` uses up every budget: after the failed lookup `die` still holds
the pointer record, which is processed again. -/
theorem dangling_loop_timeout :
    ∀ (fuel : Nat) (td : type_data) (reg : Registry),
      arg_type_loop dangling_dw fuel (type_ref 0) td reg = .timeout := by
  intro fuel td reg
  cases fuel with
  | zero => rfl
  | succ fuel =>
    unfold arg_type_loop
    rw [arg_type_loop_from_wrapper dangling_dw fuel none (type_ref 0) (type_ref 1) td reg
      { tag := DW_TAG_pointer_type, attrs := [type_ref 1], children := [] }
      rfl rfl (by decide) (by decide) rfl]
    exact arg_type_loop_from_stale dangling_dw
      { tag := DW_TAG_pointer_type, attrs := [type_ref 1], children := [] } (type_ref 1)
      (by decide) (by decide) rfl rfl rfl fuel _ reg

/-- For the function that takes and returns the pointer type whose type
attribute names no record, neither `get_dwarf_argspec` nor `get_dwarf_retspec`
ends within any budget, although the type graph is acyclic. -/
theorem dangling_chain_never_returns (fuel : Nat) :
    Acyclic dangling_dw (fun o => 1 - o) ∧
      get_dwarf_argspec fuel dangling_dinfo "f" 0x1000 [] = .timeout ∧
      get_dwarf_retspec fuel dangling_dinfo "f" 0x1000 [] = .timeout := by
  have hres : Resolves dangling_dinfo 0x1000 dangling_dw
      { ranges := [(0x1000, 0x2000)],
        funcs := [{ tag := 0x2e, name := some "f", attrs := [type_ref 0],
                    children := [param_of 0] }] } := ⟨rfl, rfl⟩
  have hfirst : FirstMatch
      [({ tag := 0x2e, name := some "f", attrs := [type_ref 0],
          children := [param_of 0] } : Dwarf_Die)]
      "f" { tag := 0x2e, name := some "f", attrs := [type_ref 0], children := [param_of 0] } :=
    ⟨rfl, [], [], rfl, fun g hg => absurd hg (List.not_mem_nil g)⟩
  refine ⟨?_, ?_, ?_⟩
  · intro o die type h1 hb he h2 hf
    match o, h1 with
    | 0, h1 =>
      simp only [dangling_dw, Option.some.injEq] at h1
      subst h1
      simp only [dwarf_attr, List.find?, type_ref, DW_AT_type, beq_self_eq_true,
        Option.some.injEq] at h2
      subst h2
      decide
    | n + 1, h1 => simp [dangling_dw] at h1
  · rw [get_dwarf_argspec_eq_loop fuel dangling_dinfo "f" 0x1000 [] dangling_dw _ _ hres hfirst]
    show (argspec_loop dangling_dw fuel [param_of 0] (arg_data.init "f") []).bind _ = _
    rw [argspec_loop_param dangling_dw fuel (param_of 0) [] _ [] rfl,
      add_type_info_of_attr dangling_dw fuel _ 256 (param_of 0) _ [] (type_ref 0) rfl,
      dangling_loop_timeout]
    rfl
  · rw [get_dwarf_retspec_first_match fuel dangling_dinfo "f" 0x1000 [] dangling_dw _ _
      hres hfirst, get_retspec_cb_match dangling_dw fuel _ (arg_data.init "f", []) rfl]
    rw [if_pos (by rfl),
      add_type_info_of_attr dangling_dw fuel _ 256
        { tag := 0x2e, name := some "f", attrs := [type_ref 0], children := [param_of 0] }
        _ [] (type_ref 0) rfl,
      dangling_loop_timeout]
    rfl

/-! ## The registry is written, never read -/

@[simp] theorem map_ret {α β : Type} (f : α → β) (a : α) :
    (Outcome.ret a).map f = .ret (f a) := rfl

@[simp] theorem map_fault {α β : Type} (f : α → β) (e : Fault) :
    (Outcome.fault e : Outcome α).map f = .fault e := rfl

@[simp] theorem map_timeout {α β : Type} (f : α → β) :
    (Outcome.timeout : Outcome α).map f = .timeout := rfl

theorem map_bind {α β γ : Type} (x : Outcome α) (f : α → Outcome β) (g : β → γ) :
    (x.bind f).map g = x.bind fun a => (f a).map g := by
  cases x <;> rfl

theorem bind_map {α β γ : Type} (x : Outcome α) (g : α → β) (f : β → Outcome γ) :
    (x.map g).bind f = x.bind fun a => f (g a) := by
  cases x <;> rfl

theorem map_map {α β γ : Type} (x : Outcome α) (f : α → β) (g : β → γ) :
    (x.map f).map g = x.map fun a => g (f a) := by
  cases x <;> rfl

theorem enum_type_case_registry (die : Dwarf_Die) (td : type_data) (reg : Registry) :
    enum_type_case die td reg = (enum_type_case die td []).map (with_registry reg) := by
  unfold enum_type_case
  cases fill_enum_str die with
  | ret o =>
    cases o with
    | none => simp [with_registry]
    | some str => simp [with_registry, parse_enum_string]
  | fault e => rfl
  | timeout => rfl

/-- The classification does not depend on the registry it starts from, and the
registry afterwards is the one before followed by what was registered,
whatever `die` held. -/
theorem arg_type_loop_from_registry (dw : Dwarf) :
    ∀ (fuel : Nat) (cur : Option Dwarf_Die) (attr : Dwarf_Attribute) (td : type_data)
      (reg : Registry),
      arg_type_loop_from dw fuel cur attr td reg =
        (arg_type_loop_from dw fuel cur attr td []).map (with_registry reg) := by
  intro fuel
  induction fuel with
  | zero => intro cur attr td reg; rfl
  | succ fuel ih =>
    intro cur attr td reg
    unfold arg_type_loop_from
    by_cases hform : is_ref_form attr.form = true
    · simp only [if_pos hform]
      cases hres : formref_into dw attr cur with
      | none => rfl
      | some die =>
        simp only
        by_cases hbase : die.tag = DW_TAG_base_type
        · simp only [if_pos hbase]
          cases die.name with
          | none => rfl
          | some tname => simp [with_registry]
        · simp only [if_neg hbase]
          by_cases henum : die.tag = DW_TAG_enumeration_type
          · simp only [if_pos henum]
            exact enum_type_case_registry die td reg
          · simp only [if_neg henum]
            cases hd : dwarf_attr die DW_AT_type with
            | none => simp [with_registry]
            | some type => exact ih _ _ _ reg
    · simp [if_neg hform, with_registry]

/-- The classification does not depend on the registry it starts from, and the
registry afterwards is the one before followed by what was registered. -/
theorem arg_type_loop_registry (dw : Dwarf) :
    ∀ (fuel : Nat) (attr : Dwarf_Attribute) (td : type_data) (reg : Registry),
      arg_type_loop dw fuel attr td reg =
        (arg_type_loop dw fuel attr td []).map (with_registry reg) :=
  fun fuel attr td reg => arg_type_loop_from_registry dw fuel none attr td reg

theorem getattrs_registry (dw : Dwarf) (fuel : Nat) (die : Dwarf_Die) (td : type_data)
    (reg : Registry) :
    dwarf_getattrs die (arg_type_cb dw fuel) (td, reg) =
      (dwarf_getattrs die (arg_type_cb dw fuel) (td, [])).map (with_registry reg) := by
  rw [dwarf_getattrs_arg_type_cb, dwarf_getattrs_arg_type_cb]
  cases dwarf_attr die DW_AT_type with
  | none => simp [with_registry]
  | some a => exact arg_type_loop_registry dw fuel a td reg

theorem add_type_info_registry (dw : Dwarf) (fuel : Nat) (spec : String) (len : Nat)
    (die : Dwarf_Die) (ad : arg_data) (reg : Registry) :
    add_type_info dw fuel spec len die ad reg =
      (add_type_info dw fuel spec len die ad []).map
        fun r => (r.1, r.2.1, reg ++ r.2.2) := by
  unfold add_type_info
  rw [getattrs_registry dw fuel die type_data.init reg]
  cases dwarf_getattrs die (arg_type_cb dw fuel) (type_data.init, []) with
  | ret r =>
    simp only [map_ret, bind_ret, with_registry]
    cases type_info_switch spec len ad r.1 <;> rfl
  | fault e => rfl
  | timeout => rfl

theorem with_registry_append {α : Type} (reg l : Registry) (p : α × Registry) :
    with_registry reg (with_registry l p) = with_registry (reg ++ l) p := by
  simp [with_registry, List.append_assoc]

theorem argspec_loop_registry (dw : Dwarf) (fuel : Nat) :
    ∀ (l : List Dwarf_Die) (ad : arg_data) (reg : Registry),
      argspec_loop dw fuel l ad reg =
        (argspec_loop dw fuel l ad []).map (with_registry reg) := by
  intro l
  induction l with
  | nil => intro ad reg; simp [argspec_loop, with_registry]
  | cons p sibs ih =>
    intro ad reg
    unfold argspec_loop
    by_cases hp : p.tag = DW_TAG_formal_parameter
    · simp only [if_pos hp]
      rw [add_type_info_registry dw fuel _ 256 p _ reg]
      cases add_type_info dw fuel (snprintf 256 ("arg" ++ fmt_d (ad.idx + 1))) 256 p
          { ad with idx := ad.idx + 1 } [] with
      | ret r =>
        simp only [map_ret, bind_ret]
        rw [ih _ (reg ++ r.2.2), ih _ r.2.2, map_map]
        congr 1
        funext a
        exact (with_registry_append reg r.2.2 a).symm
      | fault e => rfl
      | timeout => rfl
    · simp [if_neg hp, with_registry]

theorem get_argspec_cb_registry (dw : Dwarf) (fuel : Nat) (die : Dwarf_Die) (ad : arg_data)
    (reg : Registry) :
    get_argspec_cb dw fuel die (ad, reg) =
      (get_argspec_cb dw fuel die (ad, [])).map (cb_with_registry reg) := by
  unfold get_argspec_cb
  cases die.name with
  | none => rfl
  | some n =>
    simp only
    by_cases hn : n ≠ ad.name
    · simp [if_pos hn, cb_with_registry]
    · simp only [if_neg hn]
      cases die.children with
      | nil => simp [cb_with_registry]
      | cons a rest =>
        simp only
        rw [argspec_loop_registry dw fuel (a :: rest) ad reg]
        cases argspec_loop dw fuel (a :: rest) ad [] <;> rfl

theorem get_retspec_cb_registry (dw : Dwarf) (fuel : Nat) (die : Dwarf_Die) (ad : arg_data)
    (reg : Registry) :
    get_retspec_cb dw fuel die (ad, reg) =
      (get_retspec_cb dw fuel die (ad, [])).map (cb_with_registry reg) := by
  unfold get_retspec_cb
  cases die.name with
  | none => rfl
  | some n =>
    simp only
    by_cases hn : n ≠ ad.name
    · simp [if_pos hn, cb_with_registry]
    · simp only [if_neg hn]
      by_cases ht : dwarf_hasattr die DW_AT_type = true
      · simp only [if_pos ht]
        rw [add_type_info_registry dw fuel _ 256 die ad reg]
        cases add_type_info dw fuel (snprintf 256 "@retval") 256 die ad [] <;> rfl
      · simp [if_neg ht, cb_with_registry]

/-- A scan whose callback only appends to the registry only appends to it. -/
theorem getfuncs_registry (cb : Dwarf_Die → arg_data × Registry → Outcome (Int × arg_data × Registry))
    (hcb : ∀ die ad reg, cb die (ad, reg) = (cb die (ad, [])).map (cb_with_registry reg)) :
    ∀ (l : List Dwarf_Die) (ad : arg_data) (reg : Registry),
      dwarf_getfuncs cb l (ad, reg) = (dwarf_getfuncs cb l (ad, [])).map (with_registry reg) := by
  intro l
  induction l with
  | nil => intro ad reg; simp [dwarf_getfuncs, with_registry]
  | cons f rest ih =>
    intro ad reg
    unfold dwarf_getfuncs
    rw [hcb f ad reg]
    cases cb f (ad, []) with
    | ret r =>
      obtain ⟨rc, ad1, l1⟩ := r
      simp only [map_ret, cb_with_registry]
      by_cases hrc : rc = DWARF_CB_OK
      · simp only [if_pos hrc]
        rw [ih ad1 (reg ++ l1), ih ad1 l1, map_map]
        congr 1
        funext a
        exact (with_registry_append reg l1 a).symm
      · simp [if_neg hrc, with_registry]
    | fault e => rfl
    | timeout => rfl

/-- The string `get_dwarf_argspec` returns is the one it returns from the empty
registry, and the registry afterwards is the one before followed by what the
call registered. -/
theorem get_dwarf_argspec_registry (fuel : Nat) (dinfo : debug_info) (name : String)
    (addr : Nat) (reg : Registry) :
    get_dwarf_argspec fuel dinfo name addr reg =
      (get_dwarf_argspec fuel dinfo name addr []).map (with_registry reg) := by
  unfold get_dwarf_argspec
  cases dinfo.dw with
  | none => simp [with_registry]
  | some dw =>
    simp only
    cases dwarf_addrdie dw (file_addr dinfo addr) with
    | none => simp [with_registry]
    | some cudie =>
      simp only
      rw [getfuncs_registry _ (get_argspec_cb_registry dw fuel) cudie.funcs _ reg]
      cases dwarf_getfuncs (get_argspec_cb dw fuel) cudie.funcs (arg_data.init name, []) <;> rfl

/-- The same for `get_dwarf_retspec`. -/
theorem get_dwarf_retspec_registry (fuel : Nat) (dinfo : debug_info) (name : String)
    (addr : Nat) (reg : Registry) :
    get_dwarf_retspec fuel dinfo name addr reg =
      (get_dwarf_retspec fuel dinfo name addr []).map (with_registry reg) := by
  unfold get_dwarf_retspec
  cases dinfo.dw with
  | none => simp [with_registry]
  | some dw =>
    simp only
    cases dwarf_addrdie dw (file_addr dinfo addr) with
    | none => simp [with_registry]
    | some cudie =>
      simp only
      rw [getfuncs_registry _ (get_retspec_cb_registry dw fuel) cudie.funcs _ reg]
      cases dwarf_getfuncs (get_retspec_cb dw fuel) cudie.funcs (arg_data.init name, []) <;> rfl

/-! ## The tokens of `get_dwarf_argspec` -/

/-- Whatever the type graph and whatever `die` held, an Enum classification
carries a name. -/
theorem arg_type_loop_from_enum_named (dw : Dwarf) :
    ∀ (fuel : Nat) (cur : Option Dwarf_Die) (attr : Dwarf_Attribute) (td : type_data)
      (reg : Registry) (r : type_data × Registry), enum_named td →
      arg_type_loop_from dw fuel cur attr td reg = .ret r → enum_named r.1 := by
  intro fuel
  induction fuel with
  | zero => intro cur attr td reg r _ hr; simp [arg_type_loop_from] at hr
  | succ fuel ih =>
    intro cur attr td reg r h hr
    unfold arg_type_loop_from at hr
    by_cases hform : is_ref_form attr.form = true
    · simp only [if_pos hform] at hr
      cases hres : formref_into dw attr cur with
      | none => rw [hres] at hr; cases hr
      | some die =>
        simp only [hres] at hr
        by_cases hbase : die.tag = DW_TAG_base_type
        · simp only [if_pos hbase] at hr
          cases hname : die.name with
          | none => rw [hname] at hr; cases hr
          | some tname =>
            simp only [hname, Outcome.ret.injEq] at hr
            rw [← hr]
            unfold base_type_case
            split
            · split
              · intro hf; simp at hf
              · split
                · intro hf; simp at hf
                · exact h
            · split
              · intro hf; simp at hf
              · split
                · intro hf; simp at hf
                · exact h
        · simp only [if_neg hbase] at hr
          by_cases henum : die.tag = DW_TAG_enumeration_type
          · simp only [if_pos henum] at hr
            unfold enum_type_case at hr
            cases hs : fill_enum_str die with
            | ret o =>
              rw [hs] at hr
              cases o with
              | none =>
                simp only [bind_ret, Outcome.ret.injEq] at hr
                rw [← hr]; exact h
              | some str =>
                simp only [bind_ret, Outcome.ret.injEq] at hr
                rw [← hr]; intro _; exact ⟨_, rfl⟩
            | fault e => rw [hs] at hr; cases hr
            | timeout => rw [hs] at hr; cases hr
          · simp only [if_neg henum] at hr
            cases hd : dwarf_attr die DW_AT_type with
            | none =>
              simp only [hd, Outcome.ret.injEq] at hr
              rw [← hr]
              show enum_named (if _ then _ else _)
              split
              · exact fun hf => h hf
              · exact h
            | some type =>
              simp only [hd] at hr
              refine ih _ type _ reg r ?_ hr
              split
              · exact fun hf => h hf
              · exact h
    · simp only [if_neg hform, Outcome.ret.injEq] at hr
      rw [← hr]; exact h

/-- Whatever the type graph, an Enum classification carries a name. -/
theorem arg_type_loop_enum_named (dw : Dwarf) :
    ∀ (fuel : Nat) (attr : Dwarf_Attribute) (td : type_data) (reg : Registry)
      (r : type_data × Registry), enum_named td →
      arg_type_loop dw fuel attr td reg = .ret r → enum_named r.1 :=
  fun fuel attr td reg r h hr => arg_type_loop_from_enum_named dw fuel none attr td reg r h hr

/-- What `classify` returns carries a size of 32 or 64 when it is Float and a
name when it is Enum. -/
theorem classify_ok (dw : Dwarf) (fuel : Nat) (die : Dwarf_Die) (td : type_data)
    (h : classify dw fuel die = .ret td) : float_size_ok td ∧ enum_named td := by
  unfold classify at h
  cases hg : dwarf_getattrs die (arg_type_cb dw fuel) (type_data.init, []) with
  | ret g =>
    rw [hg] at h
    simp only [map_ret, Outcome.ret.injEq] at h
    rw [← h]
    refine ⟨getattrs_float_size dw fuel die [] g hg, ?_⟩
    rw [dwarf_getattrs_arg_type_cb] at hg
    have hinit : enum_named type_data.init := by
      intro hf; simp [type_data.init] at hf
    split at hg
    · simp only [Outcome.ret.injEq] at hg
      rw [← hg]; exact hinit
    · exact arg_type_loop_enum_named dw fuel _ _ [] g hinit hg
  | fault e => rw [hg] at h; cases h
  | timeout => rw [hg] at h; cases h

/-- On a record whose classification returns, `add_type_info` is the switch on
that classification; the registry only grows. -/
theorem add_type_info_of_classify (dw : Dwarf) (fuel : Nat) (spec : String) (len : Nat)
    (die : Dwarf_Die) (ad : arg_data) (reg : Registry) (td : type_data)
    (h : classify dw fuel die = .ret td) :
    ∃ l : Registry, add_type_info dw fuel spec len die ad reg =
      (type_info_switch spec len ad td).bind fun t => .ret (t.1, t.2, reg ++ l) := by
  unfold classify at h
  cases hg : dwarf_getattrs die (arg_type_cb dw fuel) (type_data.init, []) with
  | ret g =>
    rw [hg] at h
    simp only [map_ret, Outcome.ret.injEq] at h
    refine ⟨g.2, ?_⟩
    unfold add_type_info
    rw [getattrs_registry dw fuel die type_data.init reg, hg]
    simp only [map_ret, bind_ret, with_registry, h]
  | fault e => rw [hg] at h; cases h
  | timeout => rw [hg] at h; cases h

theorem fmt_d_natCast (n : Nat) : fmt_d (n : Int) = toString n := rfl

/-- The token `add_type_info` makes of `argN` for a classification, `N - 1` and
`K` being the counts of earlier parameters that are not Float and that are,
when an Enum token is at most 255 bytes long. -/
theorem type_info_switch_token_fit (idx fpidx : Nat) (ad : arg_data) (td : type_data)
    (hidx : ad.idx = ((idx + 1 : Nat) : Int)) (hfp : ad.fpidx = (fpidx : Int))
    (hbi : idx + 1 < 2 ^ 31) (hbf : fpidx + 1 < 2 ^ 31)
    (hfloat : float_size_ok td) (henum : enum_named td)
    (hfit : td.fmt = ARG_FMT_ENUM →
      ("arg" ++ toString (idx + 1) ++ token_suffix td).length ≤ 255) :
    ∃ ad2 : arg_data,
      type_info_switch (snprintf 256 ("arg" ++ fmt_d ad.idx)) 256 ad td =
        .ret (if is_float td then "fparg" ++ toString (fpidx + 1) ++ "/" ++ fmt_d td.size
              else "arg" ++ toString (idx + 1) ++ token_suffix td, ad2) ∧
      ad2.idx = ((idx + (if is_float td then 0 else 1) : Nat) : Int) ∧
      ad2.fpidx = ((fpidx + (if is_float td then 1 else 0) : Nat) : Int) ∧
      ad2.argspec = ad.argspec := by
  have hidx0 : (0 : Int) ≤ ad.idx := by rw [hidx]; exact Int.ofNat_nonneg _
  have hidx1 : ad.idx < 2 ^ 31 := by rw [hidx]; exact_mod_cast hbi
  obtain ⟨hbuf, hlen⟩ := arg_token_fits ad.idx hidx0 hidx1
  have htxt : "arg" ++ fmt_d ad.idx = "arg" ++ toString (idx + 1) := by
    rw [hidx, fmt_d_natCast]
  rw [htxt] at hlen
  rw [hbuf, htxt]
  cases hfmt : td.fmt with
  | ARG_FMT_AUTO =>
    refine ⟨ad, ?_, ?_, ?_, rfl⟩
    · simp [type_info_switch, hfmt, is_float, token_suffix]
    · simp [is_float, hfmt, hidx]
    · simp [is_float, hfmt, hfp]
  | ARG_FMT_STR =>
    refine ⟨ad, ?_, ?_, ?_, rfl⟩
    · have hc : strcat 256 ("arg" ++ toString (idx + 1)) "/s" =
          .ret ("arg" ++ toString (idx + 1) ++ "/s") :=
        strcat_fits _ _ _ (by
          have : "/s".length = 2 := by decide
          omega)
      simp [type_info_switch, hfmt, is_float, token_suffix, hc]
    · simp [is_float, hfmt, hidx]
    · simp [is_float, hfmt, hfp]
  | ARG_FMT_CHAR =>
    refine ⟨ad, ?_, ?_, ?_, rfl⟩
    · have hc : strcat 256 ("arg" ++ toString (idx + 1)) "/c" =
          .ret ("arg" ++ toString (idx + 1) ++ "/c") :=
        strcat_fits _ _ _ (by
          have : "/c".length = 2 := by decide
          omega)
      simp [type_info_switch, hfmt, is_float, token_suffix, hc]
    · simp [is_float, hfmt, hidx]
    · simp [is_float, hfmt, hfp]
  | ARG_FMT_FLOAT =>
    refine ⟨{ ad with fpidx := ad.fpidx + 1, idx := ad.idx - 1 }, ?_, ?_, ?_, rfl⟩
    · have hk : fmt_d (ad.fpidx + 1) = toString (fpidx + 1) := by
        rw [hfp]; exact fmt_d_natCast (fpidx + 1)
      have hklen : (toString (fpidx + 1)).length ≤ 10 := by
        have := fmt_d_length ((fpidx + 1 : Nat) : Int) (Int.ofNat_nonneg _)
          (by exact_mod_cast hbf)
        rwa [fmt_d_natCast] at this
      have hslen : (fmt_d td.size).length = 2 := by
        rcases hfloat hfmt with h32 | h64
        · rw [h32]; decide
        · rw [h64]; decide
      have hfits : snprintf 256 ("fparg" ++ toString (fpidx + 1) ++ "/" ++ fmt_d td.size) =
          "fparg" ++ toString (fpidx + 1) ++ "/" ++ fmt_d td.size :=
        snprintf_fits 256 _ (by
          simp only [String.length_append, hslen]
          have h5 : "fparg".length = 5 := by decide
          have h1 : "/".length = 1 := by decide
          omega)
      simp [type_info_switch, hfmt, is_float, hk, hfits]
    · simp [is_float, hfmt, hidx]
    · simp [is_float, hfmt, hfp]
  | ARG_FMT_ENUM =>
    obtain ⟨n, hn⟩ := henum hfmt
    have hsuf : "arg" ++ toString (idx + 1) ++ token_suffix td =
        "arg" ++ toString (idx + 1) ++ "/e:" ++ n := by
      simp [token_suffix, hfmt, hn, String.append_assoc]
    have hnlen := hfit hfmt
    rw [hsuf, String.length_append] at hnlen
    refine ⟨ad, ?_, ?_, ?_, rfl⟩
    · have hc1 : strcat 256 ("arg" ++ toString (idx + 1)) "/e:" =
          .ret ("arg" ++ toString (idx + 1) ++ "/e:") :=
        strcat_fits _ _ _ (by
          have : "/e:".length = 3 := by decide
          omega)
      have hc2 : strcat 256 ("arg" ++ toString (idx + 1) ++ "/e:") n =
          .ret ("arg" ++ toString (idx + 1) ++ "/e:" ++ n) :=
        strcat_fits _ _ _ (by omega)
      simp only [type_info_switch, hfmt, hc1, hc2, hn, bind_ret, is_float, hsuf]
      simp
    · simp [is_float, hfmt, hidx]
    · simp [is_float, hfmt, hfp]

/-- The token `add_type_info` makes of `argN` for a classification, `N - 1` and
`K` being the counts of earlier parameters that are not Float and that are,
with enumeration names of at most 239 bytes. -/
theorem type_info_switch_token (idx fpidx : Nat) (ad : arg_data) (td : type_data)
    (hidx : ad.idx = ((idx + 1 : Nat) : Int)) (hfp : ad.fpidx = (fpidx : Int))
    (hbi : idx + 1 < 2 ^ 31) (hbf : fpidx + 1 < 2 ^ 31)
    (hfloat : float_size_ok td) (henum : enum_named td)
    (hfit : ∀ n, td.fmt = ARG_FMT_ENUM → td.enum_name = some n → n.length ≤ 239) :
    ∃ ad2 : arg_data,
      type_info_switch (snprintf 256 ("arg" ++ fmt_d ad.idx)) 256 ad td =
        .ret (if is_float td then "fparg" ++ toString (fpidx + 1) ++ "/" ++ fmt_d td.size
              else "arg" ++ toString (idx + 1) ++ token_suffix td, ad2) ∧
      ad2.idx = ((idx + (if is_float td then 0 else 1) : Nat) : Int) ∧
      ad2.fpidx = ((fpidx + (if is_float td then 1 else 0) : Nat) : Int) ∧
      ad2.argspec = ad.argspec := by
  apply type_info_switch_token_fit idx fpidx ad td hidx hfp hbi hbf hfloat henum
  intro hfmt
  obtain ⟨n, hn⟩ := henum hfmt
  have hsuf : "arg" ++ toString (idx + 1) ++ token_suffix td =
      "arg" ++ toString (idx + 1) ++ "/e:" ++ n := by
    simp [token_suffix, hfmt, hn, String.append_assoc]
  have hN : ("arg" ++ toString (idx + 1)).length ≤ 13 := by
    have h := (arg_token_fits ((idx + 1 : Nat) : Int) (Int.ofNat_nonneg _)
      (by exact_mod_cast hbi)).2
    rwa [fmt_d_natCast] at h
  have h3 : "/e:".length = 3 := by decide
  have hn239 := hfit n hfmt hn
  rw [hsuf, String.length_append, String.length_append]
  omega

theorem take_done_succ {α : Type} (done tds : List α) (td : α) :
    (done ++ td :: tds).take (done.length + 1) = done ++ [td] := by
  induction done with
  | nil => simp
  | cons a l ih => simpa using ih

/-- The token the spec claims for the parameter that follows the parameters
`done`, in terms of the counts over `done`. -/
theorem claimed_token_next (done tds : List type_data) (td : type_data) :
    claimed_token (done ++ td :: tds) done.length td =
      if is_float td then
        "fparg" ++ toString ((done.filter is_float).length + 1) ++ "/" ++ fmt_d td.size
      else
        "arg" ++ toString ((done.filter fun t => !is_float t).length + 1) ++ token_suffix td := by
  unfold claimed_token
  rw [take_done_succ]
  by_cases hf : is_float td = true
  · simp [hf, List.filter_append]
  · simp [hf, List.filter_append]

/-- The loop of `get_argspec_cb` over parameters whose classifications are
`tds`, after parameters classified `done`: it appends the tokens the spec
claims for them. -/
theorem argspec_loop_tokens (dw : Dwarf) (fuel : Nat) (tail : List Dwarf_Die)
    (htail : ∀ q ∈ tail.head?, q.tag ≠ DW_TAG_formal_parameter) (all : List type_data)
    (hall : all.length < 2 ^ 31) :
    ∀ (params : List Dwarf_Die) (tds : List type_data),
      List.Forall₂
        (fun p td => p.tag = DW_TAG_formal_parameter ∧ classify dw fuel p = .ret td)
        params tds →
      ∀ (done : List type_data) (ad : arg_data) (reg : Registry),
        all = done ++ tds →
        (∀ td ∈ tds, ∀ n, td.fmt = ARG_FMT_ENUM → td.enum_name = some n → n.length ≤ 239) →
        ad.idx = (((done.filter fun t => !is_float t).length : Nat) : Int) →
        ad.fpidx = (((done.filter is_float).length : Nat) : Int) →
        ∃ (ad1 : arg_data) (reg1 : Registry),
          argspec_loop dw fuel (params ++ tail) ad reg = .ret (ad1, reg1) ∧
          ad1.argspec = join_tokens ad.argspec (claimed_tokens_from all done.length tds) := by
  intro params tds h
  induction h with
  | nil =>
    intro done ad reg _ _ _ _
    exact ⟨ad, reg, argspec_loop_stop dw fuel tail ad reg htail, rfl⟩
  | @cons p td params tds hhead _ ih =>
    intro done ad reg hsplit hfit hidx hfp
    obtain ⟨hp, hclass⟩ := hhead
    obtain ⟨hfloat, henum⟩ := classify_ok dw fuel p td hclass
    have hlen : done.length + (tds.length + 1) < 2 ^ 31 := by
      have := congrArg List.length hsplit
      simp only [List.length_append, List.length_cons] at this
      omega
    have hnf : (done.filter fun t => !is_float t).length ≤ done.length :=
      List.length_filter_le _ _
    have hfl : (done.filter is_float).length ≤ done.length := List.length_filter_le _ _
    obtain ⟨l, hadd⟩ := add_type_info_of_classify dw fuel
      (snprintf 256 ("arg" ++ fmt_d (ad.idx + 1))) 256 p { ad with idx := ad.idx + 1 } reg td
      hclass
    obtain ⟨ad2, hsw, hidx2, hfp2, hspec2⟩ := type_info_switch_token
      (done.filter fun t => !is_float t).length (done.filter is_float).length
      { ad with idx := ad.idx + 1 } td
      (by simp only [hidx]; push_cast; rfl) hfp (by omega) (by omega) hfloat henum
      (hfit td (List.mem_cons_self td tds))
    have hsw1 : type_info_switch (snprintf 256 ("arg" ++ fmt_d (ad.idx + 1))) 256
        { ad with idx := ad.idx + 1 } td = _ := hsw
    rw [← claimed_token_next done tds td, ← hsplit] at hsw1
    obtain ⟨ad1, reg1, hrun, hout⟩ := ih (done ++ [td])
      { ad2 with
        argspec := some (match ad.argspec with
          | none => "@" ++ claimed_token all done.length td
          | some s => s ++ "," ++ claimed_token all done.length td) }
      (reg ++ l) (by rw [hsplit]; simp)
      (fun t ht => hfit t (List.mem_cons_of_mem td ht))
      (by
        simp only [List.filter_append, List.length_append, hidx2]
        by_cases hf : is_float td = true <;> simp [hf])
      (by
        simp only [List.filter_append, List.length_append, hfp2]
        by_cases hf : is_float td = true <;> simp [hf])
    refine ⟨ad1, reg1, ?_, ?_⟩
    · rw [List.cons_append, argspec_loop_param dw fuel p (params ++ tail) ad reg hp, hadd,
        hsw1]
      simp only [bind_ret]
      exact hrun
    · rw [hout]
      simp only [List.length_append, List.length_singleton, claimed_tokens_from, join_tokens]

theorem intercalate_go_append (x sep : String) :
    ∀ (ts : List String) (t : String),
      String.intercalate.go (x ++ t) sep ts = x ++ String.intercalate.go t sep ts := by
  intro ts
  induction ts with
  | nil => intro t; rfl
  | cons a rest ih =>
    intro t
    simp only [String.intercalate.go]
    rw [String.append_assoc x t sep, String.append_assoc x (t ++ sep) a, ih]

theorem join_tokens_some (acc : String) :
    ∀ ts : List String, join_tokens (some acc) ts = some (String.intercalate.go acc "," ts) := by
  intro ts
  induction ts generalizing acc with
  | nil => rfl
  | cons t rest ih => simp only [join_tokens, String.intercalate.go, ih]

/-- The loop of `get_argspec_cb` starting from a null `argspec` leaves `@` and
the comma-joined tokens. -/
theorem join_tokens_none (ts : List String) (h : ts ≠ []) :
    join_tokens none ts = some ("@" ++ ",".intercalate ts) := by
  cases ts with
  | nil => exact absurd rfl h
  | cons t rest =>
    simp only [join_tokens, join_tokens_some, String.intercalate]
    rw [intercalate_go_append]

/-- The argument spec of a function whose leading parameters are classified
`tds`, every token fitting the 256-byte buffer: `@` and the comma-joined tokens
of the spec, Float parameters counted apart from the others. -/
theorem argspec_tokens (fuel : Nat) (dinfo : debug_info) (name : String) (addr : Nat)
    (reg : Registry) (dw : Dwarf) (cu : CompileUnit) (f : Dwarf_Die)
    (params tail : List Dwarf_Die) (tds : List type_data)
    (hres : Resolves dinfo addr dw cu) (hfirst : FirstMatch cu.funcs name f)
    (hchildren : f.children = params ++ tail)
    (htail : ∀ q ∈ tail.head?, q.tag ≠ DW_TAG_formal_parameter)
    (hclass : List.Forall₂
      (fun p td => p.tag = DW_TAG_formal_parameter ∧ classify dw fuel p = .ret td)
      params tds)
    (hn : params ≠ []) (hlen : params.length < 2 ^ 31)
    (hfit : ∀ td ∈ tds, ∀ n, td.fmt = ARG_FMT_ENUM → td.enum_name = some n →
      n.length ≤ 239) :
    ∃ reg1, get_dwarf_argspec fuel dinfo name addr reg =
      .ret (some (claimed_argspec tds), reg1) := by
  have hlen2 : tds.length < 2 ^ 31 := by rw [← hclass.length_eq]; exact hlen
  have htds : tds ≠ [] := by
    intro h
    rw [h] at hclass
    cases hclass
    exact hn rfl
  obtain ⟨ad1, reg1, hrun, hout⟩ := argspec_loop_tokens dw fuel tail htail tds hlen2 params tds
    hclass [] (arg_data.init name) reg rfl hfit rfl rfl
  refine ⟨reg1, ?_⟩
  rw [get_dwarf_argspec_eq_loop fuel dinfo name addr reg dw cu f hres hfirst, hchildren, hrun]
  have htoks : claimed_tokens_from tds 0 tds ≠ [] := by
    cases tds with
    | nil => exact absurd rfl htds
    | cons t ts => simp [claimed_tokens_from]
  have hspec : ad1.argspec = some (claimed_argspec tds) := by
    rw [hout]
    exact join_tokens_none _ htoks
  simp only [bind_ret, hspec]

/-- The parameters `(int, float, int)` of the sample program, through
`argspec_tokens`: the second integer is numbered 2. -/
theorem argspec_tokens_int_float_int :
    ∃ reg1, get_dwarf_argspec 1
        (sample_dinfo [func_of "f" [param_of 0, param_of 1, param_of 0] []]) "f" 0x1000 [] =
      .ret (some "@arg1,fparg1/32,arg2", reg1) :=
  argspec_tokens 1 (sample_dinfo [func_of "f" [param_of 0, param_of 1, param_of 0] []]) "f"
    0x1000 [] (sample_dw [func_of "f" [param_of 0, param_of 1, param_of 0] []])
    { ranges := [(0x1000, 0x2000)],
      funcs := [func_of "f" [param_of 0, param_of 1, param_of 0] []] }
    (func_of "f" [param_of 0, param_of 1, param_of 0] [])
    [param_of 0, param_of 1, param_of 0] []
    [type_data.init, { type_data.init with fmt := ARG_FMT_FLOAT, size := 32 }, type_data.init]
    ⟨rfl, rfl⟩ ⟨rfl, [], [], rfl, fun g hg => absurd hg (List.not_mem_nil g)⟩
    rfl (fun q hq => by simp at hq)
    (List.Forall₂.cons ⟨rfl, rfl⟩
      (List.Forall₂.cons ⟨rfl, rfl⟩ (List.Forall₂.cons ⟨rfl, rfl⟩ List.Forall₂.nil)))
    (by simp) (by decide)
    (fun td htd n hfmt _ => by
      simp only [List.mem_cons, List.mem_singleton, List.not_mem_nil, or_false] at htd
      rcases htd with h | h | h <;> rw [h] at hfmt <;> cases hfmt)

/-- The loop of `get_argspec_cb` over parameters whose classifications are
`tds`, after parameters classified `done`: it appends the tokens the spec
claims for them, when each of these tokens is at most 255 bytes long. -/
theorem argspec_loop_tokens_fit (dw : Dwarf) (fuel : Nat) (tail : List Dwarf_Die)
    (htail : ∀ q ∈ tail.head?, q.tag ≠ DW_TAG_formal_parameter) (all : List type_data)
    (hall : all.length < 2 ^ 31) :
    ∀ (params : List Dwarf_Die) (tds : List type_data),
      List.Forall₂
        (fun p td => p.tag = DW_TAG_formal_parameter ∧ classify dw fuel p = .ret td)
        params tds →
      ∀ (done : List type_data) (ad : arg_data) (reg : Registry),
        all = done ++ tds →
        (∀ t ∈ claimed_tokens_from all done.length tds, t.length ≤ 255) →
        ad.idx = (((done.filter fun t => !is_float t).length : Nat) : Int) →
        ad.fpidx = (((done.filter is_float).length : Nat) : Int) →
        ∃ (ad1 : arg_data) (reg1 : Registry),
          argspec_loop dw fuel (params ++ tail) ad reg = .ret (ad1, reg1) ∧
          ad1.argspec = join_tokens ad.argspec (claimed_tokens_from all done.length tds) := by
  intro params tds h
  induction h with
  | nil =>
    intro done ad reg _ _ _ _
    exact ⟨ad, reg, argspec_loop_stop dw fuel tail ad reg htail, rfl⟩
  | @cons p td params tds hhead _ ih =>
    intro done ad reg hsplit hfit hidx hfp
    obtain ⟨hp, hclass⟩ := hhead
    obtain ⟨hfloat, henum⟩ := classify_ok dw fuel p td hclass
    have hlen : done.length + (tds.length + 1) < 2 ^ 31 := by
      have := congrArg List.length hsplit
      simp only [List.length_append, List.length_cons] at this
      omega
    have hnf : (done.filter fun t => !is_float t).length ≤ done.length :=
      List.length_filter_le _ _
    have hfl : (done.filter is_float).length ≤ done.length := List.length_filter_le _ _
    obtain ⟨l, hadd⟩ := add_type_info_of_classify dw fuel
      (snprintf 256 ("arg" ++ fmt_d (ad.idx + 1))) 256 p { ad with idx := ad.idx + 1 } reg td
      hclass
    obtain ⟨ad2, hsw, hidx2, hfp2, hspec2⟩ := type_info_switch_token_fit
      (done.filter fun t => !is_float t).length (done.filter is_float).length
      { ad with idx := ad.idx + 1 } td
      (by simp only [hidx]; push_cast; rfl) hfp (by omega) (by omega) hfloat henum
      (fun hfmt => by
        have htok := hfit (claimed_token all done.length td)
          (by simp only [claimed_tokens_from]; exact List.mem_cons_self _ _)
        have hnf : is_float td = false := by simp [is_float, hfmt]
        rw [hsplit, claimed_token_next done tds td, hnf] at htok
        exact htok)
    have hsw1 : type_info_switch (snprintf 256 ("arg" ++ fmt_d (ad.idx + 1))) 256
        { ad with idx := ad.idx + 1 } td = _ := hsw
    rw [← claimed_token_next done tds td, ← hsplit] at hsw1
    obtain ⟨ad1, reg1, hrun, hout⟩ := ih (done ++ [td])
      { ad2 with
        argspec := some (match ad.argspec with
          | none => "@" ++ claimed_token all done.length td
          | some s => s ++ "," ++ claimed_token all done.length td) }
      (reg ++ l) (by rw [hsplit]; simp)
      (fun t ht => hfit t (by
        simp only [claimed_tokens_from]
        rw [List.length_append] at ht
        exact List.mem_cons_of_mem _ ht))
      (by
        simp only [List.filter_append, List.length_append, hidx2]
        by_cases hf : is_float td = true <;> simp [hf])
      (by
        simp only [List.filter_append, List.length_append, hfp2]
        by_cases hf : is_float td = true <;> simp [hf])
    refine ⟨ad1, reg1, ?_, ?_⟩
    · rw [List.cons_append, argspec_loop_param dw fuel p (params ++ tail) ad reg hp, hadd,
        hsw1]
      simp only [bind_ret]
      exact hrun
    · rw [hout]
      simp only [List.length_append, List.length_singleton, claimed_tokens_from, join_tokens]

/-- The argument spec of a function whose leading parameters are classified
`tds`, every token being at most 255 bytes long: `@` and the comma-joined tokens
of the spec, Float parameters counted apart from the others. -/
theorem argspec_tokens_fit (fuel : Nat) (dinfo : debug_info) (name : String) (addr : Nat)
    (reg : Registry) (dw : Dwarf) (cu : CompileUnit) (f : Dwarf_Die)
    (params tail : List Dwarf_Die) (tds : List type_data)
    (hres : Resolves dinfo addr dw cu) (hfirst : FirstMatch cu.funcs name f)
    (hchildren : f.children = params ++ tail)
    (htail : ∀ q ∈ tail.head?, q.tag ≠ DW_TAG_formal_parameter)
    (hclass : List.Forall₂
      (fun p td => p.tag = DW_TAG_formal_parameter ∧ classify dw fuel p = .ret td)
      params tds)
    (hn : params ≠ []) (hlen : params.length < 2 ^ 31)
    (hfit : ∀ t ∈ claimed_tokens_from tds 0 tds, t.length ≤ 255) :
    ∃ reg1, get_dwarf_argspec fuel dinfo name addr reg =
      .ret (some (claimed_argspec tds), reg1) := by
  have hlen2 : tds.length < 2 ^ 31 := by rw [← hclass.length_eq]; exact hlen
  have htds : tds ≠ [] := by
    intro h
    rw [h] at hclass
    cases hclass
    exact hn rfl
  obtain ⟨ad1, reg1, hrun, hout⟩ := argspec_loop_tokens_fit dw fuel tail htail tds hlen2 params tds
    hclass [] (arg_data.init name) reg rfl hfit rfl rfl
  refine ⟨reg1, ?_⟩
  rw [get_dwarf_argspec_eq_loop fuel dinfo name addr reg dw cu f hres hfirst, hchildren, hrun]
  have htoks : claimed_tokens_from tds 0 tds ≠ [] := by
    cases tds with
    | nil => exact absurd rfl htds
    | cons t ts => simp [claimed_tokens_from]
  have hspec : ad1.argspec = some (claimed_argspec tds) := by
    rw [hout]
    exact join_tokens_none _ htoks
  simp only [bind_ret, hspec]

/-! ## The token of `get_dwarf_retspec` and the null results -/

/-- The token `add_type_info` makes of a short token `spec` for a
classification: the suffix is appended, except that a Float classification
replaces the whole token by `fpargK/SIZE`. -/
theorem type_info_switch_spec (spec : String) (fpidx : Nat) (ad : arg_data) (td : type_data)
    (hspec : spec.length ≤ 13) (hfp : ad.fpidx = (fpidx : Int)) (hbf : fpidx + 1 < 2 ^ 31)
    (hfloat : float_size_ok td) (henum : enum_named td)
    (hfit : ∀ n, td.fmt = ARG_FMT_ENUM → td.enum_name = some n → n.length ≤ 239) :
    ∃ ad2 : arg_data,
      type_info_switch spec 256 ad td =
        .ret (if is_float td then "fparg" ++ toString (fpidx + 1) ++ "/" ++ fmt_d td.size
              else spec ++ token_suffix td, ad2) ∧
      ad2.argspec = ad.argspec := by
  cases hfmt : td.fmt with
  | ARG_FMT_AUTO =>
    exact ⟨ad, by simp [type_info_switch, hfmt, is_float, token_suffix], rfl⟩
  | ARG_FMT_STR =>
    have hc : strcat 256 spec "/s" = .ret (spec ++ "/s") :=
      strcat_fits _ _ _ (by
        have : "/s".length = 2 := by decide
        omega)
    exact ⟨ad, by simp [type_info_switch, hfmt, is_float, token_suffix, hc], rfl⟩
  | ARG_FMT_CHAR =>
    have hc : strcat 256 spec "/c" = .ret (spec ++ "/c") :=
      strcat_fits _ _ _ (by
        have : "/c".length = 2 := by decide
        omega)
    exact ⟨ad, by simp [type_info_switch, hfmt, is_float, token_suffix, hc], rfl⟩
  | ARG_FMT_FLOAT =>
    have hk : fmt_d (ad.fpidx + 1) = toString (fpidx + 1) := by
      rw [hfp]; exact fmt_d_natCast (fpidx + 1)
    have hklen : (toString (fpidx + 1)).length ≤ 10 := by
      have := fmt_d_length ((fpidx + 1 : Nat) : Int) (Int.ofNat_nonneg _)
        (by exact_mod_cast hbf)
      rwa [fmt_d_natCast] at this
    have hslen : (fmt_d td.size).length = 2 := by
      rcases hfloat hfmt with h32 | h64
      · rw [h32]; decide
      · rw [h64]; decide
    have hfits : snprintf 256 ("fparg" ++ toString (fpidx + 1) ++ "/" ++ fmt_d td.size) =
        "fparg" ++ toString (fpidx + 1) ++ "/" ++ fmt_d td.size :=
      snprintf_fits 256 _ (by
        simp only [String.length_append, hslen]
        have h5 : "fparg".length = 5 := by decide
        have h1 : "/".length = 1 := by decide
        omega)
    exact ⟨{ ad with fpidx := ad.fpidx + 1, idx := ad.idx - 1 },
      by simp [type_info_switch, hfmt, is_float, hk, hfits], rfl⟩
  | ARG_FMT_ENUM =>
    obtain ⟨n, hn⟩ := henum hfmt
    have hnlen := hfit n hfmt hn
    have hc1 : strcat 256 spec "/e:" = .ret (spec ++ "/e:") :=
      strcat_fits _ _ _ (by
        have : "/e:".length = 3 := by decide
        omega)
    have hc2 : strcat 256 (spec ++ "/e:") n = .ret (spec ++ "/e:" ++ n) :=
      strcat_fits _ _ _ (by
        rw [String.length_append]
        have : "/e:".length = 3 := by decide
        omega)
    have hsuf : spec ++ token_suffix td = spec ++ "/e:" ++ n := by
      simp [token_suffix, hfmt, hn, String.append_assoc]
    refine ⟨ad, ?_, rfl⟩
    simp only [type_info_switch, hfmt, hc1, hc2, hn, bind_ret, is_float, hsuf]
    simp

/-- The return spec of the first function record of the requested name, when it
has a `DW_AT_type` attribute whose classification returns and the token fits
the 256-byte buffer: `@retval` and the suffix, except that a Float
classification gives `fparg1/SIZE` with no `@` in front. -/
theorem retspec_token (fuel : Nat) (dinfo : debug_info) (name : String) (addr : Nat)
    (reg : Registry) (dw : Dwarf) (cu : CompileUnit) (f : Dwarf_Die) (td : type_data)
    (hres : Resolves dinfo addr dw cu) (hfirst : FirstMatch cu.funcs name f)
    (htype : dwarf_hasattr f DW_AT_type = true)
    (hclass : classify dw fuel f = .ret td)
    (hfit : ∀ n, td.fmt = ARG_FMT_ENUM → td.enum_name = some n → n.length ≤ 239) :
    ∃ reg1, get_dwarf_retspec fuel dinfo name addr reg =
      .ret (some (if is_float td then "fparg1/" ++ fmt_d td.size
                  else "@retval" ++ token_suffix td), reg1) := by
  obtain ⟨hfloat, henum⟩ := classify_ok dw fuel f td hclass
  obtain ⟨l, hadd⟩ := add_type_info_of_classify dw fuel (snprintf 256 "@retval") 256 f
    (arg_data.init name) reg td hclass
  have hbuf : snprintf 256 "@retval" = "@retval" := by decide
  obtain ⟨ad2, hsw, _⟩ := type_info_switch_spec "@retval" 0 (arg_data.init name) td
    (by decide) rfl (by decide) hfloat henum hfit
  refine ⟨reg ++ l, ?_⟩
  rw [get_dwarf_retspec_first_match fuel dinfo name addr reg dw cu f hres hfirst,
    get_retspec_cb_match dw fuel f (arg_data.init name, reg) hfirst.1, if_pos htype, hadd,
    hbuf, hsw]
  simp only [bind_ret]
  by_cases hf : is_float td = true
  · simp only [hf, if_true]
    have h1 : "fparg" ++ toString (0 + 1) ++ "/" = "fparg1/" := by decide
    rw [h1]
  · simp [hf]

/-- Both lookups return null, and leave the registry alone, when the handle's
debug data is null, when no compile unit covers the address, and when every
function record of the compile unit has a name other than the requested one. -/
theorem lookup_null (fuel : Nat) (dinfo : debug_info) (name : String) (addr : Nat)
    (reg : Registry) :
    (dinfo.dw = none →
        get_dwarf_argspec fuel dinfo name addr reg = .ret (none, reg) ∧
        get_dwarf_retspec fuel dinfo name addr reg = .ret (none, reg)) ∧
      (∀ dw, dinfo.dw = some dw → dwarf_addrdie dw (file_addr dinfo addr) = none →
        get_dwarf_argspec fuel dinfo name addr reg = .ret (none, reg) ∧
        get_dwarf_retspec fuel dinfo name addr reg = .ret (none, reg)) ∧
      (∀ dw cu, Resolves dinfo addr dw cu →
        (∀ g ∈ cu.funcs, ∃ n, g.name = some n ∧ n ≠ name) →
        get_dwarf_argspec fuel dinfo name addr reg = .ret (none, reg) ∧
        get_dwarf_retspec fuel dinfo name addr reg = .ret (none, reg)) := by
  refine ⟨?_, ?_, ?_⟩
  · intro h
    simp [get_dwarf_argspec, get_dwarf_retspec, h]
  · intro dw h hcu
    simp [get_dwarf_argspec, get_dwarf_retspec, h, hcu]
  · intro dw cu hres hall
    obtain ⟨hdw, hcu⟩ := hres
    have hscan : ∀ (cb : Dwarf_Die → arg_data × Registry → Outcome (Int × arg_data × Registry))
        (s : arg_data × Registry) (l : List Dwarf_Die),
        (∀ g ∈ l, cb g s = .ret (DWARF_CB_OK, s)) → dwarf_getfuncs cb l s = .ret s := by
      intro cb s l
      induction l with
      | nil => intro _; rfl
      | cons g rest ih =>
        intro h
        simp only [dwarf_getfuncs, h g (List.mem_cons_self g rest), if_true]
        exact ih (fun g1 hg1 => h g1 (List.mem_cons_of_mem g hg1))
    constructor
    · simp only [get_dwarf_argspec, hdw, hcu]
      rw [hscan _ _ _ (fun g hg => by
        obtain ⟨n, hn, hne⟩ := hall g hg
        exact get_argspec_cb_skip dw fuel g n _ hn hne)]
      rfl
    · simp only [get_dwarf_retspec, hdw, hcu]
      rw [hscan _ _ _ (fun g hg => by
        obtain ⟨n, hn, hne⟩ := hall g hg
        exact get_retspec_cb_skip dw fuel g n _ hn hne)]
      rfl

/-! ## Where the traversal stops -/

/-- One iteration of the loop at an attribute that is not of a reference form. -/
theorem arg_type_loop_nonref (dw : Dwarf) (fuel : Nat) (attr : Dwarf_Attribute)
    (td : type_data) (reg : Registry) (hf : is_ref_form attr.form = false) :
    arg_type_loop dw (fuel + 1) attr td reg = .ret (td, reg) := by
  simp [arg_type_loop, arg_type_loop_from, formref_into, hf]

/-- One iteration of the loop at a record that is neither a base type nor an
enumeration and has no `DW_AT_type` attribute. -/
theorem arg_type_loop_no_type (dw : Dwarf) (fuel : Nat) (attr : Dwarf_Attribute)
    (td : type_data) (reg : Registry) (die : Dwarf_Die)
    (hf : is_ref_form attr.form = true) (hr : dwarf_formref_die dw attr = some die)
    (hb : die.tag ≠ DW_TAG_base_type) (he : die.tag ≠ DW_TAG_enumeration_type)
    (ht : dwarf_attr die DW_AT_type = none) :
    arg_type_loop dw (fuel + 1) attr td reg =
      .ret (add_pointer td (if is_pointer_link die then 1 else 0), reg) := by
  by_cases hp : die.tag = DW_TAG_pointer_type ∨ die.tag = DW_TAG_ptr_to_member_type
  · have hl : is_pointer_link die = true := by
      simpa [is_pointer_link] using hp
    simp [arg_type_loop, arg_type_loop_from, formref_into, hf, hr, hb, he, ht, hp, hl, add_pointer]
  · have hl : is_pointer_link die = false := by
      simpa [is_pointer_link] using hp
    simp [arg_type_loop, arg_type_loop_from, formref_into, hf, hr, hb, he, ht, hp, hl, add_pointer]

/-- Two iterations of the loop at a wrapper whose `DW_AT_type` attribute is not
of a reference form. -/
theorem arg_type_loop_nonref_end (dw : Dwarf) (fuel : Nat) (attr : Dwarf_Attribute)
    (td : type_data) (reg : Registry) (die : Dwarf_Die)
    (hf : is_ref_form attr.form = true) (hr : dwarf_formref_die dw attr = some die)
    (hend : NonRefEnd die) :
    arg_type_loop dw (fuel + 2) attr td reg =
      .ret (add_pointer td (if is_pointer_link die then 1 else 0), reg) := by
  obtain ⟨hb, he, a, ha, hform⟩ := hend
  rw [arg_type_loop_wrapper dw (fuel + 1) attr a td reg die hf hr hb he ha
      (fun h => by rw [hform] at h; cases h),
    arg_type_loop_nonref dw fuel a _ reg hform]

theorem pointer_links_snoc (ws : List Dwarf_Die) (w : Dwarf_Die) :
    pointer_links (ws ++ [w]) = pointer_links ws + (if is_pointer_link w then 1 else 0) := by
  unfold pointer_links
  by_cases h : is_pointer_link w = true
  · simp [List.filter_append, h]
  · simp [List.filter_append, h]

theorem base_type_case_pointer (tname : String) (td : type_data) :
    (base_type_case tname td).pointer = td.pointer := by
  unfold base_type_case
  split
  · split
    · rfl
    · split <;> rfl
  · split
    · rfl
    · split <;> rfl

theorem enum_type_case_pointer (die : Dwarf_Die) (td : type_data) (reg : Registry)
    (r : type_data × Registry) (h : enum_type_case die td reg = .ret r) :
    r.1.pointer = td.pointer := by
  unfold enum_type_case at h
  cases hs : fill_enum_str die with
  | ret o =>
    rw [hs] at h
    cases o with
    | none =>
      simp only [bind_ret, Outcome.ret.injEq] at h
      rw [← h]
    | some str =>
      simp only [bind_ret, Outcome.ret.injEq] at h
      rw [← h]
  | fault e => rw [hs] at h; cases h
  | timeout => rw [hs] at h; cases h

/-- A base type or enumeration record is not a pointer link. -/
theorem not_pointer_link_of_terminal (die : Dwarf_Die)
    (h : die.tag = DW_TAG_base_type ∨ die.tag = DW_TAG_enumeration_type) :
    is_pointer_link die = false := by
  rcases h with h | h <;> simp [is_pointer_link, h] <;> decide

/-- The pointer depth in the record the loop returns after a chain that stops
at `last`: the depth it started from plus the pointer links among the records
visited, `last` included. -/
theorem arg_type_loop_pointer (dw : Dwarf) (attr : Dwarf_Attribute) (ws : List Dwarf_Die)
    (last : Dwarf_Die) (td : type_data) (reg : Registry) (fuel : Nat)
    (r : type_data × Registry)
    (hchain : TypeChain dw attr ws last) (hstop : StopsAt last ∨ NonRefEnd last)
    (hr : arg_type_loop dw fuel attr td reg = .ret r) :
    r.1.pointer = td.pointer + (pointer_links (ws ++ [last]) : Nat) := by
  obtain ⟨a, haf, har, hwalk⟩ := arg_type_loop_chain dw last ws attr hchain
  have hne : arg_type_loop dw fuel attr td reg ≠ .timeout := by rw [hr]; intro h; cases h
  have hbig := arg_type_loop_mono_le dw fuel attr td reg hne (ws.length + 2)
  have hsplit : fuel + (ws.length + 2) = ws.length + (fuel + 2) := by omega
  rw [hsplit, hwalk, hr] at hbig
  rw [pointer_links_snoc]
  have hfinal : ∀ n : Nat, r.1.pointer = (add_pointer td (pointer_links ws)).pointer + (n : Int) →
      (n = if is_pointer_link last then 1 else 0) →
      r.1.pointer = td.pointer + ((pointer_links ws + (if is_pointer_link last then 1 else 0) :
        Nat) : Int) := by
    intro n h1 h2
    rw [h1, ← h2]
    simp only [add_pointer]
    push_cast
    ring
  by_cases hb : last.tag = DW_TAG_base_type
  · have hl := not_pointer_link_of_terminal last (Or.inl hb)
    cases hn : last.name with
    | none =>
      have : arg_type_loop dw (fuel + 2) a (add_pointer td (pointer_links ws)) reg =
          .fault .strcmp_null := by
        simp [arg_type_loop, arg_type_loop_from, formref_into, haf, har, hb, hn]
      rw [this] at hbig; cases hbig
    | some tname =>
      rw [arg_type_loop_base dw (fuel + 1) a _ reg last tname haf har hb hn] at hbig
      simp only [Outcome.ret.injEq] at hbig
      refine hfinal 0 ?_ (by simp [hl])
      rw [← hbig, base_type_case_pointer]
      simp
  · by_cases he : last.tag = DW_TAG_enumeration_type
    · have hl := not_pointer_link_of_terminal last (Or.inr he)
      rw [arg_type_loop_enum dw (fuel + 1) a _ reg last haf har he] at hbig
      refine hfinal 0 ?_ (by simp [hl])
      rw [enum_type_case_pointer last _ reg r hbig]
      simp
    · have hret : arg_type_loop dw (fuel + 2) a (add_pointer td (pointer_links ws)) reg =
          .ret (add_pointer (add_pointer td (pointer_links ws))
            (if is_pointer_link last then 1 else 0), reg) := by
        rcases hstop with hs | hs
        · rcases hs with hs | hs | hs
          · exact absurd hs hb
          · exact absurd hs he
          · exact arg_type_loop_no_type dw (fuel + 1) a _ reg last haf har hb he hs
        · exact arg_type_loop_nonref_end dw fuel a _ reg last haf har hs
      rw [hret] at hbig
      simp only [Outcome.ret.injEq] at hbig
      refine hfinal (if is_pointer_link last then 1 else 0) ?_ rfl
      rw [← hbig]
      simp only [add_pointer]

theorem base_type_case_float (td : type_data) :
    base_type_case "float" td = { td with fmt := ARG_FMT_FLOAT, size := 32 } := by
  have h1 : ¬ ("float" = "char" ∨ "float" = "signed char") := by decide
  unfold base_type_case
  rw [if_neg h1, if_pos rfl]

theorem base_type_case_double (td : type_data) :
    base_type_case "double" td = { td with fmt := ARG_FMT_FLOAT, size := 64 } := by
  have h1 : ¬ ("double" = "char" ∨ "double" = "signed char") := by decide
  have h2 : ¬ ("double" = "float") := by decide
  unfold base_type_case
  rw [if_neg h1, if_neg h2, if_pos rfl]

/-- A base type whose name is none of `char`, `signed char`, `float`, `double`
leaves the working record as it is. -/
theorem base_type_case_other (tname : String) (td : type_data)
    (h1 : tname ≠ "char") (h2 : tname ≠ "signed char") (h3 : tname ≠ "float")
    (h4 : tname ≠ "double") : base_type_case tname td = td := by
  unfold base_type_case
  rw [if_neg (by rintro (h | h); exact h1 h; exact h2 h), if_neg h3, if_neg h4]

/-- The `fparg` token fits the 256-byte buffer for an `int` counter. -/
theorem fparg_token_fits (fpidx : Int) (size : String) (h0 : 0 ≤ fpidx) (h1 : fpidx < 2 ^ 31)
    (hs : size.length = 2) :
    snprintf 256 ("fparg" ++ fmt_d fpidx ++ "/" ++ size) = "fparg" ++ fmt_d fpidx ++ "/" ++ size := by
  have hlen := fmt_d_length fpidx h0 h1
  apply snprintf_fits
  simp only [String.length_append, hs]
  have h5 : "fparg".length = 5 := by decide
  have h6 : "/".length = 1 := by decide
  omega

/-- `fill_enum_str` returns null for a record without children and for one
whose first child is not an enumerator. -/
theorem fill_enum_str_none (die : Dwarf_Die)
    (h : ∀ c ∈ die.children.head?, c.tag ≠ DW_TAG_enumerator) :
    fill_enum_str die = .ret none := by
  unfold fill_enum_str
  cases hc : die.children with
  | nil => rfl
  | cons c rest =>
    have hne : c.tag ≠ DW_TAG_enumerator := h c (by simp [hc])
    simp [fill_enum_loop, hne]

/-- When `fill_enum_str` returns a string the first child is an enumerator. -/
theorem fill_enum_str_some (die : Dwarf_Die) (str : String)
    (h : fill_enum_str die = .ret (some str)) :
    ∃ e rest, die.children = e :: rest ∧ e.tag = DW_TAG_enumerator := by
  unfold fill_enum_str at h
  cases hc : die.children with
  | nil => rw [hc] at h; cases h
  | cons c rest =>
    rw [hc] at h
    by_cases ht : c.tag = DW_TAG_enumerator
    · exact ⟨c, rest, rfl, ht⟩
    · simp [fill_enum_loop, ht] at h

/-- The loop of `arg_type_cb` leaves the registry as it is unless its chain ends
at an enumeration whose first child is an enumerator, in which case exactly one
declaration is handed to `parse_enum_string`. -/
theorem arg_type_loop_registers (dw : Dwarf) :
    ∀ (fuel : Nat) (attr : Dwarf_Attribute) (td : type_data) (reg : Registry)
      (r : type_data × Registry),
      arg_type_loop dw fuel attr td reg = .ret r →
      r.2 = reg ∨
      ∃ (ws : List Dwarf_Die) (last : Dwarf_Die) (decl : String),
        TypeChain dw attr ws last ∧ last.tag = DW_TAG_enumeration_type ∧
        (∃ e rest, last.children = e :: rest ∧ e.tag = DW_TAG_enumerator) ∧
        r.2 = parse_enum_string decl reg := by
  intro fuel
  induction fuel with
  | zero => intro attr td reg r h; cases h
  | succ fuel ih =>
    intro attr td reg r h
    unfold arg_type_loop at h
    unfold arg_type_loop_from at h
    by_cases hform : is_ref_form attr.form = true
    · simp only [if_pos hform] at h
      cases hres : dwarf_formref_die dw attr with
      | none => rw [formref_into_none dw attr none hres] at h; cases h
      | some die =>
        simp only [formref_into_some dw attr none die hres] at h
        by_cases hbase : die.tag = DW_TAG_base_type
        · simp only [if_pos hbase] at h
          cases hn : die.name with
          | none => rw [hn] at h; cases h
          | some tname =>
            simp only [hn, Outcome.ret.injEq] at h
            left; rw [← h]
        · simp only [if_neg hbase] at h
          by_cases henum : die.tag = DW_TAG_enumeration_type
          · simp only [if_pos henum] at h
            unfold enum_type_case at h
            cases hs : fill_enum_str die with
            | ret o =>
              rw [hs] at h
              cases o with
              | none =>
                simp only [bind_ret, Outcome.ret.injEq] at h
                left; rw [← h]
              | some str =>
                simp only [bind_ret, Outcome.ret.injEq] at h
                right
                refine ⟨[], die, "enum " ++ enum_name_of die ++ " \x7b " ++ str ++ " \x7d",
                  ⟨hform, hres⟩, henum, fill_enum_str_some die str hs, ?_⟩
                rw [← h]
            | fault e => rw [hs] at h; cases h
            | timeout => rw [hs] at h; cases h
          · simp only [if_neg henum] at h
            cases hd : dwarf_attr die DW_AT_type with
            | none =>
              simp only [hd, Outcome.ret.injEq] at h
              left; rw [← h]
            | some type =>
              simp only [hd] at h
              have h := arg_type_loop_from_ret dw fuel die type _ reg r hbase henum hd h
              rcases ih type _ reg r h with hsame | ⟨ws, last, decl, hchain, hl, hfirst, hreg⟩
              · exact Or.inl hsame
              · exact Or.inr ⟨die :: ws, last, decl,
                  ⟨hform, hres, hbase, henum, type, hd, hchain⟩, hl, hfirst, hreg⟩
    · simp only [if_neg hform, Outcome.ret.injEq] at h
      left; rw [← h]

/-- A chain that ends at a record of one of the unclassified kinds: the loop
returns the working record with the pointer links counted and nothing else
changed, and leaves the registry alone. -/
theorem arg_type_loop_chain_auto (dw : Dwarf) (attr : Dwarf_Attribute) (ws : List Dwarf_Die)
    (last : Dwarf_Die) (td : type_data) (reg : Registry) (fuel : Nat)
    (hchain : TypeChain dw attr ws last) (hauto : AutoEnd last)
    (hfuel : ws.length + 1 < fuel) :
    arg_type_loop dw fuel attr td reg =
      .ret (add_pointer td (pointer_links (ws ++ [last])), reg) := by
  obtain ⟨a, haf, har, hwalk⟩ := arg_type_loop_chain dw last ws attr hchain
  obtain ⟨k, rfl⟩ : ∃ k, fuel = ws.length + (k + 2) := ⟨fuel - ws.length - 2, by omega⟩
  rw [hwalk, pointer_links_snoc, ← add_pointer_add]
  rcases hauto with ⟨hb, tname, hn, h1, h2, h3, h4⟩ | ⟨hb, he, ht⟩ | hend
  · rw [arg_type_loop_base dw (k + 1) a _ reg last tname haf har hb hn,
      base_type_case_other tname _ h1 h2 h3 h4,
      not_pointer_link_of_terminal last (Or.inl hb)]
    simp [add_pointer_zero]
  · exact arg_type_loop_no_type dw (k + 1) a _ reg last haf har hb he ht
  · exact arg_type_loop_nonref_end dw k a _ reg last haf har hend

theorem pointer_links_of_tags :
    ∀ (ws ws' : List Dwarf_Die), ws'.map (fun d => d.tag) = ws.map (fun d => d.tag) →
      pointer_links ws' = pointer_links ws := by
  intro ws
  induction ws with
  | nil =>
    intro ws' h
    cases ws' with
    | nil => rfl
    | cons a l => simp at h
  | cons w ws ih =>
    intro ws' h
    cases ws' with
    | nil => simp at h
    | cons w' ws' =>
      simp only [List.map_cons, List.cons.injEq] at h
      have hl : is_pointer_link w' = is_pointer_link w := by
        simp [is_pointer_link, h.1]
      rw [pointer_links_cons, pointer_links_cons, ih ws' h.2, hl]

theorem pointer_links_append (ws ws' : List Dwarf_Die) :
    pointer_links (ws ++ ws') = pointer_links ws + pointer_links ws' := by
  simp [pointer_links, List.filter_append]

/-- At a record where the traversal stops, the loop does the same in any two
sessions and from any two reference-form attributes that resolve to it. -/
theorem arg_type_loop_at_stop (dw1 dw2 : Dwarf) (a1 a2 : Dwarf_Attribute) (last : Dwarf_Die)
    (hf1 : is_ref_form a1.form = true) (hr1 : dwarf_formref_die dw1 a1 = some last)
    (hf2 : is_ref_form a2.form = true) (hr2 : dwarf_formref_die dw2 a2 = some last)
    (hstop : StopsAt last ∨ NonRefEnd last) (k : Nat) (td : type_data) (reg : Registry) :
    arg_type_loop dw2 k a2 td reg = arg_type_loop dw1 k a1 td reg := by
  cases k with
  | zero => rfl
  | succ k =>
    by_cases hb : last.tag = DW_TAG_base_type
    · simp only [arg_type_loop, arg_type_loop_from, formref_into, hf1, hf2, hr1, hr2,
        if_pos hb, if_true]
    · by_cases he : last.tag = DW_TAG_enumeration_type
      · rw [arg_type_loop_enum dw2 k a2 td reg last hf2 hr2 he,
          arg_type_loop_enum dw1 k a1 td reg last hf1 hr1 he]
      · rcases hstop with hs | hs
        · rcases hs with hs | hs | hs
          · exact absurd hs hb
          · exact absurd hs he
          · rw [arg_type_loop_no_type dw2 k a2 td reg last hf2 hr2 hb he hs,
              arg_type_loop_no_type dw1 k a1 td reg last hf1 hr1 hb he hs]
        · obtain ⟨_, _, a, ha, hform⟩ := hs
          rw [arg_type_loop_wrapper dw2 k a2 a td reg last hf2 hr2 hb he ha
              (fun h => by rw [hform] at h; cases h),
            arg_type_loop_wrapper dw1 k a1 a td reg last hf1 hr1 hb he ha
              (fun h => by rw [hform] at h; cases h)]
          cases k with
          | zero => rfl
          | succ k =>
            rw [arg_type_loop_nonref dw2 k a _ reg hform,
              arg_type_loop_nonref dw1 k a _ reg hform]

/-- The wrappers of a chain are not records where the traversal stops: each is
neither base type nor enumeration and has a reference-form type attribute. -/
theorem typechain_wrappers (dw : Dwarf) (last : Dwarf_Die) :
    ∀ (ws : List Dwarf_Die) (attr : Dwarf_Attribute), TypeChain dw attr ws last →
      ∀ w ∈ ws, w.tag ≠ DW_TAG_base_type ∧ w.tag ≠ DW_TAG_enumeration_type ∧
        ∃ a, dwarf_attr w DW_AT_type = some a ∧ is_ref_form a.form = true := by
  intro ws
  induction ws with
  | nil => intro attr _ w hw; cases hw
  | cons v ws ih =>
    intro attr h w hw
    obtain ⟨_, _, hb, he, type, ht, hrest⟩ := h
    rcases List.mem_cons.mp hw with hv | hmem
    · rw [hv]
      have hform : is_ref_form type.form = true := by
        cases ws with
        | nil => exact hrest.1
        | cons u rest => exact hrest.1
      exact ⟨hb, he, type, ht, hform⟩
    · exact ih type hrest w hmem

/-! ## The scan over the function records -/

/-- A scan by `dwarf_getfuncs` never looks at the records after one at which
the callback stops, whatever the records before it. -/
theorem getfuncs_ignores_later {σ : Type} (cb : Dwarf_Die → σ → Outcome (Int × σ))
    (f : Dwarf_Die) (hstop : ∀ s rc s1, cb f s = .ret (rc, s1) → rc ≠ DWARF_CB_OK)
    (after after2 : List Dwarf_Die) :
    ∀ (before : List Dwarf_Die) (s : σ),
      dwarf_getfuncs cb (before ++ f :: after) s = dwarf_getfuncs cb (before ++ f :: after2) s := by
  intro before
  induction before with
  | nil =>
    intro s
    simp only [List.nil_append, dwarf_getfuncs]
    cases hc : cb f s with
    | ret r =>
      obtain ⟨rc, s1⟩ := r
      simp [hstop s rc s1 hc]
    | fault e => rfl
    | timeout => rfl
  | cons g rest ih =>
    intro s
    simp only [List.cons_append, dwarf_getfuncs]
    cases hc : cb g s with
    | ret r =>
      obtain ⟨rc, s1⟩ := r
      simp only
      split
      · exact ih s1
      · rfl
    | fault e => rfl
    | timeout => rfl

/-- First match wins: when every record before `f` has a name other than the
requested one and `f` has the requested name, both lookups return what their
callback builds from `f` alone, whatever records follow `f`, also records of
the same name and also when `f` yields null. -/
theorem first_match_wins (fuel : Nat) (dinfo : debug_info) (name : String) (addr : Nat)
    (reg : Registry) (dw : Dwarf) (cu : CompileUnit) (f : Dwarf_Die)
    (before after : List Dwarf_Die)
    (hres : Resolves dinfo addr dw cu)
    (hfuncs : cu.funcs = before ++ f :: after)
    (hname : f.name = some name)
    (hbefore : ∀ g ∈ before, ∃ n, g.name = some n ∧ n ≠ name) :
    get_dwarf_argspec fuel dinfo name addr reg =
        (get_argspec_cb dw fuel f (arg_data.init name, reg)).bind
          (fun r => .ret (r.2.1.argspec, r.2.2)) ∧
      get_dwarf_retspec fuel dinfo name addr reg =
        (get_retspec_cb dw fuel f (arg_data.init name, reg)).bind
          (fun r => .ret (r.2.1.argspec, r.2.2)) ∧
      (f.children = [] → get_dwarf_argspec fuel dinfo name addr reg = .ret (none, reg)) ∧
      (dwarf_hasattr f DW_AT_type = false →
        get_dwarf_retspec fuel dinfo name addr reg = .ret (none, reg)) := by
  have hfirst : FirstMatch cu.funcs name f := ⟨hname, before, after, hfuncs, hbefore⟩
  have h1 := get_dwarf_argspec_first_match fuel dinfo name addr reg dw cu f hres hfirst
  have h2 := get_dwarf_retspec_first_match fuel dinfo name addr reg dw cu f hres hfirst
  refine ⟨h1, h2, ?_, ?_⟩
  · intro hc
    rw [h1, get_argspec_cb_match dw fuel f (arg_data.init name, reg) hname, hc]
    rfl
  · intro ht
    rw [h2, get_retspec_cb_match dw fuel f (arg_data.init name, reg) hname, ht]
    rfl

/-- In the sample program with the records `foobar(float)`, `foo(int)` returning
`char` and a second `foo(char)` returning `float`, the lookup of `foo` is built
from the first `foo`: `foobar` is passed over although `foo` is a prefix of its
name, and the second `foo` is not consulted. -/
theorem first_match_wins_sample :
    get_dwarf_argspec 1
        (sample_dinfo [func_of "foobar" [param_of 1] [], func_of "foo" [param_of 0] [type_ref 3],
          func_of "foo" [param_of 3] [type_ref 1]]) "foo" 0x1000 [] =
        .ret (some "@arg1", []) ∧
      get_dwarf_retspec 1
        (sample_dinfo [func_of "foobar" [param_of 1] [], func_of "foo" [param_of 0] [type_ref 3],
          func_of "foo" [param_of 3] [type_ref 1]]) "foo" 0x1000 [] =
        .ret (some "@retval/c", []) :=
  have h := first_match_wins 1
    (sample_dinfo [func_of "foobar" [param_of 1] [], func_of "foo" [param_of 0] [type_ref 3],
      func_of "foo" [param_of 3] [type_ref 1]]) "foo" 0x1000 []
    (sample_dw [func_of "foobar" [param_of 1] [], func_of "foo" [param_of 0] [type_ref 3],
      func_of "foo" [param_of 3] [type_ref 1]])
    { ranges := [(0x1000, 0x2000)],
      funcs := [func_of "foobar" [param_of 1] [], func_of "foo" [param_of 0] [type_ref 3],
        func_of "foo" [param_of 3] [type_ref 1]] }
    (func_of "foo" [param_of 0] [type_ref 3])
    [func_of "foobar" [param_of 1] []] [func_of "foo" [param_of 3] [type_ref 1]]
    ⟨rfl, rfl⟩ rfl rfl
    (fun g hg => by
      rw [List.mem_singleton] at hg
      exact ⟨"foobar", by rw [hg]; rfl, by decide⟩)
  ⟨h.1.trans rfl, h.2.1.trans rfl⟩

/-! ## The leading run of formal parameters -/

/-- The loop of `get_argspec_cb` over a run of formal parameters followed by a
child that is not one (or by nothing) is the loop over the run alone: what
comes after the run is not looked at. -/
theorem argspec_loop_run (dw : Dwarf) (fuel : Nat) (tail : List Dwarf_Die)
    (htail : ∀ q ∈ tail.head?, q.tag ≠ DW_TAG_formal_parameter) :
    ∀ (params : List Dwarf_Die), (∀ p ∈ params, p.tag = DW_TAG_formal_parameter) →
      ∀ (ad : arg_data) (reg : Registry),
        argspec_loop dw fuel (params ++ tail) ad reg = argspec_loop dw fuel params ad reg := by
  intro params
  induction params with
  | nil =>
    intro _ ad reg
    rw [List.nil_append, argspec_loop_stop dw fuel tail ad reg htail]
    rfl
  | cons p rest ih =>
    intro hp ad reg
    have hp1 := hp p (List.mem_cons_self _ _)
    rw [List.cons_append, argspec_loop_param dw fuel p (rest ++ tail) ad reg hp1,
      argspec_loop_param dw fuel p rest ad reg hp1]
    congr 1
    funext r
    exact ih (fun q hq => hp q (List.mem_cons_of_mem _ hq)) _ _

/-- When the loop of `get_argspec_cb` over a run of formal parameters returns,
it has appended one token per parameter of the run. -/
theorem argspec_loop_count (dw : Dwarf) (fuel : Nat) :
    ∀ (params : List Dwarf_Die), (∀ p ∈ params, p.tag = DW_TAG_formal_parameter) →
      ∀ (ad : arg_data) (reg : Registry) (ad1 : arg_data) (reg1 : Registry),
        argspec_loop dw fuel params ad reg = .ret (ad1, reg1) →
        ∃ toks : List String, toks.length = params.length ∧
          ad1.argspec = join_tokens ad.argspec toks := by
  intro params
  induction params with
  | nil =>
    intro _ ad reg ad1 reg1 h
    simp only [argspec_loop, Outcome.ret.injEq, Prod.mk.injEq] at h
    exact ⟨[], rfl, by rw [← h.1]; rfl⟩
  | cons p rest ih =>
    intro hp ad reg ad1 reg1 h
    have hp1 := hp p (List.mem_cons_self _ _)
    rw [argspec_loop_param dw fuel p rest ad reg hp1] at h
    cases hadd : add_type_info dw fuel (snprintf 256 ("arg" ++ fmt_d (ad.idx + 1))) 256 p
        { ad with idx := ad.idx + 1 } reg with
    | ret r =>
      rw [hadd] at h
      simp only [bind_ret] at h
      obtain ⟨toks, hl, ht⟩ := ih (fun q hq => hp q (List.mem_cons_of_mem _ hq)) _ _ _ _ h
      refine ⟨r.1 :: toks, by simp [hl], ?_⟩
      rw [ht]
      rfl
    | fault e => rw [hadd] at h; cases h
    | timeout => rw [hadd] at h; cases h

theorem classified_with_tag (dw : Dwarf) (fuel : Nat) :
    ∀ (params : List Dwarf_Die) (tds : List type_data),
      List.Forall₂ (fun p td => classify dw fuel p = .ret td) params tds →
      (∀ p ∈ params, p.tag = DW_TAG_formal_parameter) →
      List.Forall₂
        (fun p td => p.tag = DW_TAG_formal_parameter ∧ classify dw fuel p = .ret td)
        params tds := by
  intro params tds h
  induction h with
  | nil => intro _; exact List.Forall₂.nil
  | @cons p td ps ts hhead _ ih =>
    intro hparams
    exact List.Forall₂.cons ⟨hparams p (List.mem_cons_self _ _), hhead⟩
      (ih (fun q hq => hparams q (List.mem_cons_of_mem _ hq)))

theorem claimed_tokens_from_length (all : List type_data) :
    ∀ (tds : List type_data) (i : Nat), (claimed_tokens_from all i tds).length = tds.length := by
  intro tds
  induction tds with
  | nil => intro i; rfl
  | cons t rest ih => intro i; simp only [claimed_tokens_from, List.length_cons, ih]

theorem cyclic_param_loop_timeout :
    ∀ (fuel : Nat) (td : type_data) (reg : Registry),
      arg_type_loop cyclic_param_dw fuel (type_ref 0) td reg = .timeout := by
  intro fuel
  induction fuel with
  | zero => intro td reg; rfl
  | succ fuel ih =>
    intro td reg
    rw [arg_type_loop_wrapper cyclic_param_dw fuel (type_ref 0) (type_ref 0) td reg
      { tag := DW_TAG_pointer_type, attrs := [type_ref 0], children := [] }
      rfl rfl (by decide) (by decide) rfl (fun _ => ⟨_, rfl⟩)]
    exact ih _ reg

/-! ## The null-name branch -/

theorem bind_ne_fault {α β : Type} (e : Fault) (x : Outcome α) (f : α → Outcome β)
    (hx : x ≠ .fault e) (hf : ∀ a, f a ≠ .fault e) : x.bind f ≠ .fault e := by
  cases x with
  | ret a => exact hf a
  | fault e1 =>
    intro h
    apply hx
    cases h
    rfl
  | timeout => intro h; cases h

theorem fill_enum_loop_ne_strcmp :
    ∀ (l : List Dwarf_Die) (str : Option String), fill_enum_loop l str ≠ .fault .strcmp_null := by
  intro l
  induction l with
  | nil => intro str h; cases h
  | cons e rest ih =>
    intro str
    unfold fill_enum_loop
    split
    · split
      · intro h; cases h
      · split
        · intro h; cases h
        · exact ih _
    · intro h; cases h

theorem enum_type_case_ne_strcmp (die : Dwarf_Die) (td : type_data) (reg : Registry) :
    enum_type_case die td reg ≠ .fault .strcmp_null := by
  unfold enum_type_case
  apply bind_ne_fault
  · unfold fill_enum_str
    split
    · intro h; cases h
    · exact fill_enum_loop_ne_strcmp _ _
  · intro a
    split
    · intro h; cases h
    · intro h; cases h

theorem strcat_ne_strcmp (cap : Nat) (dst src : String) :
    strcat cap dst src ≠ .fault .strcmp_null := by
  unfold strcat
  split
  · intro h; cases h
  · intro h; cases h

theorem type_info_switch_ne_strcmp (spec : String) (len : Nat) (ad : arg_data)
    (data : type_data) : type_info_switch spec len ad data ≠ .fault .strcmp_null := by
  unfold type_info_switch
  split
  · exact bind_ne_fault _ _ _ (strcat_ne_strcmp _ _ _) (fun s h => by cases h)
  · exact bind_ne_fault _ _ _ (strcat_ne_strcmp _ _ _) (fun s h => by cases h)
  · intro h; cases h
  · apply bind_ne_fault _ _ _ (strcat_ne_strcmp _ _ _)
    intro s
    split
    · intro h; cases h
    · exact bind_ne_fault _ _ _ (strcat_ne_strcmp _ _ _) (fun s h => by cases h)
  · intro h; cases h

/-- When every base-type record has a name, the loop of `arg_type_cb` never
hands a null name to `strcmp`, whatever wrapper record `die` held. -/
theorem arg_type_loop_from_ne_strcmp (dw : Dwarf) (hbase : BaseTypesNamed dw) :
    ∀ (fuel : Nat) (cur : Option Dwarf_Die) (attr : Dwarf_Attribute) (td : type_data)
      (reg : Registry), (∀ w, cur = some w → w.tag ≠ DW_TAG_base_type) →
      arg_type_loop_from dw fuel cur attr td reg ≠ .fault .strcmp_null := by
  intro fuel
  induction fuel with
  | zero => intro cur attr td reg _ h; cases h
  | succ fuel ih =>
    intro cur attr td reg hcur
    unfold arg_type_loop_from
    by_cases hform : is_ref_form attr.form = true
    · simp only [if_pos hform]
      cases hres : formref_into dw attr cur with
      | none => intro h; cases h
      | some die =>
        simp only
        by_cases hb : die.tag = DW_TAG_base_type
        · simp only [if_pos hb]
          cases hn : die.name with
          | none =>
            exfalso
            cases hlook : dwarf_formref_die dw attr with
            | none =>
              rw [formref_into_none dw attr cur hlook] at hres
              exact hcur die hres hb
            | some d =>
              rw [formref_into_some dw attr cur d hlook] at hres
              injection hres with hres
              subst hres
              exact hbase attr.ref d hlook hb hn
          | some tname => intro h; cases h
        · simp only [if_neg hb]
          by_cases he : die.tag = DW_TAG_enumeration_type
          · simp only [if_pos he]
            exact enum_type_case_ne_strcmp die td reg
          · simp only [if_neg he]
            cases hd : dwarf_attr die DW_AT_type with
            | none => intro h; cases h
            | some type =>
              exact ih _ _ _ reg (fun w hw => by cases hw; exact hb)
    · simp only [if_neg hform]
      intro h; cases h

/-- When every base-type record has a name, the loop of `arg_type_cb` never
hands a null name to `strcmp`. -/
theorem arg_type_loop_ne_strcmp (dw : Dwarf) (hbase : BaseTypesNamed dw) :
    ∀ (fuel : Nat) (attr : Dwarf_Attribute) (td : type_data) (reg : Registry),
      arg_type_loop dw fuel attr td reg ≠ .fault .strcmp_null :=
  fun fuel attr td reg =>
    arg_type_loop_from_ne_strcmp dw hbase fuel none attr td reg (fun w hw => by cases hw)

theorem add_type_info_ne_strcmp (dw : Dwarf) (hbase : BaseTypesNamed dw) (fuel : Nat)
    (spec : String) (len : Nat) (die : Dwarf_Die) (ad : arg_data) (reg : Registry) :
    add_type_info dw fuel spec len die ad reg ≠ .fault .strcmp_null := by
  unfold add_type_info
  rw [dwarf_getattrs_arg_type_cb]
  apply bind_ne_fault
  · cases dwarf_attr die DW_AT_type with
    | none => intro h; cases h
    | some a => exact arg_type_loop_ne_strcmp dw hbase fuel a _ reg
  · intro r
    exact bind_ne_fault _ _ _ (type_info_switch_ne_strcmp _ _ _ _) (fun t h => by cases h)

theorem argspec_loop_ne_strcmp (dw : Dwarf) (hbase : BaseTypesNamed dw) (fuel : Nat) :
    ∀ (l : List Dwarf_Die) (ad : arg_data) (reg : Registry),
      argspec_loop dw fuel l ad reg ≠ .fault .strcmp_null := by
  intro l
  induction l with
  | nil => intro ad reg h; cases h
  | cons a rest ih =>
    intro ad reg
    unfold argspec_loop
    split
    · exact bind_ne_fault _ _ _ (add_type_info_ne_strcmp dw hbase fuel _ _ _ _ _)
        (fun r => ih _ _)
    · intro h; cases h

theorem get_argspec_cb_ne_strcmp (dw : Dwarf) (hbase : BaseTypesNamed dw) (fuel : Nat)
    (g : Dwarf_Die) (n : String) (hn : g.name = some n) (s : arg_data × Registry) :
    get_argspec_cb dw fuel g s ≠ .fault .strcmp_null := by
  unfold get_argspec_cb
  simp only [hn]
  split
  · intro h; cases h
  · split
    · intro h; cases h
    · exact bind_ne_fault _ _ _ (argspec_loop_ne_strcmp dw hbase fuel _ _ _)
        (fun r h => by cases h)

theorem get_retspec_cb_ne_strcmp (dw : Dwarf) (hbase : BaseTypesNamed dw) (fuel : Nat)
    (g : Dwarf_Die) (n : String) (hn : g.name = some n) (s : arg_data × Registry) :
    get_retspec_cb dw fuel g s ≠ .fault .strcmp_null := by
  unfold get_retspec_cb
  simp only [hn]
  split
  · intro h; cases h
  · split
    · exact bind_ne_fault _ _ _ (add_type_info_ne_strcmp dw hbase fuel _ _ _ _ _)
        (fun r h => by cases h)
    · intro h; cases h

/-- A scan over records that all have a name, as far as the scan looks, never
hands a null name to `strcmp`. -/
theorem getfuncs_ne_strcmp (cb : Dwarf_Die → arg_data × Registry → Outcome (Int × arg_data × Registry))
    (hskip : ∀ g n s, g.name = some n → n ≠ s.1.name → cb g s = .ret (DWARF_CB_OK, s))
    (hstop : ∀ g s rc s1, g.name = some s.1.name → cb g s = .ret (rc, s1) → rc ≠ DWARF_CB_OK)
    (hne : ∀ g n s, g.name = some n → cb g s ≠ .fault .strcmp_null) :
    ∀ (funcs : List Dwarf_Die) (s : arg_data × Registry), ScannedNamed s.1.name funcs →
      dwarf_getfuncs cb funcs s ≠ .fault .strcmp_null := by
  intro funcs
  induction funcs with
  | nil => intro s _ h; cases h
  | cons g rest ih =>
    intro s hs
    obtain ⟨n, hn, hrest⟩ := hs
    unfold dwarf_getfuncs
    by_cases hne1 : n ≠ s.1.name
    · rw [hskip g n s hn hne1]
      simp only [if_true]
      exact ih s (hrest hne1)
    · simp only [ne_eq, not_not] at hne1
      cases hc : cb g s with
      | ret r =>
        obtain ⟨rc, s1⟩ := r
        simp only
        rw [if_neg (hstop g s rc s1 (by rw [hn, hne1]) hc)]
        intro h; cases h
      | fault e =>
        simp only
        intro h
        apply hne g n s hn
        rw [hc]
        cases h
        rfl
      | timeout => intro h; cases h

/-- When every function record the scan looks at and every base-type record
has a name, neither `get_dwarf_argspec` nor `get_dwarf_retspec` hands a null
name to `strcmp`. -/
theorem named_never_strcmp_null (fuel : Nat) (dinfo : debug_info) (name : String) (addr : Nat)
    (reg : Registry)
    (hfuncs : ∀ dw cu, Resolves dinfo addr dw cu → ScannedNamed name cu.funcs)
    (hbase : ∀ dw, dinfo.dw = some dw → BaseTypesNamed dw) :
    get_dwarf_argspec fuel dinfo name addr reg ≠ .fault .strcmp_null ∧
      get_dwarf_retspec fuel dinfo name addr reg ≠ .fault .strcmp_null := by
  unfold get_dwarf_argspec get_dwarf_retspec
  cases hdw : dinfo.dw with
  | none => exact ⟨(fun h => by cases h), (fun h => by cases h)⟩
  | some dw =>
    simp only
    cases hcu : dwarf_addrdie dw (file_addr dinfo addr) with
    | none => exact ⟨(fun h => by cases h), (fun h => by cases h)⟩
    | some cu =>
      simp only
      have hb := hbase dw hdw
      have hs := hfuncs dw cu ⟨hdw, hcu⟩
      refine ⟨?_, ?_⟩
      · apply bind_ne_fault
        · exact getfuncs_ne_strcmp (get_argspec_cb dw fuel)
            (fun g n s hn hne => get_argspec_cb_skip dw fuel g n s hn hne)
            (fun g s rc s1 hn h => get_argspec_cb_match_rc dw fuel g s hn rc s1 h)
            (fun g n s hn => get_argspec_cb_ne_strcmp dw hb fuel g n hn s)
            cu.funcs (arg_data.init name, reg) hs
        · intro r h; cases h
      · apply bind_ne_fault
        · exact getfuncs_ne_strcmp (get_retspec_cb dw fuel)
            (fun g n s hn hne => get_retspec_cb_skip dw fuel g n s hn hne)
            (fun g s rc s1 hn h => get_retspec_cb_match_rc dw fuel g s hn rc s1 h)
            (fun g n s hn => get_retspec_cb_ne_strcmp dw hb fuel g n hn s)
            cu.funcs (arg_data.init name, reg) hs
        · intro r h; cases h

/-! ## Larger budgets -/

theorem bind_left_ne_timeout {α β : Type} (x : Outcome α) (f : α → Outcome β)
    (h : x.bind f ≠ .timeout) : x ≠ .timeout := by
  intro hx
  apply h
  rw [hx]
  rfl

theorem add_type_info_mono (dw : Dwarf) (fuel k : Nat) (spec : String) (len : Nat)
    (die : Dwarf_Die) (ad : arg_data) (reg : Registry)
    (h : add_type_info dw fuel spec len die ad reg ≠ .timeout) :
    add_type_info dw (fuel + k) spec len die ad reg = add_type_info dw fuel spec len die ad reg := by
  simp only [add_type_info, dwarf_getattrs_arg_type_cb] at h ⊢
  cases hd : dwarf_attr die DW_AT_type with
  | none => rfl
  | some a =>
    simp only [hd] at h ⊢
    rw [arg_type_loop_mono_le dw fuel a _ reg (bind_left_ne_timeout _ _ h) k]

theorem argspec_loop_mono (dw : Dwarf) (fuel k : Nat) :
    ∀ (l : List Dwarf_Die) (ad : arg_data) (reg : Registry),
      argspec_loop dw fuel l ad reg ≠ .timeout →
      argspec_loop dw (fuel + k) l ad reg = argspec_loop dw fuel l ad reg := by
  intro l
  induction l with
  | nil => intro ad reg _; rfl
  | cons a rest ih =>
    intro ad reg h
    unfold argspec_loop at h ⊢
    by_cases ht : a.tag = DW_TAG_formal_parameter
    · simp only [if_pos ht] at h ⊢
      rw [add_type_info_mono dw fuel k _ 256 a _ reg (bind_left_ne_timeout _ _ h)]
      apply bind_congr_ret
      intro r hr
      rw [hr] at h
      exact ih _ _ h
    · simp only [if_neg ht]

theorem get_argspec_cb_mono (dw : Dwarf) (fuel k : Nat) (g : Dwarf_Die)
    (s : arg_data × Registry) (h : get_argspec_cb dw fuel g s ≠ .timeout) :
    get_argspec_cb dw (fuel + k) g s = get_argspec_cb dw fuel g s := by
  unfold get_argspec_cb at h ⊢
  cases hn : g.name with
  | none => rfl
  | some n =>
    simp only [hn] at h ⊢
    by_cases hne : n ≠ s.1.name
    · simp only [if_pos hne]
    · simp only [if_neg hne] at h ⊢
      cases hc : g.children with
      | nil => rfl
      | cons a rest =>
        simp only [hc] at h ⊢
        rw [argspec_loop_mono dw fuel k _ _ _ (bind_left_ne_timeout _ _ h)]

theorem get_retspec_cb_mono (dw : Dwarf) (fuel k : Nat) (g : Dwarf_Die)
    (s : arg_data × Registry) (h : get_retspec_cb dw fuel g s ≠ .timeout) :
    get_retspec_cb dw (fuel + k) g s = get_retspec_cb dw fuel g s := by
  unfold get_retspec_cb at h ⊢
  cases hn : g.name with
  | none => rfl
  | some n =>
    simp only [hn] at h ⊢
    by_cases hne : n ≠ s.1.name
    · simp only [if_pos hne]
    · simp only [if_neg hne] at h ⊢
      by_cases ht : dwarf_hasattr g DW_AT_type = true
      · simp only [if_pos ht] at h ⊢
        rw [add_type_info_mono dw fuel k _ 256 g _ _ (bind_left_ne_timeout _ _ h)]
      · simp only [if_neg ht]

theorem getfuncs_mono {σ : Type} (cb1 cb2 : Dwarf_Die → σ → Outcome (Int × σ))
    (hcb : ∀ g s, cb1 g s ≠ .timeout → cb2 g s = cb1 g s) :
    ∀ (funcs : List Dwarf_Die) (s : σ), dwarf_getfuncs cb1 funcs s ≠ .timeout →
      dwarf_getfuncs cb2 funcs s = dwarf_getfuncs cb1 funcs s := by
  intro funcs
  induction funcs with
  | nil => intro s _; rfl
  | cons g rest ih =>
    intro s h
    unfold dwarf_getfuncs at h ⊢
    have hg : cb1 g s ≠ .timeout := by
      intro hx
      rw [hx] at h
      exact h rfl
    rw [hcb g s hg]
    cases hc : cb1 g s with
    | ret r =>
      obtain ⟨rc, s1⟩ := r
      rw [hc] at h
      simp only at h ⊢
      by_cases hrc : rc = DWARF_CB_OK
      · simp only [if_pos hrc] at h ⊢
        exact ih s1 h
      · simp only [if_neg hrc]
    | fault e => rfl
    | timeout => exact absurd hc hg

/-- Once `get_dwarf_argspec` ends within a budget, by a result or at a fault,
every larger budget gives the same outcome. -/
theorem get_dwarf_argspec_mono (fuel k : Nat) (dinfo : debug_info) (name : String)
    (addr : Nat) (reg : Registry)
    (h : get_dwarf_argspec fuel dinfo name addr reg ≠ .timeout) :
    get_dwarf_argspec (fuel + k) dinfo name addr reg =
      get_dwarf_argspec fuel dinfo name addr reg := by
  unfold get_dwarf_argspec at h ⊢
  cases hdw : dinfo.dw with
  | none => rfl
  | some dw =>
    simp only [hdw] at h ⊢
    cases hcu : dwarf_addrdie dw (file_addr dinfo addr) with
    | none => rfl
    | some cu =>
      simp only [hcu] at h ⊢
      rw [getfuncs_mono (get_argspec_cb dw fuel) (get_argspec_cb dw (fuel + k))
        (fun g s hg => get_argspec_cb_mono dw fuel k g s hg) cu.funcs _
        (bind_left_ne_timeout _ _ h)]

/-- Once `get_dwarf_retspec` ends within a budget, by a result or at a fault,
every larger budget gives the same outcome. -/
theorem get_dwarf_retspec_mono (fuel k : Nat) (dinfo : debug_info) (name : String)
    (addr : Nat) (reg : Registry)
    (h : get_dwarf_retspec fuel dinfo name addr reg ≠ .timeout) :
    get_dwarf_retspec (fuel + k) dinfo name addr reg =
      get_dwarf_retspec fuel dinfo name addr reg := by
  unfold get_dwarf_retspec at h ⊢
  cases hdw : dinfo.dw with
  | none => rfl
  | some dw =>
    simp only [hdw] at h ⊢
    cases hcu : dwarf_addrdie dw (file_addr dinfo addr) with
    | none => rfl
    | some cu =>
      simp only [hcu] at h ⊢
      rw [getfuncs_mono (get_retspec_cb dw fuel) (get_retspec_cb dw (fuel + k))
        (fun g s hg => get_retspec_cb_mono dw fuel k g s hg) cu.funcs _
        (bind_left_ne_timeout _ _ h)]

/-! ## Claims -/

/-- C2: a type chain that ends at a base type named `char` or `signed char`
after `d` pointer or pointer-to-member links, and any number of other
wrappers, is classified by `arg_type_cb` as Char when `d = 0`, String when
`d = 1` and Auto when `d ≥ 2`, and `add_type_info` turns the token `argN`
into `argN/c`, `argN/s` and `argN` respectively. -/
theorem char_chain_classified (dw : Dwarf) (fuel : Nat) (attr : Dwarf_Attribute)
    (ws : List Dwarf_Die) (last param : Dwarf_Die) (ad : arg_data) (N : Int) (reg : Registry)
    (hattr : attr.name = DW_AT_type)
    (hchain : TypeChain dw attr ws last)
    (hbase : last.tag = DW_TAG_base_type)
    (hname : last.name = some "char" ∨ last.name = some "signed char")
    (hfuel : ws.length < fuel)
    (hparam : dwarf_attr param DW_AT_type = some attr)
    (hN0 : 0 ≤ N) (hN1 : N < 2 ^ 31) :
    arg_type_cb dw fuel attr (type_data.init, reg) =
        .ret (DWARF_CB_ABORT,
          { type_data.init with
            pointer := pointer_links ws
            fmt := if pointer_links ws = 0 then ARG_FMT_CHAR
                   else if pointer_links ws = 1 then ARG_FMT_STR else ARG_FMT_AUTO },
          reg) ∧
      add_type_info dw fuel (snprintf 256 ("arg" ++ fmt_d N)) 256 param ad reg =
        .ret ("arg" ++ fmt_d N ++
            (if pointer_links ws = 0 then "/c" else if pointer_links ws = 1 then "/s" else ""),
          ad, reg) := by
  have hloop : arg_type_loop dw fuel attr type_data.init reg =
      .ret ({ type_data.init with
              pointer := pointer_links ws
              fmt := if pointer_links ws = 0 then ARG_FMT_CHAR
                     else if pointer_links ws = 1 then ARG_FMT_STR else ARG_FMT_AUTO },
            reg) := by
    have hcase : ∀ tname : String, tname = "char" ∨ tname = "signed char" →
        base_type_case tname (add_pointer type_data.init (pointer_links ws)) =
          { type_data.init with
            pointer := pointer_links ws
            fmt := if pointer_links ws = 0 then ARG_FMT_CHAR
                   else if pointer_links ws = 1 then ARG_FMT_STR else ARG_FMT_AUTO } := by
      intro tname ht
      by_cases h0 : pointer_links ws = 0
      · simp [base_type_case, add_pointer, type_data.init, ht, h0]
      · by_cases h1 : pointer_links ws = 1
        · simp [base_type_case, add_pointer, type_data.init, ht, h1]
        · simp [base_type_case, add_pointer, type_data.init, ht, h0, h1]
    rcases hname with hn | hn
    · rw [arg_type_loop_chain_base dw attr ws last "char" _ reg fuel hchain hbase hn hfuel,
        hcase "char" (Or.inl rfl)]
    · rw [arg_type_loop_chain_base dw attr ws last "signed char" _ reg fuel hchain hbase hn
        hfuel, hcase "signed char" (Or.inr rfl)]
  refine ⟨?_, ?_⟩
  · rw [arg_type_cb_of_type dw fuel attr _ reg hattr, hloop]; rfl
  · obtain ⟨hbuf, hlen⟩ := arg_token_fits N hN0 hN1
    rw [add_type_info_of_attr dw fuel _ 256 param ad reg attr hparam, hloop, hbuf]
    by_cases h0 : pointer_links ws = 0
    · have hc : strcat 256 ("arg" ++ fmt_d N) "/c" = .ret ("arg" ++ fmt_d N ++ "/c") :=
        strcat_fits _ _ _ (by
          have : "/c".length = 2 := by decide
          omega)
      simp [type_info_switch, h0, hc]
    · by_cases h1 : pointer_links ws = 1
      · have hc : strcat 256 ("arg" ++ fmt_d N) "/s" = .ret ("arg" ++ fmt_d N ++ "/s") :=
          strcat_fits _ _ _ (by
            have : "/s".length = 2 := by decide
            omega)
        simp [type_info_switch, h1, hc]
      · simp [type_info_switch, h0, h1]

/-- Witness of C2: a parameter of type `const char *` (pointer, const, char)
is classified String and its token is `arg1/s`. -/
theorem char_chain_classified_witness :
    arg_type_cb (sample_dw []) 3 (type_ref 7) (type_data.init, []) =
        .ret (DWARF_CB_ABORT,
          { type_data.init with pointer := 1, fmt := ARG_FMT_STR }, []) ∧
      add_type_info (sample_dw []) 3 (snprintf 256 ("arg" ++ fmt_d 1)) 256 (param_of 7)
          (arg_data.init "f") [] =
        .ret ("arg1/s", arg_data.init "f", []) :=
  char_chain_classified (sample_dw []) 3 (type_ref 7)
    [{ tag := DW_TAG_pointer_type, attrs := [type_ref 6], children := [] },
     { tag := 0x26, attrs := [type_ref 3], children := [] }]
    { tag := DW_TAG_base_type, name := some "char", children := [] }
    (param_of 7) (arg_data.init "f") 1 []
    rfl
    ⟨rfl, rfl, by decide, by decide, type_ref 6, rfl, rfl, rfl, by decide, by decide,
      type_ref 3, rfl, rfl, rfl⟩
    rfl (Or.inl rfl) (by decide) rfl (by decide) (by decide)

/-- C3: a function whose only parameter has the base type `float` gets the
argument spec `@fparg1/32`, one whose only parameter has the base type
`double` gets `@fparg1/64`, and on every input a token that `add_type_info`
emits is either the given token with a suffix, the counters unchanged, or an
`fparg` token whose size is exactly 32 or 64. -/
theorem float_param_spec (fuel : Nat) (dinfo : debug_info) (name : String) (addr : Nat)
    (reg : Registry) (dw : Dwarf) (cu : CompileUnit) (f p last : Dwarf_Die)
    (rest : List Dwarf_Die) (attr : Dwarf_Attribute)
    (hres : Resolves dinfo addr dw cu) (hfirst : FirstMatch cu.funcs name f)
    (hchildren : f.children = p :: rest)
    (hp : p.tag = DW_TAG_formal_parameter)
    (hrest : ∀ q ∈ rest.head?, q.tag ≠ DW_TAG_formal_parameter)
    (hparam : dwarf_attr p DW_AT_type = some attr)
    (hchain : TypeChain dw attr [] last)
    (hbase : last.tag = DW_TAG_base_type)
    (hfuel : 0 < fuel) :
    (last.name = some "float" →
        get_dwarf_argspec fuel dinfo name addr reg = .ret (some "@fparg1/32", reg)) ∧
      (last.name = some "double" →
        get_dwarf_argspec fuel dinfo name addr reg = .ret (some "@fparg1/64", reg)) ∧
      (∀ (dw1 : Dwarf) (fuel1 : Nat) (spec : String) (len : Nat) (die : Dwarf_Die)
          (ad ad1 : arg_data) (reg0 reg1 : Registry) (s : String),
        add_type_info dw1 fuel1 spec len die ad reg0 = .ret (s, ad1, reg1) →
          (ad1 = ad ∧ ∃ suffix, s = spec ++ suffix) ∨
          (ad1 = { ad with fpidx := ad.fpidx + 1, idx := ad.idx - 1 } ∧
            (s = snprintf len ("fparg" ++ fmt_d (ad.fpidx + 1) ++ "/32") ∨
             s = snprintf len ("fparg" ++ fmt_d (ad.fpidx + 1) ++ "/64")))) := by
  refine ⟨?_, ?_, ?_⟩
  · intro hn
    rw [get_dwarf_argspec_base_param fuel dinfo name addr reg dw cu f p last rest attr "float"
      hres hfirst hchildren hp hrest hparam hchain hbase hn hfuel]
    rfl
  · intro hn
    rw [get_dwarf_argspec_base_param fuel dinfo name addr reg dw cu f p last rest attr "double"
      hres hfirst hchildren hp hrest hparam hchain hbase hn hfuel]
    rfl
  · intro dw1 fuel1 spec len die ad ad1 reg0 reg1 s h
    exact add_type_info_shape dw1 fuel1 spec len die ad ad1 reg0 reg1 s h

/-- Witness of C3: the function `f(float)` of the sample program. -/
theorem float_param_spec_witness :
    get_dwarf_argspec 1 (sample_dinfo [func_of "f" [param_of 1] []]) "f" 0x1000 [] =
      .ret (some "@fparg1/32", []) :=
  (float_param_spec 1 (sample_dinfo [func_of "f" [param_of 1] []]) "f" 0x1000 []
    (sample_dw [func_of "f" [param_of 1] []])
    { ranges := [(0x1000, 0x2000)], funcs := [func_of "f" [param_of 1] []] }
    (func_of "f" [param_of 1] []) (param_of 1)
    { tag := DW_TAG_base_type, name := some "float", children := [] }
    [] (type_ref 1)
    ⟨rfl, rfl⟩ ⟨rfl, [], [], rfl, fun g hg => absurd hg (List.not_mem_nil g)⟩
    rfl rfl (fun q hq => by simp at hq) rfl ⟨rfl, rfl⟩ rfl (by decide)).1 rfl

/-- C5: `make_enum_name` returns the compile unit's name, or `unnamed` when it
has none, followed by an underscore and the record's offset in lowercase
hexadecimal, with each of the characters `+ - . ( )` and space replaced by an
underscore and every other character unchanged. The offset text is the
numeral `claimed_hex` of the offset: its digits are among `0-9a-f`, its value
is the offset, it has no leading zero, and the offsets 0, 255 and 0x1a2b give
`0`, `ff` and `1a2b`. The result contains none of the six characters and is as
long as the text before the replacement. -/
theorem make_enum_name_sanitised (die : Dwarf_Die) :
    make_enum_name die =
        ⟨(cu_name_of die ++ "_" ++ ⟨claimed_hex die.cuoffset⟩).data.map
          fun c => if c ∈ ['+', '-', '.', '(', ')', ' '] then '_' else c⟩ ∧
      (∀ n, die.diecu = some (some n) → cu_name_of die = n) ∧
      ((∀ n, die.diecu ≠ some (some n)) → cu_name_of die = "unnamed") ∧
      (∀ c ∈ claimed_hex die.cuoffset, c ∈ "0123456789abcdef".data) ∧
      hex_value (claimed_hex die.cuoffset) = die.cuoffset ∧
      (0 < die.cuoffset → (claimed_hex die.cuoffset).head? ≠ some '0') ∧
      (claimed_hex 0 = ['0'] ∧ claimed_hex 255 = ['f', 'f'] ∧
        claimed_hex 0x1a2b = ['1', 'a', '2', 'b']) ∧
      (∀ c ∈ (make_enum_name die).data, c ∉ ['+', '-', '.', '(', ')', ' ']) ∧
      (make_enum_name die).length =
        (cu_name_of die ++ "_" ++ (⟨claimed_hex die.cuoffset⟩ : String)).length := by
  have hmap : make_enum_name die =
      ⟨(cu_name_of die ++ "_" ++ ⟨claimed_hex die.cuoffset⟩).data.map
        fun c => if c ∈ ['+', '-', '.', '(', ')', ' '] then '_' else c⟩ := by
    unfold make_enum_name enum_name_raw
    rw [replace_forbidden_eq_map, fmt_lx_claimed]
    rfl
  have hex : ∀ (v : Nat) (t : String), fmt_lx v = t → claimed_hex v = t.data := by
    intro v t h
    rw [fmt_lx_claimed] at h
    rw [← h]
  refine ⟨hmap, ?_, ?_, claimed_hex_digits die.cuoffset, hex_value_claimed die.cuoffset,
    claimed_hex_head die.cuoffset,
    ⟨hex 0 "0" (by decide), hex 255 "ff" (by decide), hex 0x1a2b "1a2b" (by decide)⟩, ?_, ?_⟩
  · intro n h
    simp [cu_name_of, h]
  · intro h
    unfold cu_name_of
    split
    · rename_i n hn
      exact absurd hn (h n)
    · rfl
  · intro c hc
    rw [hmap] at hc
    obtain ⟨x, _, hx⟩ := List.mem_map.mp hc
    by_cases h : x ∈ ['+', '-', '.', '(', ')', ' ']
    · rw [if_pos h] at hx
      rw [← hx]; decide
    · rw [if_neg h] at hx
      rw [← hx]; exact h
  · rw [hmap]
    show (List.map _ _).length = _
    rw [List.length_map]
    rfl

/-- C5 on a record at offset 0x1a2b of the compile unit `a-b.c`: the name built
is `a_b_c_1a2b`, and `unnamed_ff` at offset 255 of a compile unit without a
name. -/
theorem make_enum_name_sample :
    make_enum_name { tag := DW_TAG_enumeration_type, children := [], cuoffset := 0x1a2b,
                     diecu := some (some "a-b.c") } = "a_b_c_1a2b" ∧
      make_enum_name { tag := DW_TAG_enumeration_type, children := [], cuoffset := 255,
                       diecu := some none } = "unnamed_ff" := by
  refine ⟨?_, ?_⟩ <;> decide

set_option maxRecDepth 100000

/-- C4 (counterexample): for `enum E` with one enumerator whose name is 300
bytes long, the entry is cut to the 255 bytes the buffer of `fill_enum_str`
holds, so the string registered is not the declaration the claim states. -/
theorem enum_entry_truncated :
    (arg_type_cb long_enumerator_dw 1 (type_ref 0) (type_data.init, [])).map
        (fun r => r.2.2) =
      .ret ["enum E \x7b " ++ ⟨List.replicate 255 'a'⟩ ++ " \x7d"] ∧
    "enum E \x7b " ++ ⟨List.replicate 255 'a'⟩ ++ " \x7d" ≠
      enum_declaration "E" [(long_name, 0)] := by
  constructor
  · rfl
  · decide

/-- C4 (amended): for a type chain that ends at an enumeration record whose
leading children are the enumerators `es`, at least one, each entry
`NAME=VALUE` at most 255 bytes long, classification registers exactly the
declaration `enum NAME { e1=v1,...,ek=vk }`, entries in declaration order and
values in signed decimal, `NAME` being the record's own name when it has one;
and when `argN/e:NAME` is at most 255 bytes long the emitted token is
`argN/e:NAME`. -/
theorem enum_chain_registered (dw : Dwarf) (fuel : Nat) (attr : Dwarf_Attribute)
    (ws : List Dwarf_Die) (last param : Dwarf_Die) (ad : arg_data) (N : Int) (reg : Registry)
    (es : List (String × Int))
    (hattr : attr.name = DW_AT_type)
    (hchain : TypeChain dw attr ws last)
    (henum : last.tag = DW_TAG_enumeration_type)
    (hes : es ≠ [])
    (hlead : LeadingEnumerators last.children es)
    (hfit : ∀ e ∈ es, (e.1 ++ "=" ++ fmt_d e.2).length ≤ 255)
    (hfuel : ws.length < fuel)
    (hparam : dwarf_attr param DW_AT_type = some attr)
    (hN0 : 0 ≤ N) (hN1 : N < 2 ^ 31) :
    arg_type_cb dw fuel attr (type_data.init, reg) =
        .ret (DWARF_CB_ABORT,
          { type_data.init with
            fmt := ARG_FMT_ENUM
            pointer := pointer_links ws
            enum_name := some (enum_name_of last)
            enum_str := some (enum_members es) },
          parse_enum_string (enum_declaration (enum_name_of last) es) reg) ∧
      (("arg" ++ fmt_d N ++ "/e:" ++ enum_name_of last).length ≤ 255 →
        add_type_info dw fuel (snprintf 256 ("arg" ++ fmt_d N)) 256 param ad reg =
          .ret ("arg" ++ fmt_d N ++ "/e:" ++ enum_name_of last, ad,
            parse_enum_string (enum_declaration (enum_name_of last) es) reg)) ∧
      (∀ n, last.name = some n → enum_name_of last = n) ∧
      enum_declaration (enum_name_of last) es =
        "enum " ++ enum_name_of last ++ " \x7b " ++
          ",".intercalate (es.map fun e => e.1 ++ "=" ++ toString e.2) ++ " \x7d" := by
  have hloop : arg_type_loop dw fuel attr type_data.init reg =
      .ret ({ type_data.init with
              fmt := ARG_FMT_ENUM
              pointer := pointer_links ws
              enum_name := some (enum_name_of last)
              enum_str := some (enum_members es) },
            parse_enum_string (enum_declaration (enum_name_of last) es) reg) := by
    rw [arg_type_loop_chain_enum dw attr ws last _ reg fuel hchain henum hfuel]
    unfold enum_type_case
    rw [fill_enum_str_members last es hes hlead hfit]
    simp [add_pointer, type_data.init, enum_declaration]
  refine ⟨?_, ?_, ?_, rfl⟩
  · rw [arg_type_cb_of_type dw fuel attr _ reg hattr, hloop]; rfl
  · intro htoken
    obtain ⟨hbuf, hlen⟩ := arg_token_fits N hN0 hN1
    rw [add_type_info_of_attr dw fuel _ 256 param ad reg attr hparam, hloop, hbuf]
    have hc1 : strcat 256 ("arg" ++ fmt_d N) "/e:" = .ret ("arg" ++ fmt_d N ++ "/e:") :=
      strcat_fits _ _ _ (by
        have : "/e:".length = 3 := by decide
        omega)
    have hc2 : strcat 256 ("arg" ++ fmt_d N ++ "/e:") (enum_name_of last) =
        .ret ("arg" ++ fmt_d N ++ "/e:" ++ enum_name_of last) :=
      strcat_fits _ _ _ (by
        rw [String.length_append] at htoken
        omega)
    simp [type_info_switch, hc1, hc2]
  · intro n hn
    simp [enum_name_of, hn]

/-- Witness of C4: `enum color { A=0,B=1,C=5 }` of the sample program, as the
type of the first parameter. -/
theorem enum_chain_registered_witness :
    arg_type_cb (sample_dw []) 1 (type_ref 8) (type_data.init, []) =
        .ret (DWARF_CB_ABORT,
          { type_data.init with
            fmt := ARG_FMT_ENUM
            enum_name := some "color"
            enum_str := some "A=0,B=1,C=5" },
          ["enum color \x7b A=0,B=1,C=5 \x7d"]) ∧
      add_type_info (sample_dw []) 1 (snprintf 256 ("arg" ++ fmt_d 1)) 256 (param_of 8)
          (arg_data.init "f") [] =
        .ret ("arg1/e:color", arg_data.init "f", ["enum color \x7b A=0,B=1,C=5 \x7d"]) :=
  have h := enum_chain_registered (sample_dw []) 1 (type_ref 8) []
    { tag := DW_TAG_enumeration_type, name := some "color",
      children := [enumerator_of "A" 0, enumerator_of "B" 1, enumerator_of "C" 5] }
    (param_of 8) (arg_data.init "f") 1 [] [("A", 0), ("B", 1), ("C", 5)]
    rfl ⟨rfl, rfl⟩ rfl (by simp)
    ⟨[enumerator_of "A" 0, enumerator_of "B" 1, enumerator_of "C" 5], [], rfl,
      List.Forall₂.cons ⟨rfl, rfl, _, rfl, rfl⟩
        (List.Forall₂.cons ⟨rfl, rfl, _, rfl, rfl⟩
          (List.Forall₂.cons ⟨rfl, rfl, _, rfl, rfl⟩ List.Forall₂.nil)),
      fun q hq => by simp at hq⟩
    (by decide) (by decide) rfl (by decide) (by decide)
  ⟨h.1, h.2.1 (by decide)⟩

/-- C6 (failing input): for the function `f` of the sample program whose
return type is `float`, `get_dwarf_retspec` returns `fparg1/32`, which does not
start with `@`: the `snprintf` of the Float case of `add_type_info` overwrites
the `@retval` already in the buffer. -/
theorem float_retspec_loses_at :
    get_dwarf_retspec 1 (sample_dinfo [func_of "f" [] [type_ref 1]]) "f" 0x1000 [] =
      .ret (some "fparg1/32", []) ∧
    "fparg1/32".data.head? ≠ some '@' := by
  constructor
  · rfl
  · decide

/-- C8 (failing input): in a compile unit whose only function record has no
name, the lookup of any name ends in `strcmp` on a null pointer, for the
argument spec and for the return spec. -/
theorem nameless_record_faults :
    get_dwarf_argspec 1 nameless_dinfo "f" 0x1000 [] = .fault .strcmp_null ∧
    get_dwarf_retspec 1 nameless_dinfo "f" 0x1000 [] = .fault .strcmp_null := by
  constructor
  · rfl
  · rfl

/-- C9: when the first function record of the requested name has no children
`get_dwarf_argspec` returns null, and when it has no `DW_AT_type` attribute
`get_dwarf_retspec` returns null, whatever its children are; the registry is
left as it was. -/
theorem no_children_no_type_null (fuel : Nat) (dinfo : debug_info) (name : String)
    (addr : Nat) (reg : Registry) (dw : Dwarf) (cu : CompileUnit) (f : Dwarf_Die)
    (hres : Resolves dinfo addr dw cu) (hfirst : FirstMatch cu.funcs name f) :
    (f.children = [] → get_dwarf_argspec fuel dinfo name addr reg = .ret (none, reg)) ∧
    (dwarf_hasattr f DW_AT_type = false →
      get_dwarf_retspec fuel dinfo name addr reg = .ret (none, reg)) := by
  constructor
  · intro hc
    rw [get_dwarf_argspec_eq_loop fuel dinfo name addr reg dw cu f hres hfirst, hc]
    rfl
  · intro ht
    rw [get_dwarf_retspec_first_match fuel dinfo name addr reg dw cu f hres hfirst,
      get_retspec_cb_match dw fuel f (arg_data.init name, reg) hfirst.1, ht]
    rfl

/-- Witness of C9: in the sample program, `g` follows `f`, has no children and
no return type, and both specs of `g` are null. -/
theorem no_children_no_type_null_witness :
    get_dwarf_argspec 1
        (sample_dinfo [func_of "f" [param_of 0] [type_ref 0], func_of "g" [] []])
        "g" 0x1000 [] = .ret (none, []) ∧
      get_dwarf_retspec 1
        (sample_dinfo [func_of "f" [param_of 0] [type_ref 0], func_of "g" [] []])
        "g" 0x1000 [] = .ret (none, []) :=
  have h := no_children_no_type_null 1
    (sample_dinfo [func_of "f" [param_of 0] [type_ref 0], func_of "g" [] []]) "g" 0x1000 []
    (sample_dw [func_of "f" [param_of 0] [type_ref 0], func_of "g" [] []])
    { ranges := [(0x1000, 0x2000)],
      funcs := [func_of "f" [param_of 0] [type_ref 0], func_of "g" [] []] }
    (func_of "g" [] [])
    ⟨rfl, rfl⟩
    ⟨rfl, [func_of "f" [param_of 0] [type_ref 0]], [], rfl, fun g hg => by
      rw [List.mem_singleton] at hg
      exact ⟨"f", by rw [hg]; rfl, by decide⟩⟩
  ⟨h.1 rfl, h.2 rfl⟩

/-- C7 (counterexample): on a pointer type whose wrapped type is itself the
traversal of `arg_type_cb` ends within no budget, and neither do
`get_dwarf_argspec` and `get_dwarf_retspec` for a function that takes and
returns that type. -/
theorem cyclic_chain_never_returns :
    ¬ ∃ fuel : Nat,
      arg_type_cb cyclic_dw fuel (type_ref 0) (type_data.init, []) ≠ .timeout ∨
      get_dwarf_argspec fuel cyclic_dinfo "f" 0x1000 [] ≠ .timeout ∨
      get_dwarf_retspec fuel cyclic_dinfo "f" 0x1000 [] ≠ .timeout := by
  rintro ⟨fuel, h⟩
  have hres : Resolves cyclic_dinfo 0x1000 cyclic_dw
      { ranges := [(0x1000, 0x2000)], funcs := [cyclic_func] } := ⟨rfl, rfl⟩
  have hfirst : FirstMatch [cyclic_func] "f" cyclic_func :=
    ⟨rfl, [], [], rfl, fun g hg => absurd hg (List.not_mem_nil g)⟩
  have h1 : arg_type_cb cyclic_dw fuel (type_ref 0) (type_data.init, []) = .timeout := by
    rw [arg_type_cb_of_type cyclic_dw fuel (type_ref 0) _ [] rfl, cyclic_loop_timeout]
    rfl
  have h2 : get_dwarf_argspec fuel cyclic_dinfo "f" 0x1000 [] = .timeout := by
    rw [get_dwarf_argspec_eq_loop fuel cyclic_dinfo "f" 0x1000 [] cyclic_dw _ cyclic_func
      hres hfirst]
    show (argspec_loop cyclic_dw fuel [param_of 0] (arg_data.init "f") []).bind _ = _
    rw [argspec_loop_param cyclic_dw fuel (param_of 0) [] _ [] rfl,
      add_type_info_of_attr cyclic_dw fuel _ 256 (param_of 0) _ [] (type_ref 0) rfl,
      cyclic_loop_timeout]
    rfl
  have h3 : get_dwarf_retspec fuel cyclic_dinfo "f" 0x1000 [] = .timeout := by
    rw [get_dwarf_retspec_first_match fuel cyclic_dinfo "f" 0x1000 [] cyclic_dw _ cyclic_func
      hres hfirst, get_retspec_cb_match cyclic_dw fuel cyclic_func (arg_data.init "f", []) rfl]
    rw [if_pos (by rfl),
      add_type_info_of_attr cyclic_dw fuel _ 256 cyclic_func _ [] (type_ref 0) rfl,
      cyclic_loop_timeout]
    rfl
  rcases h with h | h | h
  · exact h h1
  · exact h h2
  · exact h h3

/-- C7 (amended): on an acyclic type graph, one where some rank strictly
decreases along the type references of wrapper records, in which the type
references of the wrapper records, of the function records and of their formal
parameters all name records, the traversal of `arg_type_cb` from an attribute
that names a record ends (it returns or stops at a fault) within the largest
rank plus two iterations, its outcome is the same for every larger budget, and
`get_dwarf_argspec` and `get_dwarf_retspec` end as well. -/
theorem acyclic_traversal_terminates (dw : Dwarf) (rank : Nat → Nat) (fuel : Nat)
    (hacyclic : Acyclic dw rank) (hgraph : GraphResolves dw) (hentries : EntriesResolve dw)
    (hfuel : ∀ o, rank o + 2 ≤ fuel) :
    (∀ (attr : Dwarf_Attribute) (td : type_data) (reg : Registry),
        (is_ref_form attr.form = true → ∃ d, dwarf_formref_die dw attr = some d) →
        arg_type_cb dw fuel attr (td, reg) ≠ .timeout ∧
        ∀ k, arg_type_cb dw (fuel + k) attr (td, reg) = arg_type_cb dw fuel attr (td, reg)) ∧
      (∀ (dinfo : debug_info) (name : String) (addr : Nat) (reg : Registry),
        dinfo.dw = some dw →
          get_dwarf_argspec fuel dinfo name addr reg ≠ .timeout ∧
          get_dwarf_retspec fuel dinfo name addr reg ≠ .timeout) := by
  have hloop : ∀ attr : Dwarf_Attribute,
      (is_ref_form attr.form = true → ∃ d, dwarf_formref_die dw attr = some d) →
      ∀ td reg, arg_type_loop dw fuel attr td reg ≠ .timeout := by
    intro attr hstart td reg
    have h2 := hfuel 0
    exact arg_type_loop_terminates dw rank hacyclic hgraph fuel attr td reg hstart
      (fun _ => hfuel attr.ref) (by omega)
  refine ⟨?_, ?_⟩
  · intro attr td reg hstart
    refine ⟨?_, ?_⟩
    · unfold arg_type_cb
      split
      · intro h; cases h
      · exact bind_ne_timeout _ _ (hloop attr hstart _ _) (fun r h => by cases h)
    · intro k
      unfold arg_type_cb
      split
      · rfl
      · rw [arg_type_loop_mono_le dw fuel attr td reg (hloop attr hstart td reg) k]
  · intro dinfo name addr reg hdw
    refine ⟨?_, ?_⟩
    · unfold get_dwarf_argspec
      rw [hdw]
      simp only
      cases hcu : dwarf_addrdie dw (file_addr dinfo addr) with
      | none => intro h; cases h
      | some cu =>
        simp only
        have hmem : cu ∈ dw.cus := List.mem_of_find?_eq_some hcu
        exact bind_ne_timeout _ _
          (getfuncs_ends _ cu.funcs
            (fun g hg s => get_argspec_cb_ends dw fuel g
              (fun p hp hpt a ha => hloop a ((hentries cu hmem g hg).2 p hp hpt a ha)) s) _)
          (fun r h => by cases h)
    · unfold get_dwarf_retspec
      rw [hdw]
      simp only
      cases hcu : dwarf_addrdie dw (file_addr dinfo addr) with
      | none => intro h; cases h
      | some cu =>
        simp only
        have hmem : cu ∈ dw.cus := List.mem_of_find?_eq_some hcu
        exact bind_ne_timeout _ _
          (getfuncs_ends _ cu.funcs
            (fun g hg s => get_retspec_cb_ends dw fuel g
              (fun a ha => hloop a ((hentries cu hmem g hg).1 a ha)) s) _)
          (fun r h => by cases h)

/-- Witness of C7: the type graph of the sample program, ranked by offset, with
a budget of ten iterations, for a parameter and a return value of type
`char **`. -/
theorem acyclic_traversal_terminates_witness :
    arg_type_cb (sample_dw [func_of "f" [param_of 5] [type_ref 5]]) 10 (type_ref 5)
        (type_data.init, []) ≠ .timeout ∧
      get_dwarf_argspec 10 (sample_dinfo [func_of "f" [param_of 5] [type_ref 5]]) "f"
        0x1000 [] ≠ .timeout ∧
      get_dwarf_retspec 10 (sample_dinfo [func_of "f" [param_of 5] [type_ref 5]]) "f"
        0x1000 [] ≠ .timeout :=
  have h := acyclic_traversal_terminates (sample_dw [func_of "f" [param_of 5] [type_ref 5]])
    sample_rank 10 (sample_acyclic _) (sample_graph_resolves _)
    (fun cu hcu f hf => by
      simp only [sample_dw, List.mem_singleton] at hcu
      subst hcu
      simp only [List.mem_singleton] at hf
      subst hf
      refine ⟨?_, ?_⟩
      · intro type ht _
        simp only [func_of, dwarf_attr, List.find?, type_ref, DW_AT_type, beq_self_eq_true,
          Option.some.injEq] at ht
        subst ht
        exact ⟨_, rfl⟩
      · intro p hp _ type ht _
        simp only [func_of, List.mem_singleton] at hp
        subst hp
        simp only [param_of, dwarf_attr, List.find?, type_ref, DW_AT_type, beq_self_eq_true,
          Option.some.injEq] at ht
        subst ht
        exact ⟨_, rfl⟩)
    (fun o => by unfold sample_rank; split <;> omega)
  ⟨(h.1 (type_ref 5) type_data.init [] (fun _ => ⟨_, rfl⟩)).1,
    h.2 (sample_dinfo [func_of "f" [param_of 5] [type_ref 5]]) "f" 0x1000 [] rfl⟩

/-- C10: the string `get_dwarf_argspec` returns does not depend on the contents
of the enum registry, a second call with the same handle, name and address
returns what the first returned, and each call starts its argument and float
counters from zero. -/
theorem argspec_repeatable (fuel : Nat) (dinfo : debug_info) (name : String) (addr : Nat)
    (reg reg' : Registry) :
    (get_dwarf_argspec fuel dinfo name addr reg).map Prod.fst =
        (get_dwarf_argspec fuel dinfo name addr reg').map Prod.fst ∧
      (∀ r reg1, get_dwarf_argspec fuel dinfo name addr reg = .ret (r, reg1) →
        ∃ reg2, get_dwarf_argspec fuel dinfo name addr reg1 = .ret (r, reg2)) ∧
      (arg_data.init name).idx = 0 ∧ (arg_data.init name).fpidx = 0 := by
  have hfst : ∀ l : Registry, (get_dwarf_argspec fuel dinfo name addr l).map Prod.fst =
      (get_dwarf_argspec fuel dinfo name addr []).map Prod.fst := by
    intro l
    rw [get_dwarf_argspec_registry fuel dinfo name addr l, map_map]
    rfl
  refine ⟨by rw [hfst reg, hfst reg'], ?_, rfl, rfl⟩
  intro r reg1 h
  have h1 := hfst reg
  have h2 := hfst reg1
  rw [h] at h1
  cases hcall : get_dwarf_argspec fuel dinfo name addr reg1 with
  | ret a =>
    obtain ⟨r2, reg2⟩ := a
    rw [hcall, ← h1] at h2
    simp only [map_ret, Outcome.ret.injEq] at h2
    exact ⟨reg2, by rw [h2]⟩
  | fault e =>
    rw [hcall, ← h1] at h2
    cases h2
  | timeout =>
    rw [hcall, ← h1] at h2
    cases h2

/-- Witness of C10: two calls for `f(enum color)` of the sample program; the
first registers the enumeration, the second returns the same string. -/
theorem argspec_repeatable_witness :
    ∃ reg2, get_dwarf_argspec 1 (sample_dinfo [func_of "f" [param_of 8] []]) "f" 0x1000
        ["enum color \x7b A=0,B=1,C=5 \x7d"] = .ret (some "@arg1/e:color", reg2) :=
  (argspec_repeatable 1 (sample_dinfo [func_of "f" [param_of 8] []]) "f" 0x1000 [] []).2.1
    (some "@arg1/e:color") ["enum color \x7b A=0,B=1,C=5 \x7d"] rfl

/-- C1 (failing input): for a function whose only parameter has an enumeration
type with a name of 249 bytes, `strcat` in `add_type_info` writes `arg1/e:`
and the name, 256 bytes and the terminator, into the 256-byte buffer of
`get_argspec_cb`; the parameters `(int, float, int)` of the claim do give
`@arg1,fparg1/32,arg2`. -/
theorem long_enum_name_overflows :
    get_dwarf_argspec 1 long_enum_dinfo "f" 0x1000 [] = .fault .overflow ∧
    ("arg1/e:" ++ long_enum_name).length = 256 ∧
    get_dwarf_argspec 1 (sample_dinfo [func_of "f" [param_of 0, param_of 1, param_of 0] []])
      "f" 0x1000 [] = .ret (some "@arg1,fparg1/32,arg2", []) := by
  refine ⟨?_, ?_, ?_⟩
  · rfl
  · decide
  · rfl

/-- C12: `release_debug_info` on a released handle changes nothing and hands
nothing to `dwarf_end`; on a live handle it hands the session to `dwarf_end`
once and leaves the debug-data reference null; releasing twice is releasing
once; the stored offset is never changed. -/
theorem release_idempotent (dinfo : debug_info) (dw : Dwarf) (offset : Nat)
    (ended : List Dwarf) :
    release_debug_info { dw := none, offset := offset } ended =
        ({ dw := none, offset := offset }, ended) ∧
      release_debug_info { dw := some dw, offset := offset } ended =
        ({ dw := none, offset := offset }, ended ++ [dw]) ∧
      (release_debug_info dinfo ended).1.dw = none ∧
      release_debug_info (release_debug_info dinfo ended).1 (release_debug_info dinfo ended).2 =
        release_debug_info dinfo ended ∧
      (release_debug_info dinfo ended).1.offset = dinfo.offset := by
  refine ⟨rfl, rfl, ?_, ?_, ?_⟩
  · unfold release_debug_info
    cases h : dinfo.dw with
    | none => simpa using h
    | some d => rfl
  · unfold release_debug_info
    cases h : dinfo.dw with
    | none => simp [h]
    | some d => rfl
  · unfold release_debug_info
    cases h : dinfo.dw with
    | none => rfl
    | some d => rfl

/-- C13: along a type chain the accumulated pointer depth is the number of
pointer and pointer-to-member records visited so far: the loop arrives at each
record of the chain with the depth it started from plus that number, each
pointer or pointer-to-member record adds exactly 1 and every other record adds
0, and the record the loop returns carries the count over all records visited. -/
theorem pointer_depth_invariant (dw : Dwarf) (attr : Dwarf_Attribute) (ws : List Dwarf_Die)
    (last : Dwarf_Die) (hchain : TypeChain dw attr ws last) :
    pointer_links ws =
        (ws.filter fun w =>
          decide (w.tag = DW_TAG_pointer_type ∨ w.tag = DW_TAG_ptr_to_member_type)).length ∧
      (∀ w : Dwarf_Die, pointer_links (ws ++ [w]) = pointer_links ws +
        (if w.tag = DW_TAG_pointer_type ∨ w.tag = DW_TAG_ptr_to_member_type then 1 else 0)) ∧
      (∃ a : Dwarf_Attribute, is_ref_form a.form = true ∧ dwarf_formref_die dw a = some last ∧
        ∀ (td : type_data) (reg : Registry) (k : Nat),
          arg_type_loop dw (ws.length + k) attr td reg =
            arg_type_loop dw k a { td with pointer := td.pointer + (pointer_links ws : Nat) }
              reg) ∧
      (∀ (td : type_data) (reg : Registry) (fuel : Nat) (r : type_data × Registry),
        StopsAt last ∨ NonRefEnd last →
        arg_type_loop dw fuel attr td reg = .ret r →
        r.1.pointer = td.pointer + (pointer_links (ws ++ [last]) : Nat)) := by
  refine ⟨?_, ?_, ?_, ?_⟩
  · unfold pointer_links
    congr 1
    apply List.filter_congr
    intro w _
    by_cases h1 : w.tag = DW_TAG_pointer_type <;>
      by_cases h2 : w.tag = DW_TAG_ptr_to_member_type <;>
      simp [is_pointer_link, h1, h2]
  · intro w
    rw [pointer_links_snoc]
    by_cases h : w.tag = DW_TAG_pointer_type ∨ w.tag = DW_TAG_ptr_to_member_type
    · have hl : is_pointer_link w = true := by simpa [is_pointer_link] using h
      simp [h, hl]
    · have hl : is_pointer_link w = false := by simpa [is_pointer_link] using h
      simp [h, hl]
  · obtain ⟨a, haf, har, hwalk⟩ := arg_type_loop_chain dw last ws attr hchain
    exact ⟨a, haf, har, fun td reg k => hwalk td reg k⟩
  · intro td reg fuel r hstop hr
    exact arg_type_loop_pointer dw attr ws last td reg fuel r hchain hstop hr

/-- Witness of C13: `struct s *` of the second sample program, a pointer
record then the struct: the depth returned is 1. -/
theorem pointer_depth_invariant_witness :
    (1 : Int) = type_data.init.pointer +
      (pointer_links
        [{ tag := DW_TAG_pointer_type, attrs := [type_ref 4], children := [] },
         ({ tag := 0x13, name := some "s", children := [] } : Dwarf_Die)] : Nat) :=
  (pointer_depth_invariant (more_dw []) (type_ref 5)
    [{ tag := DW_TAG_pointer_type, attrs := [type_ref 4], children := [] }]
    { tag := 0x13, name := some "s", children := [] }
    ⟨rfl, rfl, by decide, by decide, type_ref 4, rfl, rfl, rfl⟩).2.2.2
    type_data.init [] 2 ({ type_data.init with pointer := 1 }, [])
    (Or.inl (Or.inr (Or.inr rfl))) rfl

/-- C14: a type chain that ends at a base type named `float` is classified
Float with size 32 and one that ends at `double` Float with size 64, at every
pointer depth: the depth is counted but not consulted, and `add_type_info`
replaces the token by `fpargK/32` or `fpargK/64`, `K` being the float counter
after its increment. -/
theorem float_chain_classified (dw : Dwarf) (fuel : Nat) (attr : Dwarf_Attribute)
    (ws : List Dwarf_Die) (last param : Dwarf_Die) (ad : arg_data) (spec : String)
    (reg : Registry)
    (hattr : attr.name = DW_AT_type)
    (hchain : TypeChain dw attr ws last)
    (hbase : last.tag = DW_TAG_base_type)
    (hname : last.name = some "float" ∨ last.name = some "double")
    (hfuel : ws.length < fuel)
    (hparam : dwarf_attr param DW_AT_type = some attr)
    (hK0 : 0 ≤ ad.fpidx) (hK1 : ad.fpidx + 1 < 2 ^ 31) :
    arg_type_cb dw fuel attr (type_data.init, reg) =
        .ret (DWARF_CB_ABORT,
          { type_data.init with
            pointer := pointer_links ws
            fmt := ARG_FMT_FLOAT
            size := if last.name = some "float" then 32 else 64 },
          reg) ∧
      add_type_info dw fuel spec 256 param ad reg =
        .ret ("fparg" ++ fmt_d (ad.fpidx + 1) ++ "/" ++
            (if last.name = some "float" then "32" else "64"),
          { ad with fpidx := ad.fpidx + 1, idx := ad.idx - 1 }, reg) := by
  have hloop : arg_type_loop dw fuel attr type_data.init reg =
      .ret ({ type_data.init with
              pointer := pointer_links ws
              fmt := ARG_FMT_FLOAT
              size := if last.name = some "float" then 32 else 64 },
            reg) := by
    rcases hname with hn | hn
    · rw [arg_type_loop_chain_base dw attr ws last "float" _ reg fuel hchain hbase hn hfuel,
        base_type_case_float, hn]
      simp [add_pointer, type_data.init]
    · rw [arg_type_loop_chain_base dw attr ws last "double" _ reg fuel hchain hbase hn hfuel,
        base_type_case_double, hn]
      have hne : ¬ (some "double" = some "float") := by decide
      simp only [if_neg hne]
      simp [add_pointer, type_data.init]
  refine ⟨?_, ?_⟩
  · rw [arg_type_cb_of_type dw fuel attr _ reg hattr, hloop]; rfl
  · rw [add_type_info_of_attr dw fuel spec 256 param ad reg attr hparam, hloop]
    simp only [bind_ret, type_info_switch]
    rcases hname with hn | hn
    · simp only [hn, if_true]
      have h32 : fmt_d 32 = "32" := by decide
      rw [h32, fparg_token_fits (ad.fpidx + 1) "32" (by omega) hK1 (by decide)]
    · have hne : ¬ (some "double" = some "float") := by decide
      simp only [hn, if_neg hne]
      have h64 : fmt_d 64 = "64" := by decide
      rw [h64, fparg_token_fits (ad.fpidx + 1) "64" (by omega) hK1 (by decide)]

/-- Witness of C14: a parameter of type reference to pointer to `double` of the
second sample program is classified Float, size 64, at pointer depth 1, and
its token is `fparg1/64`. -/
theorem float_chain_classified_witness :
    arg_type_cb (more_dw []) 3 (type_ref 9) (type_data.init, []) =
        .ret (DWARF_CB_ABORT,
          { type_data.init with pointer := 1, fmt := ARG_FMT_FLOAT, size := 64 }, []) ∧
      add_type_info (more_dw []) 3 "arg1" 256 (param_of 9) { arg_data.init "f" with idx := 1 }
          [] =
        .ret ("fparg1/64", { arg_data.init "f" with fpidx := 1 }, []) :=
  float_chain_classified (more_dw []) 3 (type_ref 9)
    [{ tag := DW_TAG_reference_type, attrs := [type_ref 1], children := [] },
     { tag := DW_TAG_pointer_type, attrs := [type_ref 0], children := [] }]
    { tag := DW_TAG_base_type, name := some "double", children := [] }
    (param_of 9) { arg_data.init "f" with idx := 1 } "arg1" []
    rfl
    ⟨rfl, rfl, by decide, by decide, type_ref 1, rfl, rfl, rfl, by decide, by decide,
      type_ref 0, rfl, rfl, rfl⟩
    rfl (Or.inr rfl) (by decide) rfl (by decide) (by decide)

/-- C15: a type chain that ends at an enumeration record without children, or
whose first child is not an enumerator, is classified Auto, its token is the
plain `argN`, and nothing is registered; and whatever the type graph, the
registry is changed only by a chain that ends at an enumeration whose first
child is an enumerator, by exactly one declaration. -/
theorem empty_enum_auto (dw : Dwarf) (fuel : Nat) (attr : Dwarf_Attribute)
    (ws : List Dwarf_Die) (last param : Dwarf_Die) (ad : arg_data) (N : Int) (reg : Registry)
    (hattr : attr.name = DW_AT_type)
    (hchain : TypeChain dw attr ws last)
    (henum : last.tag = DW_TAG_enumeration_type)
    (hempty : ∀ c ∈ last.children.head?, c.tag ≠ DW_TAG_enumerator)
    (hfuel : ws.length < fuel)
    (hparam : dwarf_attr param DW_AT_type = some attr)
    (hN0 : 0 ≤ N) (hN1 : N < 2 ^ 31) :
    arg_type_cb dw fuel attr (type_data.init, reg) =
        .ret (DWARF_CB_ABORT,
          { type_data.init with fmt := ARG_FMT_AUTO, pointer := pointer_links ws }, reg) ∧
      add_type_info dw fuel (snprintf 256 ("arg" ++ fmt_d N)) 256 param ad reg =
        .ret ("arg" ++ fmt_d N, ad, reg) ∧
      (∀ (fuel1 : Nat) (attr1 : Dwarf_Attribute) (td : type_data) (reg1 : Registry)
          (r : type_data × Registry),
        arg_type_loop dw fuel1 attr1 td reg1 = .ret r →
        r.2 = reg1 ∨
        ∃ (ws1 : List Dwarf_Die) (last1 : Dwarf_Die) (decl : String),
          TypeChain dw attr1 ws1 last1 ∧ last1.tag = DW_TAG_enumeration_type ∧
          (∃ e rest, last1.children = e :: rest ∧ e.tag = DW_TAG_enumerator) ∧
          r.2 = reg1 ++ [decl]) := by
  have hloop : arg_type_loop dw fuel attr type_data.init reg =
      .ret ({ type_data.init with fmt := ARG_FMT_AUTO, pointer := pointer_links ws }, reg) := by
    rw [arg_type_loop_chain_enum dw attr ws last _ reg fuel hchain henum hfuel]
    unfold enum_type_case
    rw [fill_enum_str_none last hempty]
    simp [add_pointer, type_data.init]
  refine ⟨?_, ?_, ?_⟩
  · rw [arg_type_cb_of_type dw fuel attr _ reg hattr, hloop]; rfl
  · obtain ⟨hbuf, _⟩ := arg_token_fits N hN0 hN1
    rw [add_type_info_of_attr dw fuel _ 256 param ad reg attr hparam, hloop, hbuf]
    rfl
  · intro fuel1 attr1 td reg1 r h
    exact arg_type_loop_registers dw fuel1 attr1 td reg1 r h

/-- Witness of C15: a parameter whose type is a typedef of the enumeration
without children of the second sample program. -/
theorem empty_enum_auto_witness :
    arg_type_cb (more_dw []) 2 (type_ref 3) (type_data.init, []) =
        .ret (DWARF_CB_ABORT, type_data.init, []) ∧
      add_type_info (more_dw []) 2 (snprintf 256 ("arg" ++ fmt_d 1)) 256 (param_of 3)
          (arg_data.init "f") [] =
        .ret ("arg1", arg_data.init "f", []) :=
  have h := empty_enum_auto (more_dw []) 2 (type_ref 3)
    [{ tag := 0x16, name := some "empty_t", attrs := [type_ref 2], children := [] }]
    { tag := DW_TAG_enumeration_type, name := some "empty", children := [] }
    (param_of 3) (arg_data.init "f") 1 []
    rfl ⟨rfl, rfl, by decide, by decide, type_ref 2, rfl, rfl, rfl⟩ rfl
    (fun c hc => by simp at hc) (by decide) rfl (by decide) (by decide)
  ⟨h.1, h.2.1⟩

/-- C16: a type attribute that is not of a reference form, and a type chain
that ends at a named base type other than `char`, `signed char`, `float` and
`double`, at a record that is neither base type nor enumeration and has no type
attribute, or at a wrapper whose type attribute is not of a reference form, is
classified Auto at every pointer depth, and the token stays `argN`. -/
theorem auto_chain_classified (dw : Dwarf) (fuel : Nat) (attr : Dwarf_Attribute)
    (ws : List Dwarf_Die) (last param : Dwarf_Die) (ad : arg_data) (N : Int) (reg : Registry)
    (hattr : attr.name = DW_AT_type)
    (hcase : is_ref_form attr.form = false ∨ (TypeChain dw attr ws last ∧ AutoEnd last))
    (hfuel : ws.length + 1 < fuel)
    (hparam : dwarf_attr param DW_AT_type = some attr)
    (hN0 : 0 ≤ N) (hN1 : N < 2 ^ 31) :
    arg_type_cb dw fuel attr (type_data.init, reg) =
        .ret (DWARF_CB_ABORT,
          { type_data.init with
            fmt := ARG_FMT_AUTO
            pointer := if is_ref_form attr.form then pointer_links (ws ++ [last]) else 0 },
          reg) ∧
      add_type_info dw fuel (snprintf 256 ("arg" ++ fmt_d N)) 256 param ad reg =
        .ret ("arg" ++ fmt_d N, ad, reg) := by
  obtain ⟨hbuf, _⟩ := arg_token_fits N hN0 hN1
  have hloop : arg_type_loop dw fuel attr type_data.init reg =
      .ret ({ type_data.init with
              fmt := ARG_FMT_AUTO
              pointer := if is_ref_form attr.form then pointer_links (ws ++ [last]) else 0 },
            reg) := by
    rcases hcase with hform | ⟨hchain, hauto⟩
    · obtain ⟨k, rfl⟩ : ∃ k, fuel = k + 1 := ⟨fuel - 1, by omega⟩
      rw [arg_type_loop_nonref dw k attr type_data.init reg hform]
      simp [hform, type_data.init]
    · have hform : is_ref_form attr.form = true := by
        cases ws with
        | nil => exact hchain.1
        | cons w rest => exact hchain.1
      rw [arg_type_loop_chain_auto dw attr ws last _ reg fuel hchain hauto hfuel]
      simp [add_pointer, type_data.init, hform]
  refine ⟨?_, ?_⟩
  · rw [arg_type_cb_of_type dw fuel attr _ reg hattr, hloop]; rfl
  · rw [add_type_info_of_attr dw fuel _ 256 param ad reg attr hparam, hloop, hbuf]
    rfl

/-- Witness of C16: a parameter of type `struct s *` of the second sample
program is classified Auto at pointer depth 1 and its token is `arg1`. -/
theorem auto_chain_classified_witness :
    arg_type_cb (more_dw []) 3 (type_ref 5) (type_data.init, []) =
        .ret (DWARF_CB_ABORT, { type_data.init with pointer := 1 }, []) ∧
      add_type_info (more_dw []) 3 (snprintf 256 ("arg" ++ fmt_d 1)) 256 (param_of 5)
          (arg_data.init "f") [] =
        .ret ("arg1", arg_data.init "f", []) :=
  auto_chain_classified (more_dw []) 3 (type_ref 5)
    [{ tag := DW_TAG_pointer_type, attrs := [type_ref 4], children := [] }]
    { tag := 0x13, name := some "s", children := [] }
    (param_of 5) (arg_data.init "f") 1 []
    rfl
    (Or.inr ⟨⟨rfl, rfl, by decide, by decide, type_ref 4, rfl, rfl, rfl⟩,
      Or.inr (Or.inl ⟨by decide, by decide, rfl⟩)⟩)
    (by decide) rfl (by decide) (by decide)

/-- C19: inserting into a type chain a wrapper record that is neither pointer
nor pointer-to-member (nor base type nor enumeration), the records before and
after it keeping their tags, changes nothing in the classification: with one
more iteration the loop of `arg_type_cb` gives the same working record (format
tag, size, pointer depth, enum name) and registry, and `add_type_info` the same
token and counters. -/
theorem wrapper_transparent (dw1 dw2 : Dwarf) (attr1 attr2 : Dwarf_Attribute)
    (before after before2 after2 : List Dwarf_Die) (w last param1 param2 : Dwarf_Die)
    (hchain1 : TypeChain dw1 attr1 (before ++ after) last)
    (hchain2 : TypeChain dw2 attr2 (before2 ++ w :: after2) last)
    (hbefore : before2.map (fun d => d.tag) = before.map (fun d => d.tag))
    (hafter : after2.map (fun d => d.tag) = after.map (fun d => d.tag))
    (hw : w.tag ≠ DW_TAG_pointer_type ∧ w.tag ≠ DW_TAG_ptr_to_member_type)
    (hstop : StopsAt last ∨ NonRefEnd last)
    (hparam1 : dwarf_attr param1 DW_AT_type = some attr1)
    (hparam2 : dwarf_attr param2 DW_AT_type = some attr2) :
    ∀ (k : Nat) (td : type_data) (reg : Registry) (spec : String) (len : Nat) (ad : arg_data),
      arg_type_loop dw2 ((before ++ after).length + 1 + k) attr2 td reg =
          arg_type_loop dw1 ((before ++ after).length + k) attr1 td reg ∧
        add_type_info dw2 ((before ++ after).length + 1 + k) spec len param2 ad reg =
          add_type_info dw1 ((before ++ after).length + k) spec len param1 ad reg := by
  obtain ⟨a1, hf1, hr1, hwalk1⟩ := arg_type_loop_chain dw1 last _ attr1 hchain1
  obtain ⟨a2, hf2, hr2, hwalk2⟩ := arg_type_loop_chain dw2 last _ attr2 hchain2
  have hlen : (before2 ++ w :: after2).length = (before ++ after).length + 1 := by
    have h1 := congrArg List.length hbefore
    have h2 := congrArg List.length hafter
    simp only [List.length_map] at h1 h2
    simp only [List.length_append, List.length_cons, h1, h2]
    omega
  have hlinks : pointer_links (before2 ++ w :: after2) = pointer_links (before ++ after) := by
    have hwl : is_pointer_link w = false := by
      simp [is_pointer_link, hw.1, hw.2]
    rw [pointer_links_append, pointer_links_cons, pointer_links_append,
      pointer_links_of_tags before before2 hbefore, pointer_links_of_tags after after2 hafter,
      hwl]
    simp
  have hloop : ∀ (k : Nat) (td : type_data) (reg : Registry),
      arg_type_loop dw2 ((before ++ after).length + 1 + k) attr2 td reg =
        arg_type_loop dw1 ((before ++ after).length + k) attr1 td reg := by
    intro k td reg
    rw [← hlen, hwalk2, hwalk1, hlinks]
    exact arg_type_loop_at_stop dw1 dw2 a1 a2 last hf1 hr1 hf2 hr2 hstop k _ reg
  intro k td reg spec len ad
  refine ⟨hloop k td reg, ?_⟩
  rw [add_type_info_of_attr dw2 _ spec len param2 ad reg attr2 hparam2,
    add_type_info_of_attr dw1 _ spec len param1 ad reg attr1 hparam1, hloop]

/-- Witness of C19: in the sample program pointer, const, `char` classifies as
pointer, `char` does, as String at pointer depth 1 with the token `arg1/s`. -/
theorem wrapper_transparent_witness :
    (arg_type_loop (sample_dw []) 3 (type_ref 7) type_data.init [] =
        arg_type_loop (sample_dw []) 2 (type_ref 4) type_data.init [] ∧
      add_type_info (sample_dw []) 3 "arg1" 256 (param_of 7) (arg_data.init "f") [] =
        add_type_info (sample_dw []) 2 "arg1" 256 (param_of 4) (arg_data.init "f") []) ∧
    add_type_info (sample_dw []) 2 "arg1" 256 (param_of 4) (arg_data.init "f") [] =
      .ret ("arg1/s", arg_data.init "f", []) :=
  ⟨wrapper_transparent (sample_dw []) (sample_dw []) (type_ref 4) (type_ref 7)
      [{ tag := DW_TAG_pointer_type, attrs := [type_ref 3], children := [] }] []
      [{ tag := DW_TAG_pointer_type, attrs := [type_ref 6], children := [] }] []
      { tag := 0x26, attrs := [type_ref 3], children := [] }
      { tag := DW_TAG_base_type, name := some "char", children := [] }
      (param_of 4) (param_of 7)
      ⟨rfl, rfl, by decide, by decide, type_ref 3, rfl, rfl, rfl⟩
      ⟨rfl, rfl, by decide, by decide, type_ref 6, rfl, rfl, rfl, by decide, by decide,
        type_ref 3, rfl, rfl, rfl⟩
      rfl rfl ⟨by decide, by decide⟩ (Or.inl (Or.inl rfl)) rfl rfl
      1 type_data.init [] "arg1" 256 (arg_data.init "f"),
    rfl⟩

/-- C20: on a type chain of `L` records, wrappers that each carry a
reference-form type attribute followed by the first record that is a base type,
an enumeration or has no type attribute, the loop of `arg_type_cb` stops at
iteration `L` and not before, with the same outcome for every larger budget;
when instead the last record's type attribute is not of a reference form it
stops at iteration `L + 1`. -/
theorem traversal_iterations (dw : Dwarf) (attr : Dwarf_Attribute) (ws : List Dwarf_Die)
    (last : Dwarf_Die) (td : type_data) (reg : Registry)
    (hchain : TypeChain dw attr ws last) :
    (∀ w ∈ ws, w.tag ≠ DW_TAG_base_type ∧ w.tag ≠ DW_TAG_enumeration_type ∧
        ∃ a, dwarf_attr w DW_AT_type = some a ∧ is_ref_form a.form = true) ∧
      arg_type_loop dw ws.length attr td reg = .timeout ∧
      (StopsAt last →
        arg_type_loop dw (ws.length + 1) attr td reg ≠ .timeout ∧
        ∀ k, arg_type_loop dw (ws.length + 1 + k) attr td reg =
          arg_type_loop dw (ws.length + 1) attr td reg) ∧
      (NonRefEnd last →
        arg_type_loop dw (ws.length + 1) attr td reg = .timeout ∧
        arg_type_loop dw (ws.length + 2) attr td reg ≠ .timeout ∧
        ∀ k, arg_type_loop dw (ws.length + 2 + k) attr td reg =
          arg_type_loop dw (ws.length + 2) attr td reg) := by
  obtain ⟨a, haf, har, hwalk⟩ := arg_type_loop_chain dw last ws attr hchain
  refine ⟨typechain_wrappers dw last ws attr hchain, ?_, ?_, ?_⟩
  · have := hwalk td reg 0
    rw [Nat.add_zero] at this
    rw [this]; rfl
  · intro hstop
    have hne : arg_type_loop dw (ws.length + 1) attr td reg ≠ .timeout := by
      rw [hwalk]
      by_cases hb : last.tag = DW_TAG_base_type
      · cases hn : last.name with
        | none => simp [arg_type_loop, arg_type_loop_from, formref_into, haf, har, hb, hn]
        | some tname =>
          rw [arg_type_loop_base dw 0 a _ reg last tname haf har hb hn]
          intro h; cases h
      · by_cases he : last.tag = DW_TAG_enumeration_type
        · rw [arg_type_loop_enum dw 0 a _ reg last haf har he]
          exact enum_type_case_ne_timeout last _ reg
        · rcases hstop with hs | hs | hs
          · exact absurd hs hb
          · exact absurd hs he
          · rw [arg_type_loop_no_type dw 0 a _ reg last haf har hb he hs]
            intro h; cases h
    exact ⟨hne, arg_type_loop_mono_le dw _ attr td reg hne⟩
  · intro hend
    have hne : arg_type_loop dw (ws.length + 2) attr td reg ≠ .timeout := by
      rw [hwalk, arg_type_loop_nonref_end dw 0 a _ reg last haf har hend]
      intro h; cases h
    refine ⟨?_, hne, arg_type_loop_mono_le dw _ attr td reg hne⟩
    obtain ⟨hb, he, a', ha', hform'⟩ := hend
    rw [hwalk, arg_type_loop_wrapper dw 0 a a' _ reg last haf har hb he ha'
      (fun h => by rw [hform'] at h; cases h)]
    rfl

/-- Witness of C20: the chain pointer, pointer, `char` of the sample program,
three records: the loop stops at the third iteration and not at the second. -/
theorem traversal_iterations_witness :
    arg_type_loop (sample_dw []) 2 (type_ref 5) type_data.init [] = .timeout ∧
      arg_type_loop (sample_dw []) 3 (type_ref 5) type_data.init [] ≠ .timeout :=
  have h := traversal_iterations (sample_dw []) (type_ref 5)
    [{ tag := DW_TAG_pointer_type, attrs := [type_ref 4], children := [] },
     { tag := DW_TAG_pointer_type, attrs := [type_ref 3], children := [] }]
    { tag := DW_TAG_base_type, name := some "char", children := [] }
    type_data.init []
    ⟨rfl, rfl, by decide, by decide, type_ref 4, rfl, rfl, rfl, by decide, by decide,
      type_ref 3, rfl, rfl, rfl⟩
  ⟨h.2.1, (h.2.2.1 (Or.inl rfl)).1⟩

/-- C11 (failing input): in a compile unit whose records are a function record
without a name followed by `f(int)` returning `int`, the lookup of `f` ends in
`strcmp` on a null pointer at the first record, for both specs and whatever
the budget; from `f`, the first record named `f`, the specs built are `@arg1`
and `@retval`. -/
theorem nameless_before_match_faults (fuel : Nat) :
    get_dwarf_argspec fuel nameless_first_dinfo "f" 0x1000 [] = .fault .strcmp_null ∧
      get_dwarf_retspec fuel nameless_first_dinfo "f" 0x1000 [] = .fault .strcmp_null ∧
      get_dwarf_argspec (1 + fuel) (sample_dinfo [func_of "f" [param_of 0] [type_ref 0]]) "f"
        0x1000 [] = .ret (some "@arg1", []) ∧
      get_dwarf_retspec (1 + fuel) (sample_dinfo [func_of "f" [param_of 0] [type_ref 0]]) "f"
        0x1000 [] = .ret (some "@retval", []) := by
  have h1 : get_dwarf_argspec 0 nameless_first_dinfo "f" 0x1000 [] = .fault .strcmp_null := rfl
  have h2 : get_dwarf_retspec 0 nameless_first_dinfo "f" 0x1000 [] = .fault .strcmp_null := rfl
  have h3 : get_dwarf_argspec 1 (sample_dinfo [func_of "f" [param_of 0] [type_ref 0]]) "f"
      0x1000 [] = .ret (some "@arg1", []) := rfl
  have h4 : get_dwarf_retspec 1 (sample_dinfo [func_of "f" [param_of 0] [type_ref 0]]) "f"
      0x1000 [] = .ret (some "@retval", []) := rfl
  have m1 := get_dwarf_argspec_mono 0 fuel nameless_first_dinfo "f" 0x1000 []
    (by rw [h1]; intro h; cases h)
  have m2 := get_dwarf_retspec_mono 0 fuel nameless_first_dinfo "f" 0x1000 []
    (by rw [h2]; intro h; cases h)
  rw [Nat.zero_add] at m1 m2
  refine ⟨m1.trans h1, m2.trans h2, ?_, ?_⟩
  · rw [get_dwarf_argspec_mono 1 fuel _ "f" 0x1000 [] (by rw [h3]; intro h; cases h), h3]
  · rw [get_dwarf_retspec_mono 1 fuel _ "f" 0x1000 [] (by rw [h4]; intro h; cases h), h4]

/-- C17 (counterexample): the function `g` whose two children are formal
parameters, the first of a pointer type whose wrapped type is itself, the
second an `int`: the leading run has two children, and `get_dwarf_argspec`
returns no string within any budget. -/
theorem cyclic_param_no_tokens :
    ¬ ∃ (fuel : Nat) (r : Option String × Registry),
      get_dwarf_argspec fuel cyclic_param_dinfo "g" 0x1000 [] = .ret r := by
  rintro ⟨fuel, r, h⟩
  have hres : Resolves cyclic_param_dinfo 0x1000 cyclic_param_dw
      { ranges := [(0x1000, 0x2000)],
        funcs := [{ tag := 0x2e, name := some "g", children := [param_of 0, param_of 1] }] } :=
    ⟨rfl, rfl⟩
  have hfirst : FirstMatch
      [({ tag := 0x2e, name := some "g", children := [param_of 0, param_of 1] } : Dwarf_Die)]
      "g" { tag := 0x2e, name := some "g", children := [param_of 0, param_of 1] } :=
    ⟨rfl, [], [], rfl, fun g hg => absurd hg (List.not_mem_nil g)⟩
  rw [get_dwarf_argspec_eq_loop fuel cyclic_param_dinfo "g" 0x1000 [] cyclic_param_dw _ _
    hres hfirst] at h
  have h2 : (argspec_loop cyclic_param_dw fuel [param_of 0, param_of 1] (arg_data.init "g")
      []).bind (fun r => Outcome.ret (r.1.argspec, r.2)) = .ret r := h
  rw [argspec_loop_param cyclic_param_dw fuel (param_of 0) [param_of 1] _ [] rfl,
    add_type_info_of_attr cyclic_param_dw fuel _ 256 (param_of 0) _ [] (type_ref 0) rfl,
    cyclic_param_loop_timeout] at h2
  cases h2

/-- C17 (amended): for the first record `f` of the requested name, whose
children are a run `params` of formal parameters followed by `tail` that is
empty or starts with a child that is not a formal parameter:
the outcome of `get_dwarf_argspec` is that of the loop over the run alone, so
the children after the run, formal parameters included, contribute nothing;
when the run is empty the result is null; a returned result is null for an
empty run and otherwise `@` and comma-joined tokens, one per child of the run;
and when the classification of every child of the run returns and each token
is at most 255 bytes long, so that it fits the 256-byte buffer, the result is
the spec with exactly one token per child. -/
theorem leading_run_tokens (fuel : Nat) (dinfo : debug_info) (name : String) (addr : Nat)
    (reg : Registry) (dw : Dwarf) (cu : CompileUnit) (f : Dwarf_Die)
    (params tail : List Dwarf_Die)
    (hres : Resolves dinfo addr dw cu) (hfirst : FirstMatch cu.funcs name f)
    (hchildren : f.children = params ++ tail)
    (hparams : ∀ p ∈ params, p.tag = DW_TAG_formal_parameter)
    (htail : ∀ q ∈ tail.head?, q.tag ≠ DW_TAG_formal_parameter) :
    get_dwarf_argspec fuel dinfo name addr reg =
        (argspec_loop dw fuel params (arg_data.init name) reg).bind
          (fun r => .ret (r.1.argspec, r.2)) ∧
      (params = [] → get_dwarf_argspec fuel dinfo name addr reg = .ret (none, reg)) ∧
      (∀ (res : Option String) (reg1 : Registry),
        get_dwarf_argspec fuel dinfo name addr reg = .ret (res, reg1) →
          (params = [] ∧ res = none) ∨
          ∃ toks : List String, toks.length = params.length ∧
            res = some ("@" ++ ",".intercalate toks)) ∧
      (∀ tds : List type_data,
        List.Forall₂ (fun p td => classify dw fuel p = .ret td) params tds →
        params ≠ [] → params.length < 2 ^ 31 →
        (∀ t ∈ claimed_tokens_from tds 0 tds, t.length ≤ 255) →
        (claimed_tokens_from tds 0 tds).length = params.length ∧
          ∃ reg1, get_dwarf_argspec fuel dinfo name addr reg =
            .ret (some (claimed_argspec tds), reg1)) := by
  have hrun : get_dwarf_argspec fuel dinfo name addr reg =
      (argspec_loop dw fuel params (arg_data.init name) reg).bind
        (fun r => .ret (r.1.argspec, r.2)) := by
    rw [get_dwarf_argspec_eq_loop fuel dinfo name addr reg dw cu f hres hfirst, hchildren,
      argspec_loop_run dw fuel tail htail params hparams]
  refine ⟨hrun, ?_, ?_, ?_⟩
  · intro hnil
    rw [hrun, hnil]
    rfl
  · intro res reg1 h
    rw [hrun] at h
    cases hloop : argspec_loop dw fuel params (arg_data.init name) reg with
    | ret r =>
      obtain ⟨ad1, reg2⟩ := r
      rw [hloop] at h
      simp only [bind_ret, Outcome.ret.injEq, Prod.mk.injEq] at h
      obtain ⟨toks, hl, ht⟩ := argspec_loop_count dw fuel params hparams _ _ _ _ hloop
      by_cases hnil : params = []
      · left
        refine ⟨hnil, ?_⟩
        rw [hnil] at hl
        have htoks : toks = [] := List.eq_nil_of_length_eq_zero hl
        rw [← h.1, ht, htoks]
        rfl
      · right
        refine ⟨toks, hl, ?_⟩
        have htoks : toks ≠ [] := by
          intro h0
          rw [h0] at hl
          exact hnil (List.eq_nil_of_length_eq_zero hl.symm)
        rw [← h.1, ht]
        exact join_tokens_none toks htoks
    | fault e => rw [hloop] at h; cases h
    | timeout => rw [hloop] at h; cases h
  · intro tds hclass hn hlen hfit
    refine ⟨?_, ?_⟩
    · rw [claimed_tokens_from_length, hclass.length_eq]
    · refine argspec_tokens_fit fuel dinfo name addr reg dw cu f params tail tds hres hfirst
        hchildren htail ?_ hn hlen hfit
      exact classified_with_tag dw fuel params tds hclass hparams

/-- C17 (amended), on the function `f` whose children are an `int` parameter,
a parameter of an enumeration with a name of 245 bytes, a variable and a `char`
parameter: the run is the first two children and the result is `@arg1` and
`arg2/e:` with the name, 253 bytes in all, with no token for the `char`
parameter after the variable. -/
theorem leading_run_tokens_witness :
    ∃ reg1, get_dwarf_argspec 1 wide_enum_dinfo "f" 0x1000 [] =
      .ret (some ("@arg1,arg2/e:" ++ wide_enum_name), reg1) :=
  ((leading_run_tokens 1 wide_enum_dinfo "f" 0x1000 [] wide_enum_dw
    { ranges := [(0x1000, 0x2000)],
      funcs := [{ tag := 0x2e, name := some "f",
                  children := [param_of 0, param_of 1,
                    { tag := 0x34, children := [] }, param_of 2] }] }
    { tag := 0x2e, name := some "f",
      children := [param_of 0, param_of 1, { tag := 0x34, children := [] }, param_of 2] }
    [param_of 0, param_of 1] [{ tag := 0x34, children := [] }, param_of 2]
    ⟨rfl, rfl⟩ ⟨rfl, [], [], rfl, fun g hg => absurd hg (List.not_mem_nil g)⟩
    rfl
    (fun p hp => by
      simp only [List.mem_cons, List.mem_singleton, List.not_mem_nil, or_false] at hp
      rcases hp with h | h <;> rw [h] <;> rfl)
    (fun q hq => by
      simp only [List.head?_cons, Option.mem_def, Option.some.injEq] at hq
      rw [← hq]
      decide)).2.2.2
    [type_data.init,
      { type_data.init with
        fmt := ARG_FMT_ENUM, enum_name := some wide_enum_name, enum_str := some "A=0" }]
    (List.Forall₂.cons rfl (List.Forall₂.cons rfl List.Forall₂.nil))
    (by simp) (by decide)
    (by decide)).2

/-- C18 (failing input): in the session whose function `h` takes an `int` and
an enumeration with a name of 249 bytes and returns that enumeration, every
function record and every base-type record has a name and the type graph is
acyclic; yet within no budget does `get_dwarf_argspec` or `get_dwarf_retspec`
return a value: from one iteration on, both end in `strcat` writing past the
256-byte buffer. -/
theorem named_acyclic_overflows :
    (∀ cu ∈ long_enum_both_dw.cus, ScannedNamed "h" cu.funcs) ∧
      BaseTypesNamed long_enum_both_dw ∧
      Acyclic long_enum_both_dw (fun _ => 0) ∧
      get_dwarf_argspec 0 long_enum_both_dinfo "h" 0x1000 [] = .timeout ∧
      get_dwarf_retspec 0 long_enum_both_dinfo "h" 0x1000 [] = .timeout ∧
      ∀ k : Nat,
        get_dwarf_argspec (1 + k) long_enum_both_dinfo "h" 0x1000 [] = .fault .overflow ∧
        get_dwarf_retspec (1 + k) long_enum_both_dinfo "h" 0x1000 [] = .fault .overflow := by
  have hdie : ∀ (o : Nat) (die : Dwarf_Die), long_enum_both_dw.offdie o = some die →
      (die.tag = DW_TAG_base_type ∧ die.name = some "int") ∨
      die.tag = DW_TAG_enumeration_type := by
    intro o die h
    match o, h with
    | 0, h =>
      left
      simp only [long_enum_both_dw, Option.some.injEq] at h
      rw [← h]
      exact ⟨rfl, rfl⟩
    | 1, h =>
      right
      simp only [long_enum_both_dw, Option.some.injEq] at h
      rw [← h]
    | n + 2, h => simp [long_enum_both_dw] at h
  refine ⟨?_, ?_, ?_, rfl, rfl, ?_⟩
  · intro cu hcu
    simp only [long_enum_both_dw, List.mem_singleton] at hcu
    rw [hcu]
    exact ⟨"h", rfl, fun h => absurd rfl h⟩
  · intro o die h hb
    rcases hdie o die h with ⟨_, hd⟩ | hd
    · rw [hd]; simp
    · rw [hd] at hb; exact absurd hb (by decide)
  · intro o die type h hb he
    rcases hdie o die h with ⟨hd, _⟩ | hd
    · exact absurd hd hb
    · exact absurd hd he
  · intro k
    have h1 : get_dwarf_argspec 1 long_enum_both_dinfo "h" 0x1000 [] = .fault .overflow := rfl
    have h2 : get_dwarf_retspec 1 long_enum_both_dinfo "h" 0x1000 [] = .fault .overflow := rfl
    refine ⟨?_, ?_⟩
    · rw [get_dwarf_argspec_mono 1 k long_enum_both_dinfo "h" 0x1000 []
        (by rw [h1]; intro h; cases h), h1]
    · rw [get_dwarf_retspec_mono 1 k long_enum_both_dinfo "h" 0x1000 []
        (by rw [h2]; intro h; cases h), h2]

end Uftrace
